import Mathlib

/-! # rcmconvert: a shallow embedding of the mesh codec

The development follows the C++ sources `rcm.h`, `internal/rcm_internal.h`,
`rcmwriter.cpp`, `rcmreader.cpp` and `command_parser.cpp`.

Conventions of the embedding

* A byte is a `Fin 256`.  A `float` is never interpreted numerically by the
  codec (it is only copied with `memcpy`, compared with `memcmp` and written
  raw), so a float is represented by its four bytes in memory order; two floats
  are bit-identical exactly when they are equal as `F32` values.
* Unsigned machine integers are natural numbers; every narrowing conversion the
  source performs is an explicit `%`.
* Loop counters of type `int` are followed as natural numbers, which is exact
  while they stay below `2^31`.  The byte count that `writeStructOfArraysData`
  accumulates in an `int` is converted to 32 bits at every step (`toInt32`).
* Multi-byte integers are laid out little-endian, structs without padding (the
  layout of the hosts the format is used on).
* A function whose C++ execution would read or write outside an allocation
  returns `none`.
* The contents of memory obtained from `new T[n]` are indeterminate in C++;
  they are a parameter (`uninit`) of every function that allocates.
* A `std::string` is a `String`, a `std::list` a `List`, a `std::map` the list
  of its entries; what a function prints is left out.
-/

namespace Rcm

/-! ## Bytes and floats -/

abbrev Byte := Fin 256

/-- A 32-bit float as its four bytes in memory order. -/
structure F32 where
  b0 : Byte
  b1 : Byte
  b2 : Byte
  b3 : Byte
deriving DecidableEq, Repr

/-- The object representation of a float. -/
def F32.bytes (f : F32) : List Byte := [f.b0, f.b1, f.b2, f.b3]

/-- The object representation of a float array. -/
def floatBytes : List F32 → List Byte
  | [] => []
  | f :: fs => f.bytes ++ floatBytes fs

/-! ## rcm.h: flags, component sizes, layout calculator -/

def kMagicNumber0 : Nat := 0xDE
def kMagicNumber1 : Nat := 0xAD
def kFileFormatVersionMajor : Nat := 0x0
def kFileFormatVersionMinor : Nat := 0x1

def kMaxNumTexCoords : Nat := 4
def kMaxNumColors : Nat := 4

def STRUCT_OF_ARRAYS : Nat := 0x1
def ARRAY_OF_STRUCTS : Nat := 0x2

def HAS_POSITIONS : Nat := 0x0001
def HAS_NORMALS : Nat := 0x0002
def HAS_UV0 : Nat := 0x0010
def HAS_UV1 : Nat := 0x0020
def HAS_UV2 : Nat := 0x0040
def HAS_UV3 : Nat := 0x0080
def HAS_COLOR0 : Nat := 0x0100
def HAS_COLOR1 : Nat := 0x0200
def HAS_COLOR2 : Nat := 0x0400
def HAS_COLOR3 : Nat := 0x0800
def HAS_TAN_AND_BITAN : Nat := 0x1000
def HAS_BONES : Nat := 0x2000
def USES_HALF_FLOAT : Nat := 0x8000

def kPositionSize : Nat := 3
def kNormalsSize : Nat := 3
def kTanSize : Nat := 3
def kBitanSize : Nat := 3
def kTextureSize : Nat := 2
def kColorSize : Nat := 4

def hasPositions (vertexFlags : Nat) : Bool := (vertexFlags &&& HAS_POSITIONS) != 0
def hasNormals (vertexFlags : Nat) : Bool := (vertexFlags &&& HAS_NORMALS) != 0
def hasTexCoords0 (vertexFlags : Nat) : Bool := (vertexFlags &&& HAS_UV0) != 0
def hasTexCoords1 (vertexFlags : Nat) : Bool := (vertexFlags &&& HAS_UV1) != 0
def hasTexCoords2 (vertexFlags : Nat) : Bool := (vertexFlags &&& HAS_UV2) != 0
def hasTexCoords3 (vertexFlags : Nat) : Bool := (vertexFlags &&& HAS_UV3) != 0
def hasColor0 (vertexFlags : Nat) : Bool := (vertexFlags &&& HAS_COLOR0) != 0
def hasColor1 (vertexFlags : Nat) : Bool := (vertexFlags &&& HAS_COLOR1) != 0
def hasColor2 (vertexFlags : Nat) : Bool := (vertexFlags &&& HAS_COLOR2) != 0
def hasColor3 (vertexFlags : Nat) : Bool := (vertexFlags &&& HAS_COLOR3) != 0
def hasTanBitan (vertexFlags : Nat) : Bool := (vertexFlags &&& HAS_TAN_AND_BITAN) != 0
def hasBones (vertexFlags : Nat) : Bool := (vertexFlags &&& HAS_BONES) != 0
def usesHalfFloat (vertexFlags : Nat) : Bool := (vertexFlags &&& USES_HALF_FLOAT) != 0

/-- The setter `setHasPositions`: the flags afterwards (a `uint16_t`). -/
def setHasPositions (vertexFlags : Nat) : Nat := (vertexFlags ||| HAS_POSITIONS) % 65536

def setHasNormals (vertexFlags : Nat) : Nat := (vertexFlags ||| HAS_NORMALS) % 65536

def setHasTanBitan (vertexFlags : Nat) : Nat := (vertexFlags ||| HAS_TAN_AND_BITAN) % 65536

def setHasBones (vertexFlags : Nat) : Nat := (vertexFlags ||| HAS_BONES) % 65536

def setUsesHalfFloat (vertexFlags : Nat) : Nat := (vertexFlags ||| USES_HALF_FLOAT) % 65536

/-- The setter `setHasTexCoords`: the count is clamped to `kMaxNumTexCoords`,
then `vertexFlags |= (HAS_UV0 << i)` runs for `i = 0 .. texCoordCount - 1`,
each result stored back into the `uint16_t`. -/
def setHasTexCoords (vertexFlags number : Nat) : Nat :=
  let texCoordCount := if number > kMaxNumTexCoords then kMaxNumTexCoords else number
  if texCoordCount > 0 then
    (List.range texCoordCount).foldl
      (fun flags i => (flags ||| (HAS_UV0 <<< i)) % 65536) vertexFlags
  else vertexFlags

/-- The setter `setHasColors`: as `setHasTexCoords`, from `HAS_COLOR0`. -/
def setHasColors (vertexFlags number : Nat) : Nat :=
  let colorCount := if number > kMaxNumColors then kMaxNumColors else number
  if colorCount > 0 then
    (List.range colorCount).foldl
      (fun flags i => (flags ||| (HAS_COLOR0 <<< i)) % 65536) vertexFlags
  else vertexFlags

def positionOffset : Nat := 0

def normalsOffset : Nat := kPositionSize

def texCoords0Offset (vertexFlags : Nat) : Nat :=
  if hasNormals vertexFlags then normalsOffset + kNormalsSize else normalsOffset

def texCoords1Offset (vertexFlags : Nat) : Nat :=
  let offset := texCoords0Offset vertexFlags
  if hasTexCoords0 vertexFlags then offset + kTextureSize else offset

def texCoords2Offset (vertexFlags : Nat) : Nat :=
  let offset := texCoords1Offset vertexFlags
  if hasTexCoords1 vertexFlags then offset + kTextureSize else offset

def texCoords3Offset (vertexFlags : Nat) : Nat :=
  let offset := texCoords2Offset vertexFlags
  if hasTexCoords2 vertexFlags then offset + kTextureSize else offset

def color0Offset (vertexFlags : Nat) : Nat :=
  let offset := texCoords3Offset vertexFlags
  if hasTexCoords3 vertexFlags then offset + kTextureSize else offset

def color1Offset (vertexFlags : Nat) : Nat :=
  let offset := color0Offset vertexFlags
  if hasColor0 vertexFlags then offset + kColorSize else offset

def color2Offset (vertexFlags : Nat) : Nat :=
  let offset := color1Offset vertexFlags
  if hasColor1 vertexFlags then offset + kColorSize else offset

def color3Offset (vertexFlags : Nat) : Nat :=
  let offset := color2Offset vertexFlags
  if hasColor2 vertexFlags then offset + kColorSize else offset

def tanOffset (vertexFlags : Nat) : Nat :=
  let offset := color3Offset vertexFlags
  if hasColor3 vertexFlags then offset + kColorSize else offset

def bitanOffset (vertexFlags : Nat) : Nat :=
  let offset := tanOffset vertexFlags
  if hasTanBitan vertexFlags then offset + kTanSize else offset

/-- The function `calcVertexSize`: the stride of a vertex in floats.  The
accumulator is an `unsigned short`; the largest possible sum is 36, so no
reduction modulo `2^16` is needed. -/
def calcVertexSize (vertexFlags : Nat) : Nat :=
  let vertexSize := 0
  let vertexSize := if hasPositions vertexFlags then vertexSize + kPositionSize else vertexSize
  let vertexSize := if hasNormals vertexFlags then vertexSize + kNormalsSize else vertexSize
  let vertexSize := if hasTexCoords0 vertexFlags then vertexSize + kTextureSize else vertexSize
  let vertexSize := if hasTexCoords1 vertexFlags then vertexSize + kTextureSize else vertexSize
  let vertexSize := if hasTexCoords2 vertexFlags then vertexSize + kTextureSize else vertexSize
  let vertexSize := if hasTexCoords3 vertexFlags then vertexSize + kTextureSize else vertexSize
  let vertexSize := if hasColor0 vertexFlags then vertexSize + kColorSize else vertexSize
  let vertexSize := if hasColor1 vertexFlags then vertexSize + kColorSize else vertexSize
  let vertexSize := if hasColor2 vertexFlags then vertexSize + kColorSize else vertexSize
  let vertexSize := if hasColor3 vertexFlags then vertexSize + kColorSize else vertexSize
  let vertexSize :=
    if hasTanBitan vertexFlags then vertexSize + (kTanSize + kBitanSize) else vertexSize
  vertexSize

/-! ## rcm_internal.h: `Vertex<float>` and the lookup map -/

/-- The template struct `Vertex<float>`: a size and an owned float array. -/
structure Vertex where
  size : Nat
  array : List F32
deriving DecidableEq, Repr

/-- The constructor `Vertex(size_t vertexSize)`: the array comes from
`new T[size]`, so its contents are whatever `fresh` holds. -/
def Vertex.new (vertexSize : Nat) (fresh : Nat → F32) : Vertex :=
  { size := vertexSize, array := (List.range vertexSize).map fresh }

/-- The function `memcmp(a, b, n)` over byte sequences: the sign of the first
difference among the first `n` bytes. -/
def memcmp : List Byte → List Byte → Nat → Int
  | a :: as, b :: bs, n + 1 =>
      if a = b then memcmp as bs n else (a.val : Int) - (b.val : Int)
  | _, _, _ => 0

/-- The member `Vertex::operator<`: `memcmp(this, that, sizeof(T) * size) > 0`. -/
def Vertex.lt (self that : Vertex) : Bool :=
  decide (memcmp (floatBytes self.array) (floatBytes that.array) (4 * self.size) > 0)

/-- The member `Vertex::operator==`: `memcmp(this, that, sizeof(T) * size) == 0`. -/
def Vertex.eq (self that : Vertex) : Bool :=
  decide (memcmp (floatBytes self.array) (floatBytes that.array) (4 * self.size) = 0)

/-- A `std::map<Vertex<float>, unsigned short>`, as its entries in insertion
order.  The map identifies keys by the equivalence of its comparator. -/
abbrev VertexMap := List (Vertex × Nat)

/-- Key equivalence of `std::map`: neither key is less than the other. -/
def VertexMap.equiv (a b : Vertex) : Bool := !(a.lt b) && !(b.lt a)

/-- The member `std::map::find`: the entry whose key is equivalent to `k`. -/
def VertexMap.find (m : VertexMap) (k : Vertex) : Option (Vertex × Nat) :=
  List.find? (fun e => VertexMap.equiv e.1 k) m

/-- The statement `m[k] = v`: overwrite the value of the equivalent key, or insert. -/
def VertexMap.assign (m : VertexMap) (k : Vertex) (v : Nat) : VertexMap :=
  match VertexMap.find m k with
  | some _ => m.map (fun e => if VertexMap.equiv e.1 k then (e.1, v) else e)
  | none => m ++ [(k, v)]

/-- The template `findVertexIndex`: `some result` when it returns true. -/
def findVertexIndex (vertices : VertexMap) (vertex : Vertex) : Option Nat :=
  match VertexMap.find vertices vertex with
  | none => none
  | some it => some it.2

/-- The call `memcpy(dst, src, n * sizeof(float))`: defined only when both
arrays hold `n` floats. -/
def memcpyFloats (dst src : List F32) (n : Nat) : Option (List F32) :=
  if n ≤ src.length ∧ n ≤ dst.length then some (src.take n ++ dst.drop n) else none

/-! ## rcmwriter.cpp: vertex deduplication -/

/-- The local state of the loop of `optimizeArrayOfStructs`. -/
structure WeldState where
  mymap : VertexMap
  indicesOut : List Nat
  verticesOut : List Vertex
deriving DecidableEq, Repr

/-- One iteration (loop index `i`) of `optimizeArrayOfStructs`.  The vertex is
constructed as `Vertex<float> vertex(8)`. -/
def optimizeStep (uninit : Nat → Nat → F32) (vertices : List F32) (vertexSize : Nat)
    (i : Nat) (s : WeldState) : Option WeldState :=
  let vertex := Vertex.new 8 (uninit i)
  let a := vertices.drop (i * vertexSize)
  match memcpyFloats vertex.array a vertexSize with
  | none => none
  | some arr =>
    let vertex : Vertex := { vertex with array := arr }
    match findVertexIndex s.mymap vertex with
    | none =>
      let verticesOut := s.verticesOut ++ [vertex]
      let newIndex := ((verticesOut.length % 65536) + 65535) % 65536
      some { mymap := VertexMap.assign s.mymap vertex newIndex,
             indicesOut := s.indicesOut ++ [newIndex],
             verticesOut := verticesOut }
    | some index =>
      some { s with indicesOut := s.indicesOut ++ [index] }

/-- The state after the first `k` iterations of the loop. -/
def optimizeIter (uninit : Nat → Nat → F32) (vertices : List F32) (vertexSize : Nat) :
    Nat → WeldState → Option WeldState
  | 0, s => some s
  | k + 1, s =>
    match optimizeIter uninit vertices vertexSize k s with
    | none => none
    | some s' => optimizeStep uninit vertices vertexSize k s'

/-- The function `optimizeArrayOfStructs`: the final contents of `indicesOut`
and `verticesOut` (its return value is the constant `true`).  The loop counter
`int i` is followed as a natural number here, which is exact for fewer than
`2^31` vertices; `optimizeArrayOfStructsCounted` adds the range of the
counter. -/
def optimizeArrayOfStructs (uninit : Nat → Nat → F32) (vertices : List F32)
    (vertexSize vertexCount : Nat) (indicesOut : List Nat) (verticesOut : List Vertex) :
    Option (List Nat × List Vertex) :=
  match optimizeIter uninit vertices vertexSize vertexCount
      { mymap := [], indicesOut := indicesOut, verticesOut := verticesOut } with
  | none => none
  | some s => some (s.indicesOut, s.verticesOut)

/-- The low byte of a number: the conversion to `uint8_t`. -/
def byteOf (x : Nat) : Byte := ⟨x % 256, Nat.mod_lt x (by decide)⟩

/-- The object representation of a `uint16_t`. -/
def u16Bytes (x : Nat) : List Byte := [byteOf x, byteOf (x / 256)]

/-- The object representation of a `uint32_t`. -/
def u32Bytes (x : Nat) : List Byte :=
  [byteOf x, byteOf (x / 256), byteOf (x / 65536), byteOf (x / 16777216)]

/-- The object representation of an array of `unsigned short`. -/
def indexBytes : List Nat → List Byte
  | [] => []
  | x :: xs => u16Bytes x ++ indexBytes xs

/-- The floats stored in a byte sequence, four bytes each. -/
def bytesToFloats : List Byte → List F32
  | b0 :: b1 :: b2 :: b3 :: rest => ⟨b0, b1, b2, b3⟩ :: bytesToFloats rest
  | _ => []

/-- The `unsigned short` values stored in a byte sequence, two bytes each. -/
def bytesToIndices : List Byte → List Nat
  | b0 :: b1 :: rest => (b0.val + 256 * b1.val) :: bytesToIndices rest
  | _ => []

/-- The struct `FileHeader`: six `uint8_t` fields. -/
structure FileHeader where
  magicNumber0 : Nat
  magicNumber1 : Nat
  version0 : Nat
  version1 : Nat
  objectCount : Nat
  unused : Nat
deriving DecidableEq, Repr

/-- The struct `ObjectHeader`: `uint8_t type, vertexSize; uint16_t vertexFlags;
uint32_t vertexCount, indexCount, boneCount`. -/
structure ObjectHeader where
  type : Nat
  vertexSize : Nat
  vertexFlags : Nat
  vertexCount : Nat
  indexCount : Nat
  boneCount : Nat
deriving DecidableEq, Repr

/-- The six bytes of a `FileHeader` in memory. -/
def FileHeader.bytes (h : FileHeader) : List Byte :=
  [byteOf h.magicNumber0, byteOf h.magicNumber1, byteOf h.version0, byteOf h.version1,
   byteOf h.objectCount, byteOf h.unused]

/-- The sixteen bytes of an `ObjectHeader` in memory. -/
def ObjectHeader.bytes (h : ObjectHeader) : List Byte :=
  [byteOf h.type, byteOf h.vertexSize] ++ u16Bytes h.vertexFlags ++ u32Bytes h.vertexCount ++
    u32Bytes h.indexCount ++ u32Bytes h.boneCount

/-- The `FileHeader` that six bytes of memory hold. -/
def FileHeader.ofBytes : List Byte → FileHeader
  | [m0, m1, v0, v1, c, u] =>
    { magicNumber0 := m0.val, magicNumber1 := m1.val, version0 := v0.val, version1 := v1.val,
      objectCount := c.val, unused := u.val }
  | _ => { magicNumber0 := 0, magicNumber1 := 0, version0 := 0, version1 := 0,
           objectCount := 0, unused := 0 }

/-- The `ObjectHeader` that sixteen bytes of memory hold. -/
def ObjectHeader.ofBytes : List Byte → ObjectHeader
  | [t, s, f0, f1, v0, v1, v2, v3, i0, i1, i2, i3, b0, b1, b2, b3] =>
    { type := t.val, vertexSize := s.val, vertexFlags := f0.val + 256 * f1.val,
      vertexCount := v0.val + 256 * v1.val + 65536 * v2.val + 16777216 * v3.val,
      indexCount := i0.val + 256 * i1.val + 65536 * i2.val + 16777216 * i3.val,
      boneCount := b0.val + 256 * b1.val + 65536 * b2.val + 16777216 * b3.val }
  | _ => { type := 0, vertexSize := 0, vertexFlags := 0, vertexCount := 0, indexCount := 0,
           boneCount := 0 }

/-- The struct `Mesh` (its `name` field, which the codec never reads, is left
out).  `flags` is an `unsigned short`, the counts are `unsigned int`,
`vertexSize` is a `size_t`, `indices` holds `unsigned short` values. -/
structure Mesh where
  flags : Nat
  numVertices : Nat
  numIndices : Nat
  numBones : Nat
  numColors : Nat
  numTexCoords : Nat
  vertexSize : Nat
  vertices : List F32
  indices : List Nat
deriving DecidableEq, Repr

/-- The struct `ObjectData`. -/
structure ObjectData where
  vertexFlags : Nat
  position : List F32
  normals : List F32
  uvs0 : List F32
  uvs1 : List F32
  uvs2 : List F32
  uvs3 : List F32
  color0 : List F32
  color1 : List F32
  color2 : List F32
  color3 : List F32
  tangents : List F32
  bitangents : List F32
deriving DecidableEq, Repr

/-- An open `std::ofstream`: the bytes written so far. -/
abbrev OStream := List Byte

/-- A `std::ifstream`: the file contents, the get position, whether the stream
is still good (neither `failbit` nor `eofbit` set) and whether it is open. -/
structure IStream where
  content : List Byte
  pos : Nat
  good : Bool
  isOpen : Bool
deriving DecidableEq, Repr

/-- A freshly opened input file. -/
def IStream.ofBytes (content : List Byte) : IStream :=
  { content := content, pos := 0, good := true, isOpen := true }

/-- The member `close`. -/
def IStream.close (s : IStream) : IStream := { s with isOpen := false }

/-- The member `istream::read(buf, n)`: the bytes extracted and the stream
afterwards.  A stream that is not good extracts nothing; a stream that holds
fewer than `n` bytes extracts what is left and stops being good. -/
def IStream.read (s : IStream) (n : Nat) : List Byte × IStream :=
  if s.isOpen && s.good then
    let avail := s.content.drop s.pos
    if n ≤ avail.length then (avail.take n, { s with pos := s.pos + n })
    else (avail, { s with pos := s.content.length, good := false })
  else ([], { s with good := false })

/-- The call `in.read((char*) buf, n)` for a buffer that held `prior` (`n`
bytes): the buffer afterwards.  Bytes that were not extracted keep their prior
value. -/
def IStream.readInto (s : IStream) (prior : List Byte) : List Byte × IStream :=
  let r := s.read prior.length
  (r.1 ++ prior.drop r.1.length, r.2)

/-- The struct `Bla`: the header, the array of `float*` (a null pointer is
`none`) and the indices. -/
structure Bla where
  header : ObjectHeader
  vertices : List (Option (List F32))
  indices : List Nat
deriving DecidableEq, Repr

/-! ## rcmwriter.cpp: headers -/

/-- The function `createFileHeader`. -/
def createFileHeader (numObjects : Nat) : FileHeader :=
  { magicNumber0 := kMagicNumber0, magicNumber1 := kMagicNumber1,
    version0 := kFileFormatVersionMajor, version1 := kFileFormatVersionMinor,
    objectCount := numObjects % 256, unused := 0 }

/-- The function `writeFileHeader`: the stream afterwards and the return value. -/
def writeFileHeader (out : OStream) (header : Option FileHeader) : OStream × Int :=
  match header with
  | none => (out, -1)
  | some header => (out ++ header.bytes, 6)

/-- The function `createObjectHeader`; the arguments are converted to the
parameter types `unsigned short`, `unsigned int` and `unsigned char`. -/
def createObjectHeader (vertexFlags vertexCount indexCount boneCount vertexSize : Nat)
    (useStructOfArrays : Bool) : ObjectHeader :=
  { type := if useStructOfArrays then STRUCT_OF_ARRAYS else ARRAY_OF_STRUCTS,
    vertexSize := vertexSize % 256,
    vertexFlags := vertexFlags % 65536,
    vertexCount := vertexCount % 4294967296,
    indexCount := indexCount % 4294967296,
    boneCount := boneCount % 4294967296 }

/-- The function `writeObjectHeader`: the stream afterwards and the return value. -/
def writeObjectHeader (out : OStream) (header : Option ObjectHeader) : OStream × Int :=
  match header with
  | none => (out, -1)
  | some header => (out ++ header.bytes, 16)

/-! ## rcmwriter.cpp: layout transcoder and data writers -/

/-- The statement `dst.push_back(vertex.array[index++])` repeated `n` times, run
only when the component's flag `has` is set. -/
def pushComponent (has : Bool) (array dst : List F32) (index n : Nat) :
    Option (List F32 × Nat) :=
  if has then
    if index + n ≤ array.length then some (dst ++ (array.drop index).take n, index + n)
    else none
  else some (dst, index)

/-- The body of the loop of `convertArrayOfStructsToStructOfArrays` for one vertex. -/
def convertVertex (vertexFlags : Nat) (vertex : Vertex) (object : ObjectData) :
    Option ObjectData :=
  match pushComponent (hasPositions vertexFlags) vertex.array object.position 0 3 with
  | none => none
  | some (position, index) =>
  match pushComponent (hasNormals vertexFlags) vertex.array object.normals index 3 with
  | none => none
  | some (normals, index) =>
  match pushComponent (hasTexCoords0 vertexFlags) vertex.array object.uvs0 index 2 with
  | none => none
  | some (uvs0, index) =>
  match pushComponent (hasTexCoords1 vertexFlags) vertex.array object.uvs1 index 2 with
  | none => none
  | some (uvs1, index) =>
  match pushComponent (hasTexCoords2 vertexFlags) vertex.array object.uvs2 index 2 with
  | none => none
  | some (uvs2, index) =>
  match pushComponent (hasTexCoords3 vertexFlags) vertex.array object.uvs3 index 2 with
  | none => none
  | some (uvs3, index) =>
  match pushComponent (hasColor0 vertexFlags) vertex.array object.color0 index 4 with
  | none => none
  | some (color0, index) =>
  match pushComponent (hasColor1 vertexFlags) vertex.array object.color1 index 4 with
  | none => none
  | some (color1, index) =>
  match pushComponent (hasColor2 vertexFlags) vertex.array object.color2 index 4 with
  | none => none
  | some (color2, index) =>
  match pushComponent (hasColor3 vertexFlags) vertex.array object.color3 index 4 with
  | none => none
  | some (color3, index) =>
  match pushComponent (hasTanBitan vertexFlags) vertex.array object.tangents index 3 with
  | none => none
  | some (tangents, index) =>
  match pushComponent (hasTanBitan vertexFlags) vertex.array object.bitangents index 3 with
  | none => none
  | some (bitangents, _) =>
    some { vertexFlags := object.vertexFlags, position := position, normals := normals,
           uvs0 := uvs0, uvs1 := uvs1, uvs2 := uvs2, uvs3 := uvs3,
           color0 := color0, color1 := color1, color2 := color2, color3 := color3,
           tangents := tangents, bitangents := bitangents }

/-- The loop of `convertArrayOfStructsToStructOfArrays`. -/
def convertVertices (vertexFlags : Nat) : List Vertex → ObjectData → Option ObjectData
  | [], object => some object
  | vertex :: rest, object =>
    match convertVertex vertexFlags vertex object with
    | none => none
    | some object => convertVertices vertexFlags rest object

/-- The function `convertArrayOfStructsToStructOfArrays`; its parameter
`vertexSize` is unused in the source. -/
def convertArrayOfStructsToStructOfArrays (vertices : List Vertex) (vertexFlags : Nat)
    (_vertexSize : Nat) : Option ObjectData :=
  convertVertices vertexFlags vertices
    { vertexFlags := vertexFlags, position := [], normals := [], uvs0 := [], uvs1 := [],
      uvs2 := [], uvs3 := [], color0 := [], color1 := [], color2 := [], color3 := [],
      tangents := [], bitangents := [] }

/-- The loop of `writeArrayOfStructsData`: `size / 4` floats of every vertex. -/
def writeVertexArrays (floats : Nat) : List Vertex → OStream → Option OStream
  | [], out => some out
  | vertex :: rest, out =>
    if floats ≤ vertex.array.length then
      writeVertexArrays floats rest (out ++ floatBytes (vertex.array.take floats))
    else none

/-- The function `writeArrayOfStructsData`: the stream afterwards and the
return value.  It takes the byte size of a vertex from `vertices[0]`. -/
def writeArrayOfStructsData (out : OStream) (vertices : List Vertex) : Option (OStream × Int) :=
  match vertices with
  | [] => none
  | first :: _ =>
    match writeVertexArrays first.size vertices out with
    | none => none
    | some out => some (out, ((first.size * 4 : Nat) : Int))

/-- The conversion of an integer value to `int` (32 bits, two's complement): the
value with the same residue modulo `2^32` between `-2^31` and `2^31 - 1`. -/
def toInt32 (z : Int) : Int := (z + 2147483648) % 4294967296 - 2147483648

/-- The function `writeStructOfArraysData`: the stream afterwards and the
return value.  The position block is written without a test of its flag.  The
byte counter `size` is an `int`: every `size += n * sizeof(float)` adds a
`size_t` and converts the sum back to `int`. -/
def writeStructOfArraysData (out : OStream) (data : ObjectData) : OStream × Int :=
  let size : Int := 0
  let out := out ++ floatBytes data.position
  let size := toInt32 (size + ((data.position.length * 4 : Nat) : Int))
  let (out, size) := if hasNormals data.vertexFlags then
    (out ++ floatBytes data.normals, toInt32 (size + ((data.normals.length * 4 : Nat) : Int)))
    else (out, size)
  let (out, size) := if hasTexCoords0 data.vertexFlags then
    (out ++ floatBytes data.uvs0, toInt32 (size + ((data.uvs0.length * 4 : Nat) : Int)))
    else (out, size)
  let (out, size) := if hasTexCoords1 data.vertexFlags then
    (out ++ floatBytes data.uvs1, toInt32 (size + ((data.uvs1.length * 4 : Nat) : Int)))
    else (out, size)
  let (out, size) := if hasTexCoords2 data.vertexFlags then
    (out ++ floatBytes data.uvs2, toInt32 (size + ((data.uvs2.length * 4 : Nat) : Int)))
    else (out, size)
  let (out, size) := if hasTexCoords3 data.vertexFlags then
    (out ++ floatBytes data.uvs3, toInt32 (size + ((data.uvs3.length * 4 : Nat) : Int)))
    else (out, size)
  let (out, size) := if hasColor0 data.vertexFlags then
    (out ++ floatBytes data.color0, toInt32 (size + ((data.color0.length * 4 : Nat) : Int)))
    else (out, size)
  let (out, size) := if hasColor1 data.vertexFlags then
    (out ++ floatBytes data.color1, toInt32 (size + ((data.color1.length * 4 : Nat) : Int)))
    else (out, size)
  let (out, size) := if hasColor2 data.vertexFlags then
    (out ++ floatBytes data.color2, toInt32 (size + ((data.color2.length * 4 : Nat) : Int)))
    else (out, size)
  let (out, size) := if hasColor3 data.vertexFlags then
    (out ++ floatBytes data.color3, toInt32 (size + ((data.color3.length * 4 : Nat) : Int)))
    else (out, size)
  let (out, size) := if hasTanBitan data.vertexFlags then
    (out ++ floatBytes data.tangents ++ floatBytes data.bitangents,
      toInt32 (toInt32 (size + ((data.tangents.length * 4 : Nat) : Int)) +
        ((data.bitangents.length * 4 : Nat) : Int)))
    else (out, size)
  (out, size)

/-- The loop of `writeElementArray`, `for (i = offset; i < limit; i += vertexSize)`,
with `fuel` bounding the number of iterations.  The counter is an `int`; it is
followed as a natural number, which is exact for buffers of fewer than `2^31`
floats. -/
def writeElementLoop (vertices : List F32) (limit vertexSize elementSize : Nat) :
    Nat → Nat → OStream → Option OStream
  | 0, _, out => some out
  | fuel + 1, i, out =>
    if i < limit then
      if i + elementSize ≤ vertices.length then
        writeElementLoop vertices limit vertexSize elementSize fuel (i + vertexSize)
          (out ++ floatBytes ((vertices.drop i).take elementSize))
      else none
    else some out

/-- The function `writeElementArray`.  The loop runs at most `limit` times
(no time at all when `vertexSize` is 0, for then `limit` is 0). -/
def writeElementArray (out : OStream) (mesh : Mesh) (offset elementSize : Nat) :
    Option OStream :=
  let limit := mesh.numVertices * mesh.vertexSize
  writeElementLoop mesh.vertices limit mesh.vertexSize elementSize limit offset out

/-- One guarded call `if (has) writeElementArray(out, mesh, offset, size)`. -/
def writeElementArrayIf (has : Bool) (out : Option OStream) (mesh : Mesh)
    (offset elementSize : Nat) : Option OStream :=
  match out with
  | none => none
  | some out => if has then writeElementArray out mesh offset elementSize else some out

/-! ## rcmwriter.cpp: objects and files -/

/-- The struct-of-arrays branch of the unoptimized `writeObject`. -/
def writeColumns (out : OStream) (mesh : Mesh) : Option OStream :=
  let vertexFlags := mesh.flags
  let out := writeElementArrayIf (hasPositions vertexFlags) (some out) mesh
    positionOffset kPositionSize
  let out := writeElementArrayIf (hasNormals vertexFlags) out mesh normalsOffset kNormalsSize
  let out := writeElementArrayIf (hasTexCoords0 vertexFlags) out mesh
    (texCoords0Offset vertexFlags) kTextureSize
  let out := writeElementArrayIf (hasTexCoords1 vertexFlags) out mesh
    (texCoords1Offset vertexFlags) kTextureSize
  let out := writeElementArrayIf (hasTexCoords2 vertexFlags) out mesh
    (texCoords2Offset vertexFlags) kTextureSize
  let out := writeElementArrayIf (hasTexCoords3 vertexFlags) out mesh
    (texCoords3Offset vertexFlags) kTextureSize
  let out := writeElementArrayIf (hasColor0 vertexFlags) out mesh
    (color0Offset vertexFlags) kColorSize
  let out := writeElementArrayIf (hasColor1 vertexFlags) out mesh
    (color1Offset vertexFlags) kColorSize
  let out := writeElementArrayIf (hasColor2 vertexFlags) out mesh
    (color2Offset vertexFlags) kColorSize
  let out := writeElementArrayIf (hasColor3 vertexFlags) out mesh
    (color3Offset vertexFlags) kColorSize
  let out := writeElementArrayIf (hasTanBitan vertexFlags) out mesh
    (tanOffset vertexFlags) kTanSize
  writeElementArrayIf (hasTanBitan vertexFlags) out mesh (bitanOffset vertexFlags) kBitanSize

/-- The function `writeObject`: the stream afterwards and the return value.
`uninit` stands for the contents of the arrays the weld allocates. -/
def writeObject (uninit : Nat → Nat → F32) (out : OStream) (mesh : Option Mesh)
    (doOptimize useStructOfArrays : Bool) : Option (OStream × Bool) :=
  match mesh with
  | none => some (out, false)
  | some mesh =>
    let vertexFlags := mesh.flags
    if doOptimize then
      match optimizeArrayOfStructs uninit mesh.vertices mesh.vertexSize mesh.numVertices
          [] [] with
      | none => none
      | some (indicesOut, verticesOut) =>
        let header := createObjectHeader mesh.flags verticesOut.length indicesOut.length
          mesh.numBones mesh.vertexSize useStructOfArrays
        let out := (writeObjectHeader out (some header)).1
        let data :=
          if useStructOfArrays then
            match convertArrayOfStructsToStructOfArrays verticesOut vertexFlags
                mesh.vertexSize with
            | none => none
            | some data => some (writeStructOfArraysData out data).1
          else
            match writeArrayOfStructsData out verticesOut with
            | none => none
            | some r => some r.1
        match data with
        | none => none
        | some out => some (out ++ indexBytes indicesOut, true)
    else
      let header := createObjectHeader mesh.flags mesh.numVertices mesh.numIndices
        mesh.numBones mesh.vertexSize useStructOfArrays
      let out := (writeObjectHeader out (some header)).1
      let data :=
        if useStructOfArrays then writeColumns out mesh
        else if mesh.numVertices * mesh.vertexSize ≤ mesh.vertices.length then
          some (out ++ floatBytes (mesh.vertices.take (mesh.numVertices * mesh.vertexSize)))
        else none
      match data with
      | none => none
      | some out =>
        if mesh.numIndices ≤ mesh.indices.length then
          some (out ++ indexBytes (mesh.indices.take mesh.numIndices), true)
        else none

/-- The loop of `writeFile`. -/
def writeObjects (uninit : Nat → Nat → Nat → F32) (doOptimize useStructOfArrays : Bool) :
    List (Option Mesh) → Nat → OStream → Option OStream
  | [], _, out => some out
  | mesh :: rest, i, out =>
    match writeObject (uninit i) out mesh doOptimize useStructOfArrays with
    | none => none
    | some r => writeObjects uninit doOptimize useStructOfArrays rest (i + 1) r.1

/-- The function `writeFile` for an output file that could be opened: the bytes
of the file.  (The source has no `return` on this path; when the file cannot be
opened it writes nothing and returns false.)  The defaults of the source are
`doOptimize = true`, `useStructOfArrays = false`. -/
def writeFile (uninit : Nat → Nat → Nat → F32) (meshes : List (Option Mesh))
    (doOptimize useStructOfArrays : Bool) : Option OStream :=
  let fileHeader := createFileHeader meshes.length
  let out := (writeFileHeader [] (some fileHeader)).1
  writeObjects uninit doOptimize useStructOfArrays meshes 0 out

/-! ## rcmreader.cpp -/

/-- The bytes of a fresh allocation `a` of `n` bytes. -/
def freshBytes (uninit : Nat → Nat → Byte) (a n : Nat) : List Byte :=
  (List.range n).map (uninit a)

/-- The function `readFileHeader`: the header (`none` for a null pointer) and the
stream afterwards.  The header object is value-initialised (all zero). -/
def readFileHeader (inp : IStream) : Option FileHeader × IStream :=
  if !inp.isOpen then (none, inp)
  else
    let length := if inp.good then inp.content.length else 18446744073709551615
    let inp := if inp.good then { inp with pos := 0 } else inp
    if length < 6 then (none, inp.close)
    else
      let r := inp.readInto (List.replicate 6 0)
      let header := FileHeader.ofBytes r.1
      if header.magicNumber0 ≠ kMagicNumber0 ∨ header.magicNumber1 ≠ kMagicNumber1 then
        (none, r.2.close)
      else (some header, r.2)

/-- The function `readObjectHeader`.  The header object is value-initialised. -/
def readObjectHeader (inp : IStream) : Option ObjectHeader × IStream :=
  if !inp.isOpen then (none, inp)
  else
    let r := inp.readInto (List.replicate 16 0)
    (some (ObjectHeader.ofBytes r.1), r.2)

/-- The function `readArrayOfStructs`.  Allocation 0 is the vertex block,
allocation 1 the index block. -/
def readArrayOfStructs (uninit : Nat → Nat → Byte) (inp : IStream) (object : ObjectHeader) :
    Option Bla × IStream :=
  if !inp.isOpen then (none, inp)
  else
    let vertexCount := object.vertexCount
    let indexCount := object.indexCount
    let vertexSize := calcVertexSize object.vertexFlags
    let size := (vertexCount * vertexSize) % 4294967296
    let rv := inp.readInto (freshBytes uninit 0 (size * 4))
    let ri := rv.2.readInto (freshBytes uninit 1 (indexCount * 2))
    (some { header := object, vertices := [some (bytesToFloats rv.1)],
            indices := bytesToIndices ri.1 }, ri.2)

/-- The function `readData` for the slot `slot`: the array read and the stream
afterwards. -/
def readData (uninit : Nat → Nat → Byte) (inp : IStream) (slot elementSize vertexCount : Nat) :
    List F32 × IStream :=
  let size := (elementSize * vertexCount) % 4294967296
  let r := inp.readInto (freshBytes uninit slot (size * 4))
  (bytesToFloats r.1, r.2)

/-- One guarded call `if (has) readData(in, &bla->vertices[slot], size, vertexCount)`
on the pair of the slots and the stream. -/
def readDataIf (uninit : Nat → Nat → Byte) (has : Bool)
    (st : List (Option (List F32)) × IStream) (slot elementSize vertexCount : Nat) :
    List (Option (List F32)) × IStream :=
  if has then
    let r := readData uninit st.2 slot elementSize vertexCount
    (st.1.set slot (some r.1), r.2)
  else st

/-- The function `readStructOfArrays`.  Allocation `k < 12` is the array of
slot `k`, allocation 12 the index block.  The normals are read under the test
`hasPositions`, as in the source. -/
def readStructOfArrays (uninit : Nat → Nat → Byte) (inp : IStream) (object : ObjectHeader) :
    Option Bla × IStream :=
  if !inp.isOpen then (none, inp)
  else
    let vertexFlags := object.vertexFlags
    let vertexCount := object.vertexCount
    let indexCount := object.indexCount
    let numVertexElements := 12
    let st : List (Option (List F32)) × IStream := (List.replicate numVertexElements none, inp)
    let st := readDataIf uninit (hasPositions vertexFlags) st 0 kPositionSize vertexCount
    let st := readDataIf uninit (hasPositions vertexFlags) st 1 kNormalsSize vertexCount
    let st := readDataIf uninit (hasTexCoords0 vertexFlags) st 2 kTextureSize vertexCount
    let st := readDataIf uninit (hasTexCoords1 vertexFlags) st 3 kTextureSize vertexCount
    let st := readDataIf uninit (hasTexCoords2 vertexFlags) st 4 kTextureSize vertexCount
    let st := readDataIf uninit (hasTexCoords3 vertexFlags) st 5 kTextureSize vertexCount
    let st := readDataIf uninit (hasColor0 vertexFlags) st 6 kColorSize vertexCount
    let st := readDataIf uninit (hasColor1 vertexFlags) st 7 kColorSize vertexCount
    let st := readDataIf uninit (hasColor2 vertexFlags) st 8 kColorSize vertexCount
    let st := readDataIf uninit (hasColor3 vertexFlags) st 9 kColorSize vertexCount
    let st := readDataIf uninit (hasTanBitan vertexFlags) st 10 kTanSize vertexCount
    let st := readDataIf uninit (hasTanBitan vertexFlags) st 11 kBitanSize vertexCount
    let ri := st.2.readInto (freshBytes uninit 12 (indexCount * 2))
    (some { header := object, vertices := st.1, indices := bytesToIndices ri.1 }, ri.2)

/-! ## command_parser.cpp

The help texts and the usage string (string streams that only
`showHelpDialog` and `showError` print) are left out; `showError` writes to
`std::cerr` only and has no counterpart here. -/

/-- A `std::map<std::string, V>`, as its entries in insertion order. -/
abbrev StringMap (V : Type) := List (String × V)

/-- The member `std::map::find`: the value stored under `key`, `none` for
`end()`. -/
def StringMap.find {V : Type} (m : StringMap V) (key : String) : Option V :=
  match m with
  | [] => none
  | e :: rest => if e.1 = key then some e.2 else StringMap.find rest key

/-- The member `std::map::insert`: a key that is present keeps its value. -/
def StringMap.insert {V : Type} (m : StringMap V) (key : String) (value : V) : StringMap V :=
  match StringMap.find m key with
  | some _ => m
  | none => m ++ [(key, value)]

/-- The statement `m[key] = value`: overwrite the value of the key, or insert. -/
def StringMap.assign {V : Type} (m : StringMap V) (key : String) (value : V) : StringMap V :=
  match StringMap.find m key with
  | some _ => m.map (fun e => if e.1 = key then (e.1, value) else e)
  | none => m ++ [(key, value)]

/-- The class `CommandParser`: the argument list, the registered options
(`true` marks an option that takes a value), the results of parsing, the help
option and the program name. -/
structure CommandParser where
  mArgList : List String
  mOptions : StringMap Bool
  mBoolResults : StringMap Bool
  mValueResults : StringMap String
  mTrailingArgs : List String
  mHelpOption : String
  mProgramName : String
deriving DecidableEq, Repr

/-- The constructor `CommandParser(argc, argv)`, `argv` holding the `argc`
strings of the command line. -/
def CommandParser.new (argv : List String) : CommandParser :=
  { mArgList := argv.tail, mOptions := [], mBoolResults := [], mValueResults := [],
    mTrailingArgs := [], mHelpOption := "", mProgramName := argv.headD "" }

/-- The member `addHelpOption`. -/
def CommandParser.addHelpOption (p : CommandParser) (option : String) : CommandParser :=
  { p with mOptions := StringMap.insert p.mOptions option false, mHelpOption := option }

/-- The member `addBoolOption`. -/
def CommandParser.addBoolOption (p : CommandParser) (option : String) : CommandParser :=
  { p with mOptions := StringMap.insert p.mOptions option false }

/-- The member `addValueOption`. -/
def CommandParser.addValueOption (p : CommandParser) (option : String) : CommandParser :=
  { p with mOptions := StringMap.insert p.mOptions option true }

/-- The member `boolOption`. -/
def CommandParser.boolOption (p : CommandParser) (option : String) (defaultVal : Bool) : Bool :=
  match StringMap.find p.mBoolResults option with
  | some value => value
  | none => defaultVal

/-- The member `valueOption`. -/
def CommandParser.valueOption (p : CommandParser) (option : String) (defaultVal : String) :
    String :=
  match StringMap.find p.mValueResults option with
  | some value => value
  | none => defaultVal

/-- The member `trailingArgs`. -/
def CommandParser.trailingArgs (p : CommandParser) : List String := p.mTrailingArgs

/-- The member `clearParsingData`. -/
def CommandParser.clearParsingData (p : CommandParser) : CommandParser :=
  { p with mBoolResults := [], mValueResults := [], mTrailingArgs := [] }

/-- The test `arg.compare(0, 1, "-") == 0`: the first character of the argument
is a dash (an empty argument has none). -/
def startsWithDash (arg : String) : Bool := arg.data.head? == some '-'

/-- The loop of `CommandParser::parse`, with `fuel` bounding the number of
iterations: the parser when the loop is left and `status`.  At the start of
every iteration `listIt` is `mArgList.begin()`: the branch of an unknown
argument erases the element at the iterator and goes on with its successor,
the other two erase and reset the iterator.  Every iteration that goes on
erases at least one element, so the length of `mArgList` is enough fuel. -/
def CommandParser.parseLoop : Nat → CommandParser → CommandParser × Int
  | 0, p => (p, 0)
  | fuel + 1, p =>
    match p.mArgList with
    | [] => (p, 0)
    | arg :: rest =>
      match StringMap.find p.mOptions arg with
      | none =>
        if !startsWithDash arg then
          CommandParser.parseLoop fuel
            { p with mTrailingArgs := p.mTrailingArgs ++ [arg], mArgList := rest }
        else (p, -1)
      | some true =>
        match rest with
        | value :: rest' =>
          if !startsWithDash value then
            CommandParser.parseLoop fuel
              { p with mTrailingArgs := [],
                       mValueResults := StringMap.assign p.mValueResults arg value,
                       mArgList := rest' }
          else ({ p with mTrailingArgs := [], mArgList := rest }, -1)
        | [] => ({ p with mTrailingArgs := [], mArgList := rest }, -1)
      | some false =>
        CommandParser.parseLoop fuel
          { p with mTrailingArgs := [],
                   mBoolResults := StringMap.assign p.mBoolResults arg true,
                   mArgList := rest }

/-- The member `parse`: the parser afterwards and the return value. -/
def CommandParser.parse (p : CommandParser) : CommandParser × Int :=
  let r := CommandParser.parseLoop p.mArgList.length p
  if r.2 < 0 then (r.1.clearParsingData, r.2) else r

/-! ## Notions used to state the properties -/

/-- The `i`-th window of `stride` floats of a flat buffer. -/
def window (vertices : List F32) (stride i : Nat) : List F32 :=
  (vertices.drop (i * stride)).take stride

/-- The vertex object that iteration `i` of the weld builds: the window of the
input followed by what the fresh 8-float array held beyond it. -/
def weldVertex (uninit : Nat → Nat → F32) (vertices : List F32) (vertexSize i : Nat) : Vertex :=
  { size := 8,
    array := window vertices vertexSize i ++ ((List.range 8).map (uninit i)).drop vertexSize }

/-- The vertex objects of the first `k` iterations. -/
def weldVertices (uninit : Nat → Nat → F32) (vertices : List F32) (vertexSize k : Nat) :
    List Vertex :=
  (List.range k).map (weldVertex uninit vertices vertexSize)

/-- Order-preserving deduplication: the distinct elements of a list in order of
first occurrence. -/
def firstOccurrences {α : Type} [DecidableEq α] (l : List α) : List α :=
  l.foldl (fun acc v => if v ∈ acc then acc else acc ++ [v]) []

/-- A vertex whose array holds exactly `size` floats. -/
def Vertex.Sized (v : Vertex) (n : Nat) : Prop := v.size = n ∧ v.array.length = n

/-- The lookup map that belongs to a list of unique vertices: the vertex at
position `j` is bound to `j` reduced to 16 bits. -/
def mapOf (n : Nat) (U : List Vertex) : VertexMap :=
  (U.enumFrom n).map (fun p => (p.2, p.1 % 65536))

/-- The first `n` windows of `stride` floats of a flat buffer: its vertices. -/
def windows (vertices : List F32) (stride n : Nat) : List (List F32) :=
  (List.range n).map (window vertices stride)

/-- A well-formed raw mesh: the fields fit their C types (`flags` 16 bits, the
counts 32 bits, every index 16 bits) and the two buffers have their declared
lengths. -/
def Mesh.WellFormed (m : Mesh) : Prop :=
  m.flags < 65536 ∧ m.numVertices < 4294967296 ∧ m.numIndices < 4294967296 ∧
  m.vertices.length = m.numVertices * m.vertexSize ∧ m.indices.length = m.numIndices ∧
  ∀ x ∈ m.indices, x < 65536

instance (m : Mesh) : Decidable m.WellFormed := by
  unfold Mesh.WellFormed
  infer_instance

/-- Reading one object back the way the reader tests do: the object header,
then the data in the layout asked for. -/
def readObjectBack (uninit : Nat → Nat → Byte) (bytes : List Byte) (structOfArrays : Bool) :
    Option Bla :=
  match readObjectHeader (IStream.ofBytes bytes) with
  | (none, _) => none
  | (some header, inp) =>
    if structOfArrays then (readStructOfArrays uninit inp header).1
    else (readArrayOfStructs uninit inp header).1

/-- Reading the first object of a file back: the file header, the object
header, then the interleaved data. -/
def readFileBack (uninit : Nat → Nat → Byte) (bytes : List Byte) : Option Bla :=
  match readFileHeader (IStream.ofBytes bytes) with
  | (none, _) => none
  | (some _, inp) =>
    match readObjectHeader inp with
    | (none, _) => none
    | (some header, inp) => (readArrayOfStructs uninit inp header).1

/-! ## The struct-of-arrays layout as a table -/

/-- The twelve component slots in canonical order (Position, Normal, UV0..UV3,
Color0..Color3, Tangent, Bitangent): for each slot whether its flag is set and
its size in floats. -/
def componentSlots (vertexFlags : Nat) : List (Bool × Nat) :=
  [(hasPositions vertexFlags, kPositionSize), (hasNormals vertexFlags, kNormalsSize),
   (hasTexCoords0 vertexFlags, kTextureSize), (hasTexCoords1 vertexFlags, kTextureSize),
   (hasTexCoords2 vertexFlags, kTextureSize), (hasTexCoords3 vertexFlags, kTextureSize),
   (hasColor0 vertexFlags, kColorSize), (hasColor1 vertexFlags, kColorSize),
   (hasColor2 vertexFlags, kColorSize), (hasColor3 vertexFlags, kColorSize),
   (hasTanBitan vertexFlags, kTanSize), (hasTanBitan vertexFlags, kBitanSize)]

/-- The size a slot takes in a vertex: its size when enabled, else nothing. -/
def enabledSize (slot : Bool × Nat) : Nat := if slot.1 then slot.2 else 0

/-- The sum of the sizes of the enabled components among the first `k` slots:
where component `k` starts inside a vertex, and its scan position in the
transcoder. -/
def scanOffset (slots : List (Bool × Nat)) (k : Nat) : Nat :=
  ((slots.take k).map enabledSize).sum

/-- The floats of each slot inside one vertex array, scanning from `index`:
nothing for a slot that is not enabled. -/
def componentParts : List (Bool × Nat) → List F32 → Nat → List (List F32)
  | [], _, _ => []
  | slot :: rest, array, index =>
    (if slot.1 then (array.drop index).take slot.2 else []) ::
      componentParts rest array (index + enabledSize slot)

/-- The column of every slot over a list of vertex arrays: the concatenation of
the slot's floats, vertex after vertex. -/
def columnsOf (slots : List (Bool × Nat)) : List (List F32) → List (List F32)
  | [] => slots.map (fun _ => [])
  | array :: rest => List.zipWith (· ++ ·) (componentParts slots array 0) (columnsOf slots rest)

/-- The twelve sequences of an `ObjectData` in canonical order. -/
def ObjectData.toSlots (d : ObjectData) : List (List F32) :=
  [d.position, d.normals, d.uvs0, d.uvs1, d.uvs2, d.uvs3, d.color0, d.color1, d.color2,
   d.color3, d.tangents, d.bitangents]

/-- The `ObjectData` with the given flags and sequences. -/
def ObjectData.ofSlots (vertexFlags : Nat) : List (List F32) → ObjectData
  | [p, n, u0, u1, u2, u3, c0, c1, c2, c3, t, b] =>
    { vertexFlags := vertexFlags, position := p, normals := n, uvs0 := u0, uvs1 := u1,
      uvs2 := u2, uvs3 := u3, color0 := c0, color1 := c1, color2 := c2, color3 := c3,
      tangents := t, bitangents := b }
  | _ =>
    { vertexFlags := vertexFlags, position := [], normals := [], uvs0 := [], uvs1 := [],
      uvs2 := [], uvs3 := [], color0 := [], color1 := [], color2 := [], color3 := [],
      tangents := [], bitangents := [] }

/-- The pushes of `convertVertex` as a loop over a table of slots and their
destination sequences. -/
def pushSlots : List (Bool × Nat) → List F32 → List (List F32) → Nat → Option (List (List F32))
  | slot :: rest, array, dst :: dsts, index =>
    match pushComponent slot.1 array dst index slot.2 with
    | none => none
    | some (dst, index) =>
      match pushSlots rest array dsts index with
      | none => none
      | some dsts => some (dst :: dsts)
  | _, _, _, _ => some []

/-- The table that `readStructOfArrays` follows: the slots of `componentSlots`
with the normals read under the test `hasPositions`. -/
def readerSlots (vertexFlags : Nat) : List (Bool × Nat) :=
  [(hasPositions vertexFlags, kPositionSize), (hasPositions vertexFlags, kNormalsSize),
   (hasTexCoords0 vertexFlags, kTextureSize), (hasTexCoords1 vertexFlags, kTextureSize),
   (hasTexCoords2 vertexFlags, kTextureSize), (hasTexCoords3 vertexFlags, kTextureSize),
   (hasColor0 vertexFlags, kColorSize), (hasColor1 vertexFlags, kColorSize),
   (hasColor2 vertexFlags, kColorSize), (hasColor3 vertexFlags, kColorSize),
   (hasTanBitan vertexFlags, kTanSize), (hasTanBitan vertexFlags, kBitanSize)]

/-- The guarded `readData` calls of `readStructOfArrays` as a loop over a table
of slots, starting at slot `k`. -/
def readSlots (uninit : Nat → Nat → Byte) (vertexCount : Nat) :
    List (Bool × Nat) → Nat → List (Option (List F32)) × IStream →
      List (Option (List F32)) × IStream
  | [], _, st => st
  | slot :: rest, k, st =>
    readSlots uninit vertexCount rest (k + 1)
      (readDataIf uninit slot.1 st k slot.2 vertexCount)

/-- What the reader stores in a slot: the column when the slot is read, a null
pointer otherwise. -/
def slotValue (slot : Bool × Nat) (col : List F32) : Option (List F32) :=
  if slot.1 then some col else none

/-- The length the reader gives the array of a slot. -/
def slotLength (vertexCount : Nat) (slot : Bool × Nat) : Nat :=
  if slot.1 then (slot.2 * vertexCount) % 4294967296 else 0

/-! ## Concrete inputs -/

/-- Memory whose indeterminate floats all read as zero. -/
def zeroMemory : Nat → Nat → F32 := fun _ _ => ⟨0, 0, 0, 0⟩

/-- Memory whose indeterminate bytes all read as zero. -/
def zeroBytes : Nat → Nat → Byte := fun _ _ => 0

/-- The float whose object representation is the little-endian encoding of `n`. -/
def floatOfBits (n : Nat) : F32 :=
  ⟨byteOf n, byteOf (n / 256), byteOf (n / 65536), byteOf (n / 16777216)⟩

/-- The concatenation of a list of vertices into a flat buffer. -/
def flattenVertices : List (List F32) → List F32
  | [] => []
  | v :: vs => v ++ flattenVertices vs

/-- An 8-float vertex (position, normal, uv) tagged by `k`. -/
def corner (k : Nat) : List F32 :=
  [floatOfBits k, floatOfBits (k + 1), floatOfBits 0, floatOfBits 0, floatOfBits 0,
   floatOfBits 1, floatOfBits k, floatOfBits (k + 2)]

/-- A square drawn as two triangles, one vertex per corner of each triangle:
six 8-float vertices, two of which repeat earlier ones. -/
def squareVertices : List F32 :=
  flattenVertices [corner 0, corner 1, corner 2, corner 2, corner 1, corner 3]

/-- The 8-float vertex number `i` of `manyVertices`. -/
def countVertex (i : Nat) : List F32 :=
  floatOfBits i :: List.replicate 7 (floatOfBits 0)

/-- A buffer of 65537 pairwise distinct 8-float vertices. -/
def manyVertices : List F32 :=
  flattenVertices ((List.range 65537).map countVertex)

/-- A mesh of 8-float vertices (flags Position, Normal, UV0) whose vertex
buffer holds `2^32` floats: `2^29` vertices. -/
def hugeMesh : Mesh :=
  { flags := 0x13, numVertices := 536870912, numIndices := 0, numBones := 0, numColors := 0,
    numTexCoords := 1, vertexSize := 8,
    vertices := List.replicate 4294967296 (floatOfBits 0), indices := [] }

/-- The square of two triangles as a mesh without index sharing: six 8-float
vertices (flags Position, Normal, UV0) and the indices 0 to 5. -/
def squareMesh : Mesh :=
  { flags := 0x13, numVertices := 6, numIndices := 6, numBones := 0, numColors := 0,
    numTexCoords := 1, vertexSize := 8, vertices := squareVertices,
    indices := [0, 1, 2, 3, 4, 5] }

/-- The distinct 8-float vertices of a buffer in order of first occurrence. -/
def weldUnique (vertices : List F32) (n : Nat) : List (List F32) :=
  firstOccurrences (windows vertices 8 n)

/-- The index that the weld gives to each 8-float vertex of a buffer: the
position of the vertex in `weldUnique`, reduced to 16 bits. -/
def weldIndices (vertices : List F32) (n : Nat) : List Nat :=
  (windows vertices 8 n).map (fun w =>
    List.indexOf (Vertex.mk 8 w) ((weldUnique vertices n).map (Vertex.mk 8)) % 65536)

/-- The bytes of an optimized array-of-structs object of 8-float vertices. -/
def optimizedObjectBytes (M : Mesh) : List Byte :=
  (createObjectHeader M.flags (weldUnique M.vertices M.numVertices).length M.numVertices
      M.numBones 8 false).bytes ++
    floatBytes (flattenVertices (weldUnique M.vertices M.numVertices)) ++
    indexBytes (weldIndices M.vertices M.numVertices)

/-- Two distinct 8-float vertices (flags Position, Normal, UV0) with the index
buffer `[1, 0]`. -/
def swappedMesh : Mesh :=
  { flags := 0x13, numVertices := 2, numIndices := 2, numBones := 0, numColors := 0,
    numTexCoords := 1, vertexSize := 8, vertices := flattenVertices [corner 0, corner 1],
    indices := [1, 0] }

/-- The 65537 pairwise distinct 8-float vertices of `manyVertices` as a mesh
(flags Position, Normal, UV0) without indices. -/
def manyMesh : Mesh :=
  { flags := 0x13, numVertices := 65537, numIndices := 0, numBones := 0, numColors := 0,
    numTexCoords := 1, vertexSize := 8, vertices := manyVertices, indices := [] }

/-- The column of a component over a list of vertex arrays: the `size` floats
at `offset` of each array, vertex after vertex. -/
def columnOf (arrays : List (List F32)) (offset size : Nat) : List F32 :=
  flattenVertices (arrays.map (fun a => (a.drop offset).take size))

/-- One vertex of two floats (flag UV0 only, no positions) that six indices
refer to. -/
def uvMesh : Mesh :=
  { flags := 0x10, numVertices := 1, numIndices := 6, numBones := 0, numColors := 0,
    numTexCoords := 1, vertexSize := 2, vertices := [floatOfBits 1, floatOfBits 2],
    indices := [0, 0, 0, 0, 0, 0] }

/-! ## Notions used to state the layout properties -/

/-- The offsets of the layout calculator for the twelve components in canonical
order (Position, Normal, UV0..UV3, Color0..Color3, Tangent, Bitangent). -/
def layoutOffsets (vertexFlags : Nat) : List Nat :=
  [positionOffset, normalsOffset, texCoords0Offset vertexFlags, texCoords1Offset vertexFlags,
   texCoords2Offset vertexFlags, texCoords3Offset vertexFlags, color0Offset vertexFlags,
   color1Offset vertexFlags, color2Offset vertexFlags, color3Offset vertexFlags,
   tanOffset vertexFlags, bitanOffset vertexFlags]

/-- The component slots with Position counted as present whatever the flags
say. -/
def layoutSlots (vertexFlags : Nat) : List (Bool × Nat) :=
  (true, kPositionSize) :: (componentSlots vertexFlags).tail

/-- The mask of the first `count` channel bits starting at bit `first`. -/
def channelMask (first count : Nat) : Nat := (2 ^ count - 1) * first

/-- An `ObjectHeader` whose fields fit their C types: `type` and `vertexSize`
one byte, `vertexFlags` 16 bits, the three counts 32 bits. -/
def ObjectHeader.Typed (h : ObjectHeader) : Prop :=
  h.type < 256 ∧ h.vertexSize < 256 ∧ h.vertexFlags < 65536 ∧ h.vertexCount < 4294967296 ∧
  h.indexCount < 4294967296 ∧ h.boneCount < 4294967296

instance (h : ObjectHeader) : Decidable h.Typed := by
  unfold ObjectHeader.Typed
  infer_instance

/-- The bytes that `writeObject` emits for a mesh written alone, into an empty
stream (`none` when the call has no defined outcome). -/
def objectBytes (uninit : Nat → Nat → F32) (mesh : Option Mesh)
    (doOptimize useStructOfArrays : Bool) : Option (List Byte) :=
  (writeObject uninit [] mesh doOptimize useStructOfArrays).map Prod.fst

/-- The outputs of `writeObject` for each mesh of a list written alone,
concatenated in list order; object number `i` allocates from `uninit i`. -/
def objectsBytes (uninit : Nat → Nat → Nat → F32) (doOptimize useStructOfArrays : Bool) :
    List (Option Mesh) → Nat → Option (List Byte)
  | [], _ => some []
  | mesh :: rest, i =>
    match objectBytes (uninit i) mesh doOptimize useStructOfArrays with
    | none => none
    | some bytes =>
      (objectsBytes uninit doOptimize useStructOfArrays rest (i + 1)).map (bytes ++ ·)

/-- The sequences that `writeStructOfArraysData` writes: the position sequence
and, behind its flag, each of the other eleven sequences. -/
def gatedSlots (data : ObjectData) : List (List F32) :=
  [data.position,
   if hasNormals data.vertexFlags then data.normals else [],
   if hasTexCoords0 data.vertexFlags then data.uvs0 else [],
   if hasTexCoords1 data.vertexFlags then data.uvs1 else [],
   if hasTexCoords2 data.vertexFlags then data.uvs2 else [],
   if hasTexCoords3 data.vertexFlags then data.uvs3 else [],
   if hasColor0 data.vertexFlags then data.color0 else [],
   if hasColor1 data.vertexFlags then data.color1 else [],
   if hasColor2 data.vertexFlags then data.color2 else [],
   if hasColor3 data.vertexFlags then data.color3 else [],
   if hasTanBitan data.vertexFlags then data.tangents else [],
   if hasTanBitan data.vertexFlags then data.bitangents else []]

/-- Two 8-float unique vertices (position, normal, uv). -/
def twoVertices : List Vertex := [Vertex.mk 8 (corner 0), Vertex.mk 8 (corner 1)]

/-- An array-of-structs header whose stride byte (8) differs from the stride
of its flags (Position only: 3), for one vertex and no index. -/
def strideHeader : ObjectHeader :=
  { type := 2, vertexSize := 8, vertexFlags := 0x1, vertexCount := 1, indexCount := 0,
    boneCount := 0 }

/-- The floats with the bit patterns 1 to 8. -/
def eightFloats : List F32 :=
  [floatOfBits 1, floatOfBits 2, floatOfBits 3, floatOfBits 4, floatOfBits 5, floatOfBits 6,
   floatOfBits 7, floatOfBits 8]

/-- One vertex of nine floats (flags Position, UV0, Color0). -/
def nineMesh : Mesh :=
  { flags := 0x111, numVertices := 1, numIndices := 3, numBones := 0, numColors := 1,
    numTexCoords := 1, vertexSize := 9, vertices := List.replicate 9 (floatOfBits 0),
    indices := [0, 0, 0] }

/-- A list of `2^26` unique vertices of 8 floats. -/
def repeatedVertices : List Vertex := List.replicate 67108864 (Vertex.mk 8 (corner 0))

/-! ## rcmwriter.cpp: the layout that `convertAiMesh` chooses -/

/-- The importer facts that `convertAiMesh` reads to lay out a vertex:
`HasPositions()`, `HasNormals()`, `GetNumUVChannels()`,
`GetNumColorChannels()` and `HasTangentsAndBitangents()` of the `aiMesh`. -/
structure AiMesh where
  hasPositions : Bool
  hasNormals : Bool
  numUVChannels : Nat
  numColorChannels : Nat
  hasTangentsAndBitangents : Bool
deriving DecidableEq, Repr

/-- The layout part of `convertAiMesh` (the statements before the vertex array
is allocated): the accumulated `vertexSize` (a `uint32_t`) and the
`vertexFlags` (a `uint16_t`) that the returned mesh carries. -/
def convertAiMeshLayout (aimesh : AiMesh) : Nat × Nat :=
  let vertexSize := 0
  let vertexFlags := 0
  let (vertexSize, vertexFlags) :=
    if aimesh.hasPositions then
      ((vertexSize + kPositionSize) % 4294967296, setHasPositions vertexFlags)
    else (vertexSize, vertexFlags)
  let (vertexSize, vertexFlags) :=
    if aimesh.hasNormals then
      ((vertexSize + kNormalsSize) % 4294967296, setHasNormals vertexFlags)
    else (vertexSize, vertexFlags)
  let numTexCoords := aimesh.numUVChannels
  let numTexCoords := if numTexCoords > kMaxNumTexCoords then kMaxNumTexCoords else numTexCoords
  let vertexSize := (vertexSize + numTexCoords * kTextureSize) % 4294967296
  let vertexFlags := setHasTexCoords vertexFlags numTexCoords
  let numColors := aimesh.numColorChannels
  let numColors := if numColors > kMaxNumColors then kMaxNumColors else numColors
  let vertexSize := (vertexSize + numColors * kColorSize) % 4294967296
  let vertexFlags := setHasColors vertexFlags numColors
  let (vertexSize, vertexFlags) :=
    if aimesh.hasTangentsAndBitangents then
      ((vertexSize + (kTanSize + kBitanSize)) % 4294967296, setHasTanBitan vertexFlags)
    else (vertexSize, vertexFlags)
  (vertexSize, vertexFlags)

/-- The float position, relative to the start of the vertex, at which
`convertAiMesh` stores texture channel `k`. -/
def texCoordsStore (vertexFlags k : Nat) : Nat := texCoords0Offset vertexFlags + k * kTextureSize

/-- The float position, relative to the start of the vertex, at which
`convertAiMesh` stores colour channel `k`. -/
def colorStore (vertexFlags k : Nat) : Nat := color0Offset vertexFlags + k * kColorSize

/-- The vertices of a raw mesh taken in original order without deduplication:
one vertex object per window of the buffer. -/
def rawVertices (M : Mesh) : List Vertex :=
  (windows M.vertices M.vertexSize M.numVertices).map (Vertex.mk M.vertexSize)

/-- Two vertices of three floats (flag Position only) drawn as one triangle. -/
def positionMesh : Mesh :=
  { flags := 0x1, numVertices := 2, numIndices := 3, numBones := 0, numColors := 0,
    numTexCoords := 0, vertexSize := 3,
    vertices := [floatOfBits 1, floatOfBits 2, floatOfBits 3, floatOfBits 4, floatOfBits 5,
      floatOfBits 6],
    indices := [0, 1, 1] }

/-! ## Notions used to state the behaviour on short streams -/

/-- The number of bytes between the get position and the end of the stream. -/
def IStream.available (s : IStream) : Nat := s.content.length - s.pos

/-- The number of bytes that `readArrayOfStructs` asks the stream for: the
vertex block and the index block, sized from the header. -/
def arrayOfStructsBytes (object : ObjectHeader) : Nat :=
  (object.vertexCount * calcVertexSize object.vertexFlags) % 4294967296 * 4 +
    object.indexCount * 2

/-- The number of bytes that `readStructOfArrays` asks the stream for: one
block per slot that it reads and the index block, sized from the header. -/
def structOfArraysBytes (object : ObjectHeader) : Nat :=
  ((readerSlots object.vertexFlags).map (slotLength object.vertexCount)).sum * 4 +
    object.indexCount * 2

/-- A header of one vertex with the flag Position alone and three indices: the
data section it announces takes 18 bytes. -/
def triangleHeader : ObjectHeader :=
  { type := 2, vertexSize := 3, vertexFlags := 0x1, vertexCount := 1, indexCount := 3,
    boneCount := 0 }

/-- A mesh without vertices and without indices (flags Position, Normal, UV0). -/
def emptyMesh : Mesh :=
  { flags := 0x13, numVertices := 0, numIndices := 0, numBones := 0, numColors := 0,
    numTexCoords := 1, vertexSize := 8, vertices := [], indices := [] }

/-- Two vertices of two floats (flag UV0 only, no positions) drawn as one
triangle. -/
def uvPairMesh : Mesh :=
  { flags := 0x10, numVertices := 2, numIndices := 3, numBones := 0, numColors := 0,
    numTexCoords := 1, vertexSize := 2,
    vertices := [floatOfBits 1, floatOfBits 2, floatOfBits 3, floatOfBits 4],
    indices := [0, 1, 1] }

/-! ## Notions used to state the properties of the command parser -/

/-- What the arguments of a command line are taken for when they are scanned
from left to right: an argument on its own, a boolean option, or a value
option together with the argument that follows it. -/
inductive ArgItem where
  | trailing (arg : String)
  | flag (option : String)
  | valued (option value : String)
deriving DecidableEq, Repr

/-- The arguments that an item covers. -/
def ArgItem.args : ArgItem → List String
  | ArgItem.trailing arg => [arg]
  | ArgItem.flag option => [option]
  | ArgItem.valued option value => [option, value]

/-- Whether an item is an option. -/
def ArgItem.isOption : ArgItem → Bool
  | ArgItem.trailing _ => false
  | _ => true

/-- Scanning the arguments from left to right: the items of the command line,
or `none` when the scan meets an argument that starts with a dash and is not a
registered option, or a registered value option that is the last argument or
is followed by an argument that starts with a dash. -/
def scanItems (mOptions : StringMap Bool) : List String → Option (List ArgItem)
  | [] => some []
  | [arg] =>
    match StringMap.find mOptions arg with
    | none => if startsWithDash arg then none else some [ArgItem.trailing arg]
    | some false => some [ArgItem.flag arg]
    | some true => none
  | arg :: value :: rest =>
    match StringMap.find mOptions arg with
    | none =>
      if startsWithDash arg then none
      else (scanItems mOptions (value :: rest)).map (ArgItem.trailing arg :: ·)
    | some false => (scanItems mOptions (value :: rest)).map (ArgItem.flag arg :: ·)
    | some true =>
      if startsWithDash value then none
      else (scanItems mOptions rest).map (ArgItem.valued arg value :: ·)

/-- The results of parsing after one more item: an argument on its own joins
the trailing arguments; an option empties them and stores its result. -/
def CommandParser.record (p : CommandParser) : ArgItem → CommandParser
  | ArgItem.trailing arg => { p with mTrailingArgs := p.mTrailingArgs ++ [arg] }
  | ArgItem.flag option =>
    { p with mTrailingArgs := [], mBoolResults := StringMap.assign p.mBoolResults option true }
  | ArgItem.valued option value =>
    { p with mTrailingArgs := [],
             mValueResults := StringMap.assign p.mValueResults option value }

/-- Argument `i` of the command line starts with a dash and is not a registered
option, or is a registered value option that is the last argument or is
followed by an argument that starts with a dash. -/
def offending (mOptions : StringMap Bool) (args : List String) (i : Nat) : Bool :=
  match args[i]? with
  | none => false
  | some arg =>
    match StringMap.find mOptions arg with
    | none => startsWithDash arg
    | some false => false
    | some true =>
      match args[i + 1]? with
      | none => true
      | some next => startsWithDash next

/-- Every registered option starts with a dash. -/
def DashOptions (mOptions : StringMap Bool) : Prop :=
  ∀ e ∈ mOptions, startsWithDash e.1 = true

instance (mOptions : StringMap Bool) : Decidable (DashOptions mOptions) := by
  unfold DashOptions
  infer_instance

/-- The parser that `main` of converter.cpp sets up for a command line. -/
def converterParser (argv : List String) : CommandParser :=
  (((((((CommandParser.new argv).addBoolOption "-a").addHelpOption "-h").addBoolOption
    "-i").addBoolOption "-n").addValueOption "-o").addBoolOption "-s").addBoolOption "-v"

/-! # Theorems -/

/-! ## The comparator and the lookup map -/

theorem floatBytes_length (l : List F32) : (floatBytes l).length = 4 * l.length := by
  induction l with
  | nil => rfl
  | cons f fs ih => simp [floatBytes, F32.bytes, ih]; omega

theorem floatBytes_inj : ∀ (a b : List F32), floatBytes a = floatBytes b → a = b
  | [], [], _ => rfl
  | [], g :: gs, h => by simp [floatBytes, F32.bytes] at h
  | f :: fs, [], h => by simp [floatBytes, F32.bytes] at h
  | f :: fs, g :: gs, h => by
    simp only [floatBytes, F32.bytes, List.cons_append, List.nil_append, List.cons.injEq] at h
    obtain ⟨h0, h1, h2, h3, h4⟩ := h
    have hfg : f = g := by
      cases f; cases g; simp_all
    rw [hfg, floatBytes_inj fs gs h4]

theorem memcmp_neg : ∀ (a b : List Byte) (n : Nat), memcmp b a n = - memcmp a b n
  | [], [], n => by simp [memcmp]
  | [], _ :: _, n => by simp [memcmp]
  | _ :: _, [], n => by simp [memcmp]
  | _ :: _, _ :: _, 0 => by simp [memcmp]
  | x :: xs, y :: ys, n + 1 => by
    simp only [memcmp]
    by_cases h : x = y
    · subst h; simp [memcmp_neg xs ys n]
    · have h' : ¬ y = x := fun e => h e.symm
      simp [h, h']

theorem memcmp_eq_zero_iff : ∀ (a b : List Byte) (n : Nat), a.length = n → b.length = n →
    (memcmp a b n = 0 ↔ a = b)
  | [], [], n, _, _ => by simp [memcmp]
  | [], _ :: _, n, ha, hb => by simp at ha; subst ha; simp at hb
  | _ :: _, [], n, ha, hb => by simp at hb; subst hb; simp at ha
  | _ :: _, _ :: _, 0, ha, _ => by simp at ha
  | x :: xs, y :: ys, n + 1, ha, hb => by
    simp only [memcmp]
    by_cases h : x = y
    · subst h
      simp only [if_true, List.cons.injEq, true_and]
      exact memcmp_eq_zero_iff xs ys n (by simpa using ha) (by simpa using hb)
    · simp only [h, if_false, List.cons.injEq, false_and, iff_false]
      intro e
      apply h
      apply Fin.ext
      omega

theorem equiv_iff_eq (a b : Vertex) (n : Nat) (ha : a.Sized n) (hb : b.Sized n) :
    VertexMap.equiv a b = true ↔ a = b := by
  obtain ⟨ha1, ha2⟩ := ha
  obtain ⟨hb1, hb2⟩ := hb
  have hz := memcmp_eq_zero_iff (floatBytes a.array) (floatBytes b.array) (4 * n)
    (by rw [floatBytes_length, ha2]) (by rw [floatBytes_length, hb2])
  have hneg := memcmp_neg (floatBytes a.array) (floatBytes b.array) (4 * n)
  simp only [VertexMap.equiv, Vertex.lt, ha1, hb1, Bool.and_eq_true, Bool.not_eq_true',
    decide_eq_false_iff_not, hneg]
  constructor
  · rintro ⟨h1, h2⟩
    have : memcmp (floatBytes a.array) (floatBytes b.array) (4 * n) = 0 := by omega
    have hab := floatBytes_inj _ _ (hz.mp this)
    cases a; cases b
    simp only [Vertex.mk.injEq]
    exact ⟨ha1.trans hb1.symm, hab⟩
  · intro e
    subst e
    have : memcmp (floatBytes a.array) (floatBytes a.array) (4 * n) = 0 := hz.mpr rfl
    omega

theorem firstOccurrences_snoc {α : Type} [DecidableEq α] (l : List α) (v : α) :
    firstOccurrences (l ++ [v]) =
      if v ∈ firstOccurrences l then firstOccurrences l else firstOccurrences l ++ [v] := by
  simp [firstOccurrences, List.foldl_append]

theorem mem_firstOccurrences {α : Type} [DecidableEq α] (l : List α) (v : α) :
    v ∈ firstOccurrences l ↔ v ∈ l := by
  induction l using List.reverseRecOn with
  | nil => simp [firstOccurrences]
  | append_singleton l w ih =>
    rw [firstOccurrences_snoc]
    by_cases hw : w ∈ firstOccurrences l
    · simp only [hw, if_true, List.mem_append, List.mem_singleton]
      constructor
      · intro h; exact Or.inl (ih.mp h)
      · rintro (h | h)
        · exact ih.mpr h
        · subst h; exact hw
    · simp [hw, ih]

theorem nodup_firstOccurrences {α : Type} [DecidableEq α] (l : List α) :
    (firstOccurrences l).Nodup := by
  induction l using List.reverseRecOn with
  | nil => simp [firstOccurrences]
  | append_singleton l w ih =>
    rw [firstOccurrences_snoc]
    by_cases hw : w ∈ firstOccurrences l
    · simpa [hw] using ih
    · simp only [hw, if_false]
      rw [List.nodup_append]
      refine ⟨ih, by simp, ?_⟩
      intro a ha hb
      simp at hb
      subst hb
      exact hw ha

theorem window_length (vertices : List F32) (stride i : Nat)
    (h : (i + 1) * stride ≤ vertices.length) : (window vertices stride i).length = stride := by
  simp only [window, List.length_take, List.length_drop]
  have : (i + 1) * stride = i * stride + stride := by ring
  omega

theorem weldVertex_sized (uninit : Nat → Nat → F32) (vertices : List F32) (vertexSize i : Nat)
    (hs : vertexSize ≤ 8) (h : (i + 1) * vertexSize ≤ vertices.length) :
    (weldVertex uninit vertices vertexSize i).Sized 8 := by
  refine ⟨rfl, ?_⟩
  simp only [weldVertex, List.length_append, window_length _ _ _ h, List.length_drop,
    List.length_map, List.length_range]
  omega

theorem find_mapOf (U : List Vertex) (v : Vertex) (hv : v.Sized 8) :
    ∀ (n : Nat), (∀ u ∈ U, u.Sized 8) →
      VertexMap.find (mapOf n U) v =
        if v ∈ U then some (v, (n + List.indexOf v U) % 65536) else none := by
  induction U with
  | nil => intro n _; simp [mapOf, VertexMap.find]
  | cons u U ih =>
    intro n hU
    have hu : u.Sized 8 := hU u (List.mem_cons_self _ _)
    have hU' : ∀ w ∈ U, w.Sized 8 := fun w hw => hU w (List.mem_cons_of_mem _ hw)
    have ih' := ih (n + 1) hU'
    simp only [mapOf, VertexMap.find] at ih' ⊢
    simp only [List.enumFrom_cons, List.map_cons, List.find?_cons]
    by_cases e : u = v
    · subst e
      have : VertexMap.equiv u u = true := (equiv_iff_eq u u 8 hu hu).mpr rfl
      simp [this]
    · have hne : VertexMap.equiv u v = false := by
        rw [Bool.eq_false_iff]
        intro h
        exact e ((equiv_iff_eq u v 8 hu hv).mp h)
      have e' : ¬ v = u := fun h => e h.symm
      simp only [hne, ih', List.mem_cons, e', false_or, List.indexOf_cons]
      have hb : (u == v) = false := by simpa using e
      simp only [hb, cond_false]
      have : n + 1 + List.indexOf v U = n + (List.indexOf v U + 1) := by omega
      rw [this]

theorem mapOf_snoc (U : List Vertex) (v : Vertex) :
    mapOf 0 U ++ [(v, U.length % 65536)] = mapOf 0 (U ++ [v]) := by
  simp [mapOf, List.enumFrom_append]

theorem optimizeStep_eq (uninit : Nat → Nat → F32) (vertices : List F32) (vertexSize i : Nat)
    (hs : vertexSize ≤ 8) (h : (i + 1) * vertexSize ≤ vertices.length)
    (U : List Vertex) (I : List Nat) (hU : ∀ u ∈ U, u.Sized 8) :
    optimizeStep uninit vertices vertexSize i
        { mymap := mapOf 0 U, indicesOut := I, verticesOut := U } =
      some (if weldVertex uninit vertices vertexSize i ∈ U then
          { mymap := mapOf 0 U,
            indicesOut := I ++ [List.indexOf (weldVertex uninit vertices vertexSize i) U % 65536],
            verticesOut := U }
        else
          { mymap := mapOf 0 (U ++ [weldVertex uninit vertices vertexSize i]),
            indicesOut := I ++ [U.length % 65536],
            verticesOut := U ++ [weldVertex uninit vertices vertexSize i] }) := by
  have hv := weldVertex_sized uninit vertices vertexSize i hs h
  have hcopy : memcpyFloats (Vertex.new 8 (uninit i)).array (vertices.drop (i * vertexSize))
      vertexSize = some (weldVertex uninit vertices vertexSize i).array := by
    have h1 : vertexSize ≤ (vertices.drop (i * vertexSize)).length := by
      simp only [List.length_drop]
      have : (i + 1) * vertexSize = i * vertexSize + vertexSize := by ring
      omega
    have h2 : vertexSize ≤ (Vertex.new 8 (uninit i)).array.length := by
      simp [Vertex.new]; exact hs
    simp only [memcpyFloats, h1, h2, and_self, if_true]
    rfl
  have hvert : ({ Vertex.new 8 (uninit i) with
      array := (weldVertex uninit vertices vertexSize i).array } : Vertex) =
      weldVertex uninit vertices vertexSize i := rfl
  have hfind := find_mapOf U _ hv 0 hU
  simp only [optimizeStep, hcopy, hvert, findVertexIndex, hfind]
  by_cases hm : weldVertex uninit vertices vertexSize i ∈ U
  · simp [hm]
  · simp only [hm, if_false, VertexMap.assign, hfind]
    have hidx : ((U ++ [weldVertex uninit vertices vertexSize i]).length % 65536 + 65535) % 65536
        = U.length % 65536 := by
      simp only [List.length_append, List.length_singleton]
      omega
    rw [hidx, mapOf_snoc]

theorem weldVertices_succ (uninit : Nat → Nat → F32) (vertices : List F32) (vertexSize k : Nat) :
    weldVertices uninit vertices vertexSize (k + 1) =
      weldVertices uninit vertices vertexSize k ++ [weldVertex uninit vertices vertexSize k] := by
  simp [weldVertices, List.range_succ]

theorem weldVertices_sized (uninit : Nat → Nat → F32) (vertices : List F32) (vertexSize k : Nat)
    (hs : vertexSize ≤ 8) (h : k * vertexSize ≤ vertices.length) :
    ∀ u ∈ weldVertices uninit vertices vertexSize k, u.Sized 8 := by
  intro u hu
  simp only [weldVertices, List.mem_map, List.mem_range] at hu
  obtain ⟨i, hi, rfl⟩ := hu
  apply weldVertex_sized _ _ _ _ hs
  calc (i + 1) * vertexSize ≤ k * vertexSize := Nat.mul_le_mul_right _ hi
    _ ≤ vertices.length := h

/-- The state of the weld loop after `k` iterations, in closed form. -/
theorem optimizeIter_eq (uninit : Nat → Nat → F32) (vertices : List F32) (vertexSize : Nat)
    (hs : vertexSize ≤ 8) :
    ∀ (k : Nat), k * vertexSize ≤ vertices.length →
      optimizeIter uninit vertices vertexSize k { mymap := [], indicesOut := [], verticesOut := [] }
        = some
          { mymap := mapOf 0 (firstOccurrences (weldVertices uninit vertices vertexSize k)),
            indicesOut := (weldVertices uninit vertices vertexSize k).map (fun v =>
              List.indexOf v (firstOccurrences (weldVertices uninit vertices vertexSize k))
                % 65536),
            verticesOut := firstOccurrences (weldVertices uninit vertices vertexSize k) } := by
  intro k
  induction k with
  | zero => intro _; simp [optimizeIter, weldVertices, firstOccurrences, mapOf]
  | succ k ih =>
    intro hk
    have hk' : k * vertexSize ≤ vertices.length := by
      have : (k + 1) * vertexSize = k * vertexSize + vertexSize := by ring
      omega
    have hU : ∀ u ∈ firstOccurrences (weldVertices uninit vertices vertexSize k), u.Sized 8 :=
      fun u hu => weldVertices_sized uninit vertices vertexSize k hs hk' u
        ((mem_firstOccurrences _ _).mp hu)
    simp only [optimizeIter, ih hk']
    rw [optimizeStep_eq uninit vertices vertexSize k hs hk _ _ hU]
    rw [weldVertices_succ, firstOccurrences_snoc]
    by_cases hm : weldVertex uninit vertices vertexSize k ∈
        firstOccurrences (weldVertices uninit vertices vertexSize k)
    · simp [hm]
    · simp only [hm, if_false, List.map_append, List.map_cons, List.map_nil]
      congr 2
      · congr 1
        · apply List.map_congr_left
          intro v hv
          rw [List.indexOf_append_of_mem ((mem_firstOccurrences _ _).mpr hv)]
        · rw [List.indexOf_append_of_not_mem hm]
          simp

/-! ## The weld in closed form -/

theorem optimizeArrayOfStructs_eq (uninit : Nat → Nat → F32) (vertices : List F32)
    (vertexSize vertexCount : Nat) (hs : vertexSize ≤ 8)
    (hlen : vertexCount * vertexSize ≤ vertices.length) :
    optimizeArrayOfStructs uninit vertices vertexSize vertexCount [] [] =
      some ((weldVertices uninit vertices vertexSize vertexCount).map (fun v =>
          List.indexOf v (firstOccurrences (weldVertices uninit vertices vertexSize vertexCount))
            % 65536),
        firstOccurrences (weldVertices uninit vertices vertexSize vertexCount)) := by
  simp only [optimizeArrayOfStructs, optimizeIter_eq uninit vertices vertexSize hs vertexCount hlen]

theorem firstOccurrences_map {α β : Type} [DecidableEq α] [DecidableEq β] (f : α → β)
    (hf : Function.Injective f) (l : List α) :
    firstOccurrences (l.map f) = (firstOccurrences l).map f := by
  induction l using List.reverseRecOn with
  | nil => simp [firstOccurrences]
  | append_singleton l w ih =>
    rw [List.map_append, List.map_singleton, firstOccurrences_snoc, firstOccurrences_snoc, ih]
    by_cases hw : w ∈ firstOccurrences l
    · have : f w ∈ (firstOccurrences l).map f := List.mem_map_of_mem f hw
      simp [hw, this]
    · have : f w ∉ (firstOccurrences l).map f := by
        intro h
        rw [List.mem_map_of_injective hf] at h
        exact hw h
      simp [hw, this]

theorem firstOccurrences_length {α : Type} [DecidableEq α] (l : List α) :
    (firstOccurrences l).length = l.dedup.length := by
  apply List.Perm.length_eq
  rw [List.perm_ext_iff_of_nodup (nodup_firstOccurrences l) (List.nodup_dedup l)]
  intro a
  rw [mem_firstOccurrences, List.mem_dedup]

theorem firstOccurrences_of_nodup {α : Type} [DecidableEq α] (l : List α) (h : l.Nodup) :
    firstOccurrences l = l := by
  induction l using List.reverseRecOn with
  | nil => simp [firstOccurrences]
  | append_singleton l w ih =>
    rw [List.nodup_append] at h
    obtain ⟨h1, _, h3⟩ := h
    rw [firstOccurrences_snoc, ih h1]
    have : w ∉ l := fun hw => h3 hw (List.mem_singleton_self w)
    simp [this]

theorem firstOccurrences_append {α : Type} [DecidableEq α] (l₁ l₂ : List α) :
    ∃ t, firstOccurrences (l₁ ++ l₂) = firstOccurrences l₁ ++ t := by
  induction l₂ using List.reverseRecOn with
  | nil => exact ⟨[], by simp⟩
  | append_singleton l w ih =>
    obtain ⟨t, ht⟩ := ih
    rw [← List.append_assoc, firstOccurrences_snoc, ht]
    by_cases hw : w ∈ firstOccurrences l₁ ++ t
    · exact ⟨t, by simp [hw]⟩
    · exact ⟨t ++ [w], by simp [hw]⟩

theorem weldVertex_eight (uninit : Nat → Nat → F32) (vertices : List F32) (i : Nat) :
    weldVertex uninit vertices 8 i = { size := 8, array := window vertices 8 i } := by
  simp [weldVertex]

theorem weldVertices_eight (uninit : Nat → Nat → F32) (vertices : List F32) (n : Nat) :
    weldVertices uninit vertices 8 n = (windows vertices 8 n).map (Vertex.mk 8) := by
  simp [weldVertices, windows, weldVertex_eight]

theorem vertex_mk_injective (n : Nat) : Function.Injective (Vertex.mk n) := by
  intro a b h
  simpa using h

theorem windows_length (vertices : List F32) (stride n : Nat) :
    (windows vertices stride n).length = n := by
  simp [windows]

theorem windows_getElem? (vertices : List F32) (stride n i : Nat) (hi : i < n) :
    (windows vertices stride n)[i]? = some (window vertices stride i) := by
  simp [windows, List.getElem?_map, List.getElem?_range hi]

/-- The weld of 8-float vertices in closed form: the unique list holds the
distinct windows in order of first occurrence, and the index of input vertex
`i` is the position of its window in that list, reduced to 16 bits. -/
theorem optimizeArrayOfStructs_eight (uninit : Nat → Nat → F32) (vertices : List F32)
    (vertexCount : Nat) (hlen : vertexCount * 8 ≤ vertices.length) :
    optimizeArrayOfStructs uninit vertices 8 vertexCount [] [] =
      some ((windows vertices 8 vertexCount).map (fun w =>
          List.indexOf (Vertex.mk 8 w)
            ((firstOccurrences (windows vertices 8 vertexCount)).map (Vertex.mk 8)) % 65536),
        (firstOccurrences (windows vertices 8 vertexCount)).map (Vertex.mk 8)) := by
  rw [optimizeArrayOfStructs_eq uninit vertices 8 vertexCount (le_refl 8) hlen,
    weldVertices_eight, firstOccurrences_map _ (vertex_mk_injective 8)]
  simp only [List.map_map, Function.comp_def]

theorem windows_succ (vertices : List F32) (stride k : Nat) :
    windows vertices stride (k + 1) = windows vertices stride k ++ [window vertices stride k] := by
  simp [windows, List.range_succ]

theorem windows_split (vertices : List F32) (stride i n : Nat) (h : i ≤ n) :
    ∃ t, windows vertices stride n = windows vertices stride i ++ t := by
  induction n with
  | zero =>
    have : i = 0 := by omega
    subst this
    exact ⟨[], by simp⟩
  | succ n ih =>
    by_cases hi : i = n + 1
    · subst hi; exact ⟨[], by simp⟩
    · obtain ⟨t, ht⟩ := ih (by omega)
      exact ⟨t ++ [window vertices stride n], by rw [windows_succ, ht, List.append_assoc]⟩

theorem mem_windows (vertices : List F32) (stride n i : Nat) (hi : i < n) :
    window vertices stride i ∈ windows vertices stride n := by
  simp only [windows, List.mem_map, List.mem_range]
  exact ⟨i, hi, rfl⟩

/-- The pointwise description of the weld of 8-float vertices when the buffer
holds at most 65536 distinct vertices. -/
theorem weld_eight_spec (uninit : Nat → Nat → F32) (vertices : List F32) (vertexCount : Nat)
    (hlen : vertexCount * 8 ≤ vertices.length)
    (hdistinct : (windows vertices 8 vertexCount).dedup.length ≤ 65536) :
    ∃ indicesOut verticesOut,
      optimizeArrayOfStructs uninit vertices 8 vertexCount [] [] =
        some (indicesOut, verticesOut) ∧
      verticesOut = (firstOccurrences (windows vertices 8 vertexCount)).map (Vertex.mk 8) ∧
      indicesOut.length = vertexCount ∧
      verticesOut.length ≤ 65536 ∧
      ∀ i, i < vertexCount →
        indicesOut[i]? =
          some (List.indexOf (Vertex.mk 8 (window vertices 8 i)) verticesOut) ∧
        Vertex.mk 8 (window vertices 8 i) ∈ verticesOut := by
  refine ⟨_, _, optimizeArrayOfStructs_eight uninit vertices vertexCount hlen, rfl, ?_, ?_, ?_⟩
  · simp [windows_length]
  · rw [List.length_map, firstOccurrences_length]
    exact hdistinct
  · intro i hi
    have hmem : Vertex.mk 8 (window vertices 8 i) ∈
        (firstOccurrences (windows vertices 8 vertexCount)).map (Vertex.mk 8) :=
      List.mem_map_of_mem _ ((mem_firstOccurrences _ _).mpr (mem_windows vertices 8 _ i hi))
    refine ⟨?_, hmem⟩
    have hlt := List.indexOf_lt_length.mpr hmem
    have hU : ((firstOccurrences (windows vertices 8 vertexCount)).map (Vertex.mk 8)).length
        ≤ 65536 := by
      rw [List.length_map, firstOccurrences_length]
      exact hdistinct
    rw [List.getElem?_map, windows_getElem? vertices 8 vertexCount i hi]
    simp only [Option.map_some', Option.some.injEq]
    exact Nat.mod_eq_of_lt (lt_of_lt_of_le hlt hU)

theorem optimizeIter_overflow (uninit : Nat → Nat → F32) (vertices : List F32)
    (vertexSize : Nat) (h : 8 < vertexSize) (s : WeldState) :
    ∀ k, optimizeIter uninit vertices vertexSize (k + 1) s = none := by
  intro k
  have hstep : ∀ i s', optimizeStep uninit vertices vertexSize i s' = none := by
    intro i s'
    have : ¬ (vertexSize ≤ (vertices.drop (i * vertexSize)).length ∧
        vertexSize ≤ (Vertex.new 8 (uninit i)).array.length) := by
      simp only [Vertex.new, List.length_map, List.length_range]
      omega
    simp only [optimizeStep, memcpyFloats, this, if_false]
  simp only [optimizeIter]
  cases optimizeIter uninit vertices vertexSize k s with
  | none => rfl
  | some s' => exact hstep k s'

/-! ## Claims about the weld -/

theorem getElem?_indexOf_of_mem {α : Type} [DecidableEq α] (l : List α) (a : α) (h : a ∈ l) :
    l[List.indexOf a l]? = some a := by
  have hlt := List.indexOf_lt_length.mpr h
  rw [List.getElem?_eq_getElem hlt, List.getElem_indexOf]

theorem flattenVertices_length (blocks : List (List F32)) (s : Nat)
    (h : ∀ b ∈ blocks, b.length = s) : (flattenVertices blocks).length = blocks.length * s := by
  induction blocks with
  | nil => simp [flattenVertices]
  | cons b bs ih =>
    have hb := h b (List.mem_cons_self _ _)
    have := ih (fun c hc => h c (List.mem_cons_of_mem _ hc))
    simp only [flattenVertices, List.length_append, List.length_cons, hb, this]
    ring

theorem window_flattenVertices (s : Nat) :
    ∀ (blocks : List (List F32)) (i : Nat), (∀ b ∈ blocks, b.length = s) →
      window (flattenVertices blocks) s i = (blocks[i]?).getD [] := by
  intro blocks
  induction blocks with
  | nil => intro i _; simp [flattenVertices, window]
  | cons b bs ih =>
    intro i h
    have hb := h b (List.mem_cons_self _ _)
    have hbs : ∀ c ∈ bs, c.length = s := fun c hc => h c (List.mem_cons_of_mem _ hc)
    cases i with
    | zero =>
      simp only [window, flattenVertices, Nat.zero_mul, List.drop_zero, List.getElem?_cons_zero,
        Option.getD_some]
      rw [List.take_append_of_le_length (le_of_eq hb.symm), List.take_of_length_le (le_of_eq hb)]
    | succ i =>
      have := ih i hbs
      simp only [window, flattenVertices, List.getElem?_cons_succ] at this ⊢
      rw [← this]
      congr 1
      have e : (i + 1) * s = b.length + i * s := by rw [hb]; ring
      rw [e, List.drop_append]

theorem windows_flattenVertices (s : Nat) (blocks : List (List F32))
    (h : ∀ b ∈ blocks, b.length = s) :
    windows (flattenVertices blocks) s blocks.length = blocks := by
  apply List.ext_getElem?
  intro i
  by_cases hi : i < blocks.length
  · rw [windows_getElem? _ _ _ _ hi, window_flattenVertices s blocks i h,
      List.getElem?_eq_getElem hi]
    rfl
  · have h1 : blocks.length ≤ i := by omega
    rw [List.getElem?_eq_none h1, List.getElem?_eq_none (by rw [windows_length]; exact h1)]

theorem floatOfBits_injective (a b : Nat) (ha : a < 4294967296) (hb : b < 4294967296)
    (h : floatOfBits a = floatOfBits b) : a = b := by
  simp only [floatOfBits, byteOf, F32.mk.injEq, Fin.mk.injEq] at h
  omega

theorem countVertex_length (i : Nat) : (countVertex i).length = 8 := by
  simp [countVertex]

theorem countVertices_nodup (n : Nat) (hn : n ≤ 4294967296) :
    ((List.range n).map countVertex).Nodup := by
  apply List.Nodup.map_on _ (List.nodup_range n)
  intro a ha b hb h
  simp only [List.mem_range] at ha hb
  simp only [countVertex, List.cons.injEq, and_true] at h
  exact floatOfBits_injective a b (by omega) (by omega) h

theorem windows_manyVertices :
    windows manyVertices 8 65537 = (List.range 65537).map countVertex := by
  have h := windows_flattenVertices 8 ((List.range 65537).map countVertex) (by
    intro b hb
    simp only [List.mem_map] at hb
    obtain ⟨i, _, rfl⟩ := hb
    exact countVertex_length i)
  simp only [List.length_map, List.length_range] at h
  exact h

theorem manyVertices_length : manyVertices.length = 65537 * 8 := by
  have h := flattenVertices_length ((List.range 65537).map countVertex) 8 (by
    intro b hb
    simp only [List.mem_map] at hb
    obtain ⟨i, _, rfl⟩ := hb
    exact countVertex_length i)
  simp only [List.length_map, List.length_range] at h
  exact h

/-- The weld of the 65537 distinct vertices of `manyVertices`: vertex `i`
receives the index `i % 65536`. -/
theorem weld_manyVertices (uninit : Nat → Nat → F32) :
    ∃ verticesOut,
      optimizeArrayOfStructs uninit manyVertices 8 65537 [] [] =
        some ((List.range 65537).map (fun i => i % 65536), verticesOut) := by
  refine ⟨((List.range 65537).map countVertex).map (Vertex.mk 8), ?_⟩
  rw [optimizeArrayOfStructs_eight uninit manyVertices 65537 (le_of_eq manyVertices_length.symm),
    windows_manyVertices,
    firstOccurrences_of_nodup _ (countVertices_nodup 65537 (by decide))]
  simp only [List.map_map, Option.some.injEq, Prod.mk.injEq, and_true]
  apply List.map_congr_left
  intro i hi
  simp only [List.mem_range] at hi
  simp only [Function.comp]
  have hnd : ((List.range 65537).map (Vertex.mk 8 ∘ countVertex)).Nodup := by
    rw [← List.map_map]
    exact List.Nodup.map (vertex_mk_injective 8) (countVertices_nodup 65537 (by decide))
  have hlt : i < ((List.range 65537).map (Vertex.mk 8 ∘ countVertex)).length := by
    simpa using hi
  have := List.indexOf_getElem hnd i hlt
  simp only [List.getElem_map, List.getElem_range, Function.comp] at this
  rw [this]

theorem window_manyVertices (i : Nat) (hi : i < 65537) :
    window manyVertices 8 i = countVertex i := by
  have h1 := windows_getElem? manyVertices 8 65537 i hi
  rw [windows_manyVertices, List.getElem?_map, List.getElem?_range hi] at h1
  simpa using h1.symm

theorem windows_manyVertices_init :
    windows manyVertices 8 65536 = (List.range 65536).map countVertex := by
  have h := windows_manyVertices
  rw [windows_succ, List.range_succ, List.map_append] at h
  exact (List.append_inj h (by simp [windows_length])).1

/-- C7, counterexample: in a buffer of 65537 pairwise distinct 8-float vertices
the vertices 0 and 65536 both receive the index 0 although their windows
differ, because the new index is truncated to 16 bits. -/
theorem weld_wrapped_index_merges_distinct_vertices :
    manyVertices.length = 65537 * 8 ∧
    ∃ indicesOut verticesOut,
      optimizeArrayOfStructs zeroMemory manyVertices 8 65537 [] [] =
        some (indicesOut, verticesOut) ∧
      indicesOut[0]? = some 0 ∧ indicesOut[65536]? = some 0 ∧
      window manyVertices 8 0 ≠ window manyVertices 8 65536 := by
  refine ⟨manyVertices_length, ?_⟩
  obtain ⟨verticesOut, h⟩ := weld_manyVertices zeroMemory
  refine ⟨_, verticesOut, h, ?_, ?_, ?_⟩
  · rw [List.getElem?_map, List.getElem?_range (by decide)]; rfl
  · rw [List.getElem?_map, List.getElem?_range (by decide)]; rfl
  · rw [window_manyVertices 0 (by decide), window_manyVertices 65536 (by decide)]
    decide

/-- C7, amended: for every flat buffer of fewer than `2^31` 8-float vertices
that holds at most 65536 distinct vertices, two input vertices receive the
same index if and only if their windows are bit-identical. -/
theorem weld_merges_iff_identical (uninit : Nat → Nat → F32) (vertices : List F32)
    (vertexCount : Nat) (hlen : vertices.length = vertexCount * 8)
    (hdistinct : (windows vertices 8 vertexCount).dedup.length ≤ 65536)
    (hcount : vertexCount < 2147483648) :
    ∃ indicesOut verticesOut,
      optimizeArrayOfStructs uninit vertices 8 vertexCount [] [] =
        some (indicesOut, verticesOut) ∧
      ∀ i j, i < vertexCount → j < vertexCount →
        (indicesOut[i]? = indicesOut[j]? ↔ window vertices 8 i = window vertices 8 j) := by
  obtain ⟨indicesOut, verticesOut, hrun, _, _, _, hpt⟩ :=
    weld_eight_spec uninit vertices vertexCount (le_of_eq hlen.symm) hdistinct
  refine ⟨indicesOut, verticesOut, hrun, ?_⟩
  intro i j hi hj
  obtain ⟨hidxi, hmemi⟩ := hpt i hi
  obtain ⟨hidxj, hmemj⟩ := hpt j hj
  rw [hidxi, hidxj, Option.some.injEq, List.indexOf_inj hmemi hmemj]
  exact ⟨fun h => vertex_mk_injective 8 h, fun h => by rw [h]⟩

/-- The witness of `weld_merges_iff_identical`: the square of two triangles. -/
theorem weld_merges_iff_identical_witness :
    squareVertices.length = 6 * 8 ∧ (windows squareVertices 8 6).dedup.length ≤ 65536 ∧
    6 < 2147483648 ∧
    ∃ indicesOut verticesOut,
      optimizeArrayOfStructs zeroMemory squareVertices 8 6 [] [] =
        some (indicesOut, verticesOut) ∧
      ∀ i j, i < 6 → j < 6 →
        (indicesOut[i]? = indicesOut[j]? ↔
          window squareVertices 8 i = window squareVertices 8 j) :=
  ⟨by decide, by decide, by decide,
    weld_merges_iff_identical zeroMemory squareVertices 6 (by decide) (by decide) (by decide)⟩

/-- C9, counterexample: in a buffer of 65537 pairwise distinct 8-float vertices
the vertex at position 65536 is seen for the first time there, 65536 distinct
vertices precede it, and yet it receives the index 0. -/
theorem weld_first_occurrence_index_wraps :
    manyVertices.length = 65537 * 8 ∧
    ∃ indicesOut verticesOut,
      optimizeArrayOfStructs zeroMemory manyVertices 8 65537 [] [] =
        some (indicesOut, verticesOut) ∧
      window manyVertices 8 65536 ∉ windows manyVertices 8 65536 ∧
      (windows manyVertices 8 65536).dedup.length = 65536 ∧
      indicesOut[65536]? = some 0 := by
  refine ⟨manyVertices_length, ?_⟩
  obtain ⟨verticesOut, h⟩ := weld_manyVertices zeroMemory
  refine ⟨_, verticesOut, h, ?_, ?_, ?_⟩
  · rw [window_manyVertices 65536 (by decide), windows_manyVertices_init]
    intro hmem
    simp only [List.mem_map, List.mem_range] at hmem
    obtain ⟨a, ha, he⟩ := hmem
    simp only [countVertex, List.cons.injEq, and_true] at he
    have := floatOfBits_injective a 65536 (by omega) (by decide) he
    omega
  · rw [windows_manyVertices_init,
      (List.dedup_eq_self).mpr (countVertices_nodup 65536 (by decide))]
    simp
  · rw [List.getElem?_map, List.getElem?_range (by decide)]; rfl

/-- C9, amended: for every flat buffer of fewer than `2^31` 8-float vertices
that holds at most 65536 distinct vertices, the unique list is duplicate-free
and holds the distinct input vertices in order of first occurrence; a vertex
seen for the
first time at position `i` receives the number of distinct vertices before
position `i` as its index, a later occurrence receives the index of the
earlier one, and the unique vertex at the index of position `i` is vertex `i`. -/
theorem weld_first_occurrence_order (uninit : Nat → Nat → F32) (vertices : List F32)
    (vertexCount : Nat) (hlen : vertices.length = vertexCount * 8)
    (hdistinct : (windows vertices 8 vertexCount).dedup.length ≤ 65536)
    (hcount : vertexCount < 2147483648) :
    ∃ indicesOut verticesOut,
      optimizeArrayOfStructs uninit vertices 8 vertexCount [] [] =
        some (indicesOut, verticesOut) ∧
      verticesOut.Nodup ∧
      verticesOut.map Vertex.array = firstOccurrences (windows vertices 8 vertexCount) ∧
      (∀ i, i < vertexCount → window vertices 8 i ∉ windows vertices 8 i →
        indicesOut[i]? = some (windows vertices 8 i).dedup.length) ∧
      (∀ i j, j < i → i < vertexCount → window vertices 8 j = window vertices 8 i →
        indicesOut[i]? = indicesOut[j]?) ∧
      (∀ i, i < vertexCount → ∃ index vertex, indicesOut[i]? = some index ∧
        verticesOut[index]? = some vertex ∧ vertex.array = window vertices 8 i) := by
  obtain ⟨indicesOut, verticesOut, hrun, hU, _, _, hpt⟩ :=
    weld_eight_spec uninit vertices vertexCount (le_of_eq hlen.symm) hdistinct
  refine ⟨indicesOut, verticesOut, hrun, ?_, ?_, ?_, ?_, ?_⟩
  · rw [hU]
    exact List.Nodup.map (vertex_mk_injective 8) (nodup_firstOccurrences _)
  · rw [hU, List.map_map]
    have : (Vertex.array ∘ Vertex.mk 8) = id := rfl
    rw [this, List.map_id]
  · intro i hi hfirst
    obtain ⟨hidx, _⟩ := hpt i hi
    rw [hidx]
    congr 1
    obtain ⟨t, ht⟩ := windows_split vertices 8 (i + 1) vertexCount (by omega)
    obtain ⟨t', ht'⟩ := firstOccurrences_append (windows vertices 8 (i + 1)) t
    have hnot : window vertices 8 i ∉ firstOccurrences (windows vertices 8 i) :=
      fun h => hfirst ((mem_firstOccurrences _ _).mp h)
    rw [hU, ht, ht', windows_succ, firstOccurrences_snoc, if_neg hnot, List.map_append,
      List.map_append, List.append_assoc]
    have hnot' : Vertex.mk 8 (window vertices 8 i) ∉
        (firstOccurrences (windows vertices 8 i)).map (Vertex.mk 8) := by
      intro h
      rw [List.mem_map_of_injective (vertex_mk_injective 8)] at h
      exact hnot h
    rw [List.indexOf_append_of_not_mem hnot']
    simp [firstOccurrences_length]
  · intro i j hji hi hw
    obtain ⟨hidxi, _⟩ := hpt i hi
    obtain ⟨hidxj, _⟩ := hpt j (by omega)
    rw [hidxi, hidxj, hw]
  · intro i hi
    obtain ⟨hidx, hmem⟩ := hpt i hi
    exact ⟨_, _, hidx, getElem?_indexOf_of_mem _ _ hmem, rfl⟩

/-- The witness of `weld_first_occurrence_order`: the square of two triangles. -/
theorem weld_first_occurrence_order_witness :
    squareVertices.length = 6 * 8 ∧ (windows squareVertices 8 6).dedup.length ≤ 65536 ∧
    6 < 2147483648 ∧
    ∃ indicesOut verticesOut,
      optimizeArrayOfStructs zeroMemory squareVertices 8 6 [] [] =
        some (indicesOut, verticesOut) ∧
      verticesOut.Nodup ∧
      verticesOut.map Vertex.array = firstOccurrences (windows squareVertices 8 6) ∧
      (∀ i, i < 6 → window squareVertices 8 i ∉ windows squareVertices 8 i →
        indicesOut[i]? = some (windows squareVertices 8 i).dedup.length) ∧
      (∀ i j, j < i → i < 6 → window squareVertices 8 j = window squareVertices 8 i →
        indicesOut[i]? = indicesOut[j]?) ∧
      (∀ i, i < 6 → ∃ index vertex, indicesOut[i]? = some index ∧
        verticesOut[index]? = some vertex ∧ vertex.array = window squareVertices 8 i) :=
  ⟨by decide, by decide, by decide,
    weld_first_occurrence_order zeroMemory squareVertices 6 (by decide) (by decide)
      (by decide)⟩

theorem weldVertices_getElem? (uninit : Nat → Nat → F32) (vertices : List F32)
    (vertexSize n i : Nat) (hi : i < n) :
    (weldVertices uninit vertices vertexSize n)[i]? =
      some (weldVertex uninit vertices vertexSize i) := by
  simp [weldVertices, List.getElem?_map, List.getElem?_range hi]

/-- C6, failing strides below 8: whatever the indeterminate memory holds, the
unique vertex that the index of input vertex `i` refers to is an array of 8
floats, so it is not the `vertexSize`-float window `i` of the input. -/
theorem weld_unique_vertex_is_not_the_window (uninit : Nat → Nat → F32)
    (vertices : List F32) (vertexSize vertexCount : Nat) (hs : vertexSize < 8)
    (hlen : vertices.length = vertexCount * vertexSize) :
    ∃ indicesOut verticesOut,
      optimizeArrayOfStructs uninit vertices vertexSize vertexCount [] [] =
        some (indicesOut, verticesOut) ∧
      ∀ i, i < vertexCount → ∃ index vertex,
        indicesOut[i]? = some index ∧ verticesOut[index]? = some vertex ∧
        vertex.array.length = 8 ∧ vertex.array ≠ window vertices vertexSize i := by
  have hle : vertexCount * vertexSize ≤ vertices.length := le_of_eq hlen.symm
  refine ⟨_, _, optimizeArrayOfStructs_eq uninit vertices vertexSize vertexCount
    (le_of_lt hs) hle, ?_⟩
  intro i hi
  have hmemV : weldVertex uninit vertices vertexSize i ∈
      weldVertices uninit vertices vertexSize vertexCount := by
    simp only [weldVertices, List.mem_map, List.mem_range]
    exact ⟨i, hi, rfl⟩
  have hmem := (mem_firstOccurrences _ _).mpr hmemV
  have hlt := List.indexOf_lt_length.mpr hmem
  have hlt' : List.indexOf (weldVertex uninit vertices vertexSize i)
      (firstOccurrences (weldVertices uninit vertices vertexSize vertexCount)) % 65536 <
      (firstOccurrences (weldVertices uninit vertices vertexSize vertexCount)).length :=
    lt_of_le_of_lt (Nat.mod_le _ _) hlt
  have hsized : ((firstOccurrences (weldVertices uninit vertices vertexSize
      vertexCount))[List.indexOf (weldVertex uninit vertices vertexSize i)
      (firstOccurrences (weldVertices uninit vertices vertexSize vertexCount)) % 65536]).Sized 8 :=
    weldVertices_sized uninit vertices vertexSize vertexCount (le_of_lt hs) hle _
      ((mem_firstOccurrences _ _).mp (List.getElem_mem _))
  refine ⟨_, _, ?_, List.getElem?_eq_getElem hlt', hsized.2, ?_⟩
  · rw [List.getElem?_map, weldVertices_getElem? uninit vertices vertexSize vertexCount i hi]
    rfl
  · intro h
    have h1 := hsized.2
    rw [h, window_length vertices vertexSize i (by
      rw [hlen]; exact Nat.mul_le_mul_right vertexSize hi)] at h1
    omega

/-- The witness of `weld_unique_vertex_is_not_the_window`: two 3-float vertices. -/
theorem weld_unique_vertex_is_not_the_window_witness :
    3 < 8 ∧
    [floatOfBits 1, floatOfBits 2, floatOfBits 3, floatOfBits 4, floatOfBits 5,
      floatOfBits 6].length = 2 * 3 ∧
    ∃ indicesOut verticesOut,
      optimizeArrayOfStructs zeroMemory [floatOfBits 1, floatOfBits 2, floatOfBits 3,
        floatOfBits 4, floatOfBits 5, floatOfBits 6] 3 2 [] [] =
        some (indicesOut, verticesOut) ∧
      ∀ i, i < 2 → ∃ index vertex,
        indicesOut[i]? = some index ∧ verticesOut[index]? = some vertex ∧
        vertex.array.length = 8 ∧
        vertex.array ≠ window [floatOfBits 1, floatOfBits 2, floatOfBits 3,
          floatOfBits 4, floatOfBits 5, floatOfBits 6] 3 i :=
  ⟨by decide, by decide,
    weld_unique_vertex_is_not_the_window zeroMemory _ 3 2 (by decide) (by decide)⟩

/-- C8, failing strides above 8: with at least one vertex to process the weld
copies `vertexSize` floats into an array of 8 and has no defined outcome,
whatever the buffer and the output vectors hold. -/
theorem weld_overflows_beyond_eight (uninit : Nat → Nat → F32) (vertices : List F32)
    (vertexSize vertexCount : Nat) (indicesOut : List Nat) (verticesOut : List Vertex)
    (hs : 8 < vertexSize) (hn : 0 < vertexCount) :
    optimizeArrayOfStructs uninit vertices vertexSize vertexCount indicesOut verticesOut =
      none := by
  obtain ⟨k, rfl⟩ : ∃ k, vertexCount = k + 1 := ⟨vertexCount - 1, by omega⟩
  simp only [optimizeArrayOfStructs, optimizeIter_overflow uninit vertices vertexSize hs _ k]

/-- The witness of `weld_overflows_beyond_eight`: one vertex of 9 floats. -/
theorem weld_overflows_beyond_eight_witness :
    8 < 9 ∧ 0 < 1 ∧
    optimizeArrayOfStructs zeroMemory (List.replicate 9 (floatOfBits 0)) 9 1 [] [] = none :=
  ⟨by decide, by decide,
    weld_overflows_beyond_eight zeroMemory _ 9 1 [] [] (by decide) (by decide)⟩

/-- The output invariant of the weld for strides up to 8: one index per input
vertex, no more unique vertices than input vertices, every index below the
number of unique vertices. -/
theorem weld_output_invariant_upto_eight (uninit : Nat → Nat → F32) (vertices : List F32)
    (vertexSize vertexCount : Nat) (hs : vertexSize ≤ 8)
    (hlen : vertexCount * vertexSize ≤ vertices.length) :
    ∃ indicesOut verticesOut,
      optimizeArrayOfStructs uninit vertices vertexSize vertexCount [] [] =
        some (indicesOut, verticesOut) ∧
      indicesOut.length = vertexCount ∧ verticesOut.length ≤ vertexCount ∧
      ∀ x ∈ indicesOut, x < verticesOut.length := by
  refine ⟨_, _, optimizeArrayOfStructs_eq uninit vertices vertexSize vertexCount hs hlen,
    ?_, ?_, ?_⟩
  · simp [weldVertices]
  · rw [firstOccurrences_length]
    calc (weldVertices uninit vertices vertexSize vertexCount).dedup.length
        ≤ (weldVertices uninit vertices vertexSize vertexCount).length :=
          (List.dedup_sublist _).length_le
      _ = vertexCount := by simp [weldVertices]
  · intro x hx
    simp only [List.mem_map] at hx
    obtain ⟨v, hv, rfl⟩ := hx
    exact lt_of_le_of_lt (Nat.mod_le _ _)
      (List.indexOf_lt_length.mpr ((mem_firstOccurrences _ _).mpr hv))

/-! ## Byte streams -/

theorem floatBytes_append (a b : List F32) :
    floatBytes (a ++ b) = floatBytes a ++ floatBytes b := by
  induction a with
  | nil => rfl
  | cons f fs ih => simp [floatBytes, ih]

theorem bytesToFloats_floatBytes (l : List F32) : bytesToFloats (floatBytes l) = l := by
  induction l with
  | nil => rfl
  | cons f fs ih =>
    cases f
    simp [floatBytes, F32.bytes, bytesToFloats, ih]

theorem indexBytes_length (l : List Nat) : (indexBytes l).length = 2 * l.length := by
  induction l with
  | nil => rfl
  | cons x xs ih => simp [indexBytes, u16Bytes, ih]; omega

theorem bytesToIndices_indexBytes (l : List Nat) (h : ∀ x ∈ l, x < 65536) :
    bytesToIndices (indexBytes l) = l := by
  induction l with
  | nil => rfl
  | cons x xs ih =>
    have hx := h x (List.mem_cons_self _ _)
    have := ih (fun y hy => h y (List.mem_cons_of_mem _ hy))
    simp only [indexBytes, u16Bytes, List.cons_append, bytesToIndices, byteOf, List.cons.injEq]
    refine ⟨by omega, ?_⟩
    simpa using this

theorem ofBytes_createObjectHeader (vertexFlags vertexCount indexCount boneCount vertexSize : Nat)
    (useStructOfArrays : Bool) :
    ObjectHeader.ofBytes (createObjectHeader vertexFlags vertexCount indexCount boneCount
      vertexSize useStructOfArrays).bytes =
      createObjectHeader vertexFlags vertexCount indexCount boneCount vertexSize
        useStructOfArrays := by
  simp only [ObjectHeader.bytes, createObjectHeader, u16Bytes, u32Bytes, List.cons_append,
    List.nil_append, ObjectHeader.ofBytes, byteOf, ObjectHeader.mk.injEq]
  refine ⟨?_, ?_, ?_, ?_, ?_, ?_⟩
  · cases useStructOfArrays <;> simp [STRUCT_OF_ARRAYS, ARRAY_OF_STRUCTS]
  all_goals omega

theorem objectHeader_bytes_length (h : ObjectHeader) : h.bytes.length = 16 := by
  simp [ObjectHeader.bytes, u16Bytes, u32Bytes]

/-- Extracting a block that the stream holds entirely at its get position. -/
theorem readInto_block (s : IStream) (pre data post prior : List Byte)
    (hc : s.content = pre ++ data ++ post) (hp : s.pos = pre.length)
    (hg : s.good = true) (ho : s.isOpen = true) (hl : prior.length = data.length) :
    s.readInto prior = (data, { s with pos := pre.length + data.length }) := by
  have hdrop : s.content.drop s.pos = data ++ post := by
    rw [hc, hp, List.append_assoc, List.drop_left]
  have hle : prior.length ≤ (s.content.drop s.pos).length := by
    rw [hdrop, List.length_append, hl]; omega
  have htake : (s.content.drop s.pos).take prior.length = data := by
    rw [hdrop, hl, List.take_left]
  have hread : s.read prior.length = (data, { s with pos := pre.length + data.length }) := by
    rw [hp, hl] at hle htake
    simp only [IStream.read, hg, ho, Bool.and_self, if_true, hle, htake, hp, hl]
  simp only [IStream.readInto, hread, ← hl, List.drop_length, List.append_nil]

/-! ## Round trip of the unoptimized array-of-structs layout -/

/-- The bytes of an unoptimized array-of-structs object. -/
theorem writeObject_unoptimized_aos (uninit : Nat → Nat → F32) (out : OStream) (M : Mesh)
    (hv : M.vertices.length = M.numVertices * M.vertexSize)
    (hi : M.indices.length = M.numIndices) :
    writeObject uninit out (some M) false false =
      some (out ++ (createObjectHeader M.flags M.numVertices M.numIndices M.numBones
          M.vertexSize false).bytes ++ floatBytes M.vertices ++ indexBytes M.indices, true) := by
  simp only [writeObject, writeObjectHeader, Bool.false_eq_true, if_false, ← hv, ← hi,
    le_refl, if_true, List.take_length]

/-- Reading the object header from the start of a stream that begins with it. -/
theorem readObjectHeader_created (vertexFlags vertexCount indexCount boneCount vertexSize : Nat)
    (useStructOfArrays : Bool) (pre post : List Byte) (s : IStream)
    (hc : s.content = pre ++ (createObjectHeader vertexFlags vertexCount indexCount boneCount
      vertexSize useStructOfArrays).bytes ++ post)
    (hp : s.pos = pre.length) (hg : s.good = true) (ho : s.isOpen = true) :
    readObjectHeader s =
      (some (createObjectHeader vertexFlags vertexCount indexCount boneCount vertexSize
        useStructOfArrays), { s with pos := pre.length + 16 }) := by
  have h := readInto_block s pre _ post (List.replicate 16 0) hc hp hg ho
    (by rw [objectHeader_bytes_length]; simp)
  simp only [readObjectHeader, ho, Bool.not_true, Bool.false_eq_true, if_false, h,
    ofBytes_createObjectHeader, objectHeader_bytes_length]

/-- Reading an interleaved vertex block and an index block that the stream
holds at its get position. -/
theorem readArrayOfStructs_blocks (uninit : Nat → Nat → Byte) (s : IStream)
    (object : ObjectHeader) (pre post : List Byte) (block : List F32) (indices : List Nat)
    (hc : s.content = pre ++ floatBytes block ++ indexBytes indices ++ post)
    (hp : s.pos = pre.length) (hg : s.good = true) (ho : s.isOpen = true)
    (hb : (object.vertexCount * calcVertexSize object.vertexFlags) % 4294967296 = block.length)
    (hi : object.indexCount = indices.length) (hr : ∀ x ∈ indices, x < 65536) :
    readArrayOfStructs uninit s object =
      (some { header := object, vertices := [some block], indices := indices },
        { s with pos := pre.length + 4 * block.length + 2 * indices.length }) := by
  obtain ⟨content, pos, good, isOpen⟩ := s
  simp only at hc hp hg ho
  subst hc hp hg ho
  have h1 := readInto_block
    { content := pre ++ floatBytes block ++ indexBytes indices ++ post, pos := pre.length,
      good := true, isOpen := true }
    pre (floatBytes block) (indexBytes indices ++ post)
    (freshBytes uninit 0 (block.length * 4))
    (by simp only [List.append_assoc]) rfl rfl rfl
    (by simp [freshBytes, floatBytes_length]; omega)
  have h2 := readInto_block
    { content := pre ++ floatBytes block ++ indexBytes indices ++ post,
      pos := pre.length + (floatBytes block).length, good := true, isOpen := true }
    (pre ++ floatBytes block) (indexBytes indices) post
    (freshBytes uninit 1 (indices.length * 2))
    rfl (by simp) rfl rfl
    (by simp [freshBytes, indexBytes_length]; omega)
  simp only [readArrayOfStructs, Bool.not_true, Bool.false_eq_true, if_false, hb, hi, h1, h2,
    bytesToFloats_floatBytes, bytesToIndices_indexBytes indices hr]
  simp [floatBytes_length, indexBytes_length, Nat.add_assoc]

/-- C2, amended: for every well-formed raw mesh `M` with
`M.vertexSize = calcVertexSize M.flags` whose vertex buffer holds fewer than
`2^32` floats, writing `M` unoptimized in the array-of-structs layout and
reading it back returns a header with `M`'s counts, a vertex block equal to
`M`'s buffer and an index block equal to `M`'s index buffer; hence the decoded
vertex at the `n`-th decoded index is `M`'s vertex at `M`'s `n`-th index. -/
theorem roundtrip_unoptimized_array_of_structs (uninit : Nat → Nat → F32)
    (uninitR : Nat → Nat → Byte) (M : Mesh) (hwf : M.WellFormed)
    (hsize : M.vertexSize = calcVertexSize M.flags)
    (hfit : M.numVertices * M.vertexSize < 4294967296) :
    ∃ bytes, writeObject uninit [] (some M) false false = some (bytes, true) ∧
    ∃ header inp, readObjectHeader (IStream.ofBytes bytes) = (some header, inp) ∧
      header.vertexCount = M.numVertices ∧ header.indexCount = M.numIndices ∧
    ∃ bla inp', readArrayOfStructs uninitR inp header = (some bla, inp') ∧
      bla.vertices = [some M.vertices] ∧ bla.indices = M.indices ∧
      ∀ n, n < header.indexCount → ∃ index block,
        bla.indices[n]? = some index ∧ M.indices[n]? = some index ∧
        bla.vertices = [some block] ∧
        window block (calcVertexSize header.vertexFlags) index =
          window M.vertices M.vertexSize index := by
  obtain ⟨hflags, hnv, hni, hv, hi, hr⟩ := hwf
  refine ⟨_, writeObject_unoptimized_aos uninit [] M hv hi, ?_⟩
  have hhead := readObjectHeader_created M.flags M.numVertices M.numIndices M.numBones
    M.vertexSize false [] (floatBytes M.vertices ++ indexBytes M.indices)
    (IStream.ofBytes ([] ++ (createObjectHeader M.flags M.numVertices M.numIndices M.numBones
          M.vertexSize false).bytes ++ floatBytes M.vertices ++ indexBytes M.indices))
    (by simp [IStream.ofBytes]) rfl rfl rfl
  refine ⟨_, _, hhead, ?_, ?_, ?_⟩
  · exact Nat.mod_eq_of_lt hnv
  · exact Nat.mod_eq_of_lt hni
  have hfl : (createObjectHeader M.flags M.numVertices M.numIndices M.numBones
      M.vertexSize false).vertexFlags = M.flags := Nat.mod_eq_of_lt hflags
  have hvc : (createObjectHeader M.flags M.numVertices M.numIndices M.numBones
      M.vertexSize false).vertexCount = M.numVertices := Nat.mod_eq_of_lt hnv
  have hic : (createObjectHeader M.flags M.numVertices M.numIndices M.numBones
      M.vertexSize false).indexCount = M.numIndices := Nat.mod_eq_of_lt hni
  have hread := readArrayOfStructs_blocks uninitR
    { IStream.ofBytes ([] ++ (createObjectHeader M.flags M.numVertices M.numIndices M.numBones
          M.vertexSize false).bytes ++ floatBytes M.vertices ++ indexBytes M.indices) with
      pos := ([] : List Byte).length + 16 }
    (createObjectHeader M.flags M.numVertices M.numIndices M.numBones M.vertexSize false)
    (createObjectHeader M.flags M.numVertices M.numIndices M.numBones M.vertexSize false).bytes
    [] M.vertices M.indices
    (by simp [IStream.ofBytes]) (by simp [objectHeader_bytes_length]) rfl rfl
    (by rw [hvc, hfl, ← hsize, hv]; exact Nat.mod_eq_of_lt hfit)
    (by rw [hic, hi]) hr
  refine ⟨_, _, hread, rfl, rfl, ?_⟩
  intro n hn
  rw [hic, ← hi] at hn
  refine ⟨M.indices[n], M.vertices, List.getElem?_eq_getElem hn, List.getElem?_eq_getElem hn,
    rfl, ?_⟩
  rw [hfl, hsize]

/-- The witness of `roundtrip_unoptimized_array_of_structs`: the square of two
triangles. -/
theorem roundtrip_unoptimized_array_of_structs_witness :
    squareMesh.WellFormed ∧ squareMesh.vertexSize = calcVertexSize squareMesh.flags ∧
    squareMesh.numVertices * squareMesh.vertexSize < 4294967296 ∧
    ∃ bytes, writeObject zeroMemory [] (some squareMesh) false false = some (bytes, true) ∧
    ∃ header inp, readObjectHeader (IStream.ofBytes bytes) = (some header, inp) ∧
      header.vertexCount = squareMesh.numVertices ∧
      header.indexCount = squareMesh.numIndices ∧
    ∃ bla inp', readArrayOfStructs zeroBytes inp header = (some bla, inp') ∧
      bla.vertices = [some squareMesh.vertices] ∧ bla.indices = squareMesh.indices ∧
      ∀ n, n < header.indexCount → ∃ index block,
        bla.indices[n]? = some index ∧ squareMesh.indices[n]? = some index ∧
        bla.vertices = [some block] ∧
        window block (calcVertexSize header.vertexFlags) index =
          window squareMesh.vertices squareMesh.vertexSize index :=
  ⟨by decide, by decide, by decide,
    roundtrip_unoptimized_array_of_structs zeroMemory zeroBytes squareMesh (by decide)
      (by decide) (by decide)⟩

/-- When the product of the vertex count and the stride is a multiple of
`2^32`, the reader takes the vertex block to be empty. -/
theorem readback_unoptimized_aos_wrapped (uninit : Nat → Nat → F32)
    (uninitR : Nat → Nat → Byte) (M : Mesh)
    (hv : M.vertices.length = M.numVertices * M.vertexSize)
    (hi : M.indices = []) (hni : M.numIndices = 0)
    (hflags : M.flags < 65536) (hnv : M.numVertices < 4294967296)
    (hwrap : (M.numVertices * calcVertexSize M.flags) % 4294967296 = 0) :
    ∃ bytes, writeObject uninit [] (some M) false false = some (bytes, true) ∧
    ∃ header inp, readObjectHeader (IStream.ofBytes bytes) = (some header, inp) ∧
    ∃ bla inp', readArrayOfStructs uninitR inp header = (some bla, inp') ∧
      bla.vertices = [some []] := by
  refine ⟨_, writeObject_unoptimized_aos uninit [] M hv (by rw [hi, hni]; rfl), ?_⟩
  have hhead := readObjectHeader_created M.flags M.numVertices M.numIndices M.numBones
    M.vertexSize false [] (floatBytes M.vertices ++ indexBytes M.indices)
    (IStream.ofBytes ([] ++ (createObjectHeader M.flags M.numVertices M.numIndices M.numBones
          M.vertexSize false).bytes ++ floatBytes M.vertices ++ indexBytes M.indices))
    (by simp [IStream.ofBytes]) rfl rfl rfl
  refine ⟨_, _, hhead, ?_⟩
  have hfl : (createObjectHeader M.flags M.numVertices M.numIndices M.numBones
      M.vertexSize false).vertexFlags = M.flags := Nat.mod_eq_of_lt hflags
  have hvc : (createObjectHeader M.flags M.numVertices M.numIndices M.numBones
      M.vertexSize false).vertexCount = M.numVertices := Nat.mod_eq_of_lt hnv
  have hic : (createObjectHeader M.flags M.numVertices M.numIndices M.numBones
      M.vertexSize false).indexCount = 0 := by
    simp [createObjectHeader, hni]
  have hread := readArrayOfStructs_blocks uninitR
    { IStream.ofBytes ([] ++ (createObjectHeader M.flags M.numVertices M.numIndices M.numBones
          M.vertexSize false).bytes ++ floatBytes M.vertices ++ indexBytes M.indices) with
      pos := ([] : List Byte).length + 16 }
    (createObjectHeader M.flags M.numVertices M.numIndices M.numBones M.vertexSize false)
    (createObjectHeader M.flags M.numVertices M.numIndices M.numBones M.vertexSize false).bytes
    (floatBytes M.vertices ++ indexBytes M.indices) [] []
    (by simp [IStream.ofBytes, floatBytes, indexBytes])
    (by simp [objectHeader_bytes_length]) rfl rfl
    (by rw [hvc, hfl, hwrap]; rfl)
    (by rw [hic]; rfl) (by simp)
  exact ⟨_, _, hread, rfl⟩

/-- C2, counterexample: a well-formed mesh of `2^29` vertices of 8 floats.
The reader computes the size of the vertex block in 32-bit arithmetic,
`2^29 * 8 = 0`, so the decoded vertex block is empty while the buffer of the
mesh holds `2^32` floats. -/
theorem roundtrip_unoptimized_aos_wraps_at_32_bits :
    hugeMesh.WellFormed ∧ hugeMesh.vertexSize = calcVertexSize hugeMesh.flags ∧
    hugeMesh.vertices.length = 4294967296 ∧
    ∃ bytes, writeObject zeroMemory [] (some hugeMesh) false false = some (bytes, true) ∧
    ∃ header inp, readObjectHeader (IStream.ofBytes bytes) = (some header, inp) ∧
    ∃ bla inp', readArrayOfStructs zeroBytes inp header = (some bla, inp') ∧
      bla.vertices = [some []] := by
  have hlen : hugeMesh.vertices.length = 4294967296 := List.length_replicate _ _
  refine ⟨⟨by decide, by decide, by decide, hlen, rfl, by intro x hx; cases hx⟩, by decide,
    hlen, ?_⟩
  exact readback_unoptimized_aos_wrapped zeroMemory zeroBytes hugeMesh hlen rfl rfl
    (by decide) (by decide) (by decide)

/-! ## Round trip of the optimized array-of-structs layout -/

theorem writeVertexArrays_eq (n : Nat) :
    ∀ (U : List Vertex) (out : OStream), (∀ u ∈ U, u.array.length = n) →
      writeVertexArrays n U out = some (out ++ floatBytes (flattenVertices (U.map Vertex.array))) := by
  intro U
  induction U with
  | nil => intro out _; simp [writeVertexArrays, flattenVertices, floatBytes]
  | cons u us ih =>
    intro out h
    have hu := h u (List.mem_cons_self _ _)
    have hus : ∀ v ∈ us, v.array.length = n := fun v hv => h v (List.mem_cons_of_mem _ hv)
    simp only [writeVertexArrays, hu, le_refl, if_true, ih _ hus, List.map_cons, flattenVertices,
      floatBytes_append, List.append_assoc]
    rw [← hu, List.take_length]

/-- The bytes of an optimized array-of-structs object of 8-float vertices. -/
theorem writeObject_optimized_aos (uninit : Nat → Nat → F32) (out : OStream) (M : Mesh)
    (h8 : M.vertexSize = 8) (hv : M.vertices.length = M.numVertices * M.vertexSize)
    (hpos : 0 < M.numVertices) :
    writeObject uninit out (some M) true false =
      some (out ++ (createObjectHeader M.flags
          (firstOccurrences (windows M.vertices 8 M.numVertices)).length M.numVertices
          M.numBones 8 false).bytes ++
        floatBytes (flattenVertices (firstOccurrences (windows M.vertices 8 M.numVertices))) ++
        indexBytes ((windows M.vertices 8 M.numVertices).map (fun w =>
          List.indexOf (Vertex.mk 8 w)
            ((firstOccurrences (windows M.vertices 8 M.numVertices)).map (Vertex.mk 8))
            % 65536)), true) := by
  have hweld := optimizeArrayOfStructs_eight uninit M.vertices M.numVertices
    (by rw [hv, h8])
  have hmem : window M.vertices 8 0 ∈ firstOccurrences (windows M.vertices 8 M.numVertices) :=
    (mem_firstOccurrences _ _).mpr (mem_windows M.vertices 8 _ 0 hpos)
  obtain ⟨w, ws, hF⟩ : ∃ w ws, firstOccurrences (windows M.vertices 8 M.numVertices) = w :: ws := by
    cases hF : firstOccurrences (windows M.vertices 8 M.numVertices) with
    | nil => rw [hF] at hmem; cases hmem
    | cons w ws => exact ⟨w, ws, rfl⟩
  have hlenF : ∀ u ∈ (firstOccurrences (windows M.vertices 8 M.numVertices)).map (Vertex.mk 8),
      u.array.length = 8 := by
    intro u hu
    simp only [List.mem_map] at hu
    obtain ⟨x, hx, rfl⟩ := hu
    have hx' := (mem_firstOccurrences _ _).mp hx
    simp only [windows, List.mem_map, List.mem_range] at hx'
    obtain ⟨i, hi, rfl⟩ := hx'
    apply window_length
    rw [hv, h8]
    exact Nat.mul_le_mul_right 8 hi
  have hwr := writeVertexArrays_eq 8 _ (out ++ (createObjectHeader M.flags
          (firstOccurrences (windows M.vertices 8 M.numVertices)).length M.numVertices
          M.numBones 8 false).bytes) hlenF
  have hmm : ((firstOccurrences (windows M.vertices 8 M.numVertices)).map (Vertex.mk 8)).map
      Vertex.array = firstOccurrences (windows M.vertices 8 M.numVertices) := by
    rw [List.map_map]
    have : (Vertex.array ∘ Vertex.mk 8) = id := rfl
    rw [this, List.map_id]
  rw [hmm] at hwr
  simp only [writeObject, h8, hweld, if_true, Bool.false_eq_true, if_false, writeObjectHeader,
    List.length_map, windows_length]
  rw [hF] at hwr ⊢
  simp only [List.map_cons, writeArrayOfStructsData] at hwr ⊢
  rw [hwr]

theorem writeObject_optimized_aos_bytes (uninit : Nat → Nat → F32) (out : OStream) (M : Mesh)
    (h8 : M.vertexSize = 8) (hv : M.vertices.length = M.numVertices * M.vertexSize)
    (hpos : 0 < M.numVertices) :
    writeObject uninit out (some M) true false = some (out ++ optimizedObjectBytes M, true) := by
  rw [writeObject_optimized_aos uninit out M h8 hv hpos]
  simp only [optimizedObjectBytes, weldUnique, weldIndices, List.append_assoc]

theorem weldUnique_length_le (vertices : List F32) (n : Nat) :
    (weldUnique vertices n).length ≤ n := by
  rw [weldUnique, firstOccurrences_length]
  calc (windows vertices 8 n).dedup.length ≤ (windows vertices 8 n).length :=
        (List.dedup_sublist _).length_le
    _ = n := windows_length _ _ _

theorem weldUnique_window_length (vertices : List F32) (n : Nat) (hlen : n * 8 ≤ vertices.length) :
    ∀ w ∈ weldUnique vertices n, w.length = 8 := by
  intro w hw
  have hw' := (mem_firstOccurrences _ _).mp hw
  simp only [windows, List.mem_map, List.mem_range] at hw'
  obtain ⟨i, hi, rfl⟩ := hw'
  apply window_length
  calc (i + 1) * 8 ≤ n * 8 := Nat.mul_le_mul_right 8 hi
    _ ≤ vertices.length := hlen

theorem weldIndices_length (vertices : List F32) (n : Nat) :
    (weldIndices vertices n).length = n := by
  simp [weldIndices, windows_length]

theorem weldIndices_lt (vertices : List F32) (n : Nat) :
    ∀ x ∈ weldIndices vertices n, x < 65536 := by
  intro x hx
  simp only [weldIndices, List.mem_map] at hx
  obtain ⟨w, _, rfl⟩ := hx
  exact Nat.mod_lt _ (by decide)

/-- Reading back an optimized array-of-structs object of 8-float vertices that
follows `pre` in a stream. -/
theorem readback_optimized_aos (uninitR : Nat → Nat → Byte) (M : Mesh) (pre post : List Byte)
    (hflags : M.flags < 65536) (hnv : M.numVertices < 4294967296)
    (hv : M.vertices.length = M.numVertices * 8)
    (hcalc : calcVertexSize M.flags = 8)
    (hfit : (weldUnique M.vertices M.numVertices).length * 8 < 4294967296) :
    ∃ header inp inp',
      readObjectHeader
        { content := pre ++ optimizedObjectBytes M ++ post, pos := pre.length,
          good := true, isOpen := true } = (some header, inp) ∧
      header.type = ARRAY_OF_STRUCTS ∧ header.vertexSize = 8 ∧
      header.vertexFlags = M.flags ∧
      header.vertexCount = (weldUnique M.vertices M.numVertices).length ∧
      header.indexCount = M.numVertices ∧
      readArrayOfStructs uninitR inp header =
        (some { header := header,
                vertices := [some (flattenVertices (weldUnique M.vertices M.numVertices))],
                indices := weldIndices M.vertices M.numVertices }, inp') := by
  have hUle := weldUnique_length_le M.vertices M.numVertices
  have hhead := readObjectHeader_created M.flags (weldUnique M.vertices M.numVertices).length
    M.numVertices M.numBones 8 false pre
    (floatBytes (flattenVertices (weldUnique M.vertices M.numVertices)) ++
      indexBytes (weldIndices M.vertices M.numVertices) ++ post)
    { content := pre ++ optimizedObjectBytes M ++ post, pos := pre.length,
      good := true, isOpen := true }
    (by simp [optimizedObjectBytes]) rfl rfl rfl
  have hfl : (createObjectHeader M.flags (weldUnique M.vertices M.numVertices).length
      M.numVertices M.numBones 8 false).vertexFlags = M.flags := Nat.mod_eq_of_lt hflags
  have hvc : (createObjectHeader M.flags (weldUnique M.vertices M.numVertices).length
      M.numVertices M.numBones 8 false).vertexCount =
      (weldUnique M.vertices M.numVertices).length := Nat.mod_eq_of_lt (by omega)
  have hic : (createObjectHeader M.flags (weldUnique M.vertices M.numVertices).length
      M.numVertices M.numBones 8 false).indexCount = M.numVertices := Nat.mod_eq_of_lt hnv
  have hblock : (flattenVertices (weldUnique M.vertices M.numVertices)).length =
      (weldUnique M.vertices M.numVertices).length * 8 :=
    flattenVertices_length _ 8 (weldUnique_window_length M.vertices M.numVertices
      (le_of_eq hv.symm))
  have hread := readArrayOfStructs_blocks uninitR
    { content := pre ++ optimizedObjectBytes M ++ post, pos := pre.length + 16,
      good := true, isOpen := true }
    (createObjectHeader M.flags (weldUnique M.vertices M.numVertices).length M.numVertices
      M.numBones 8 false)
    (pre ++ (createObjectHeader M.flags (weldUnique M.vertices M.numVertices).length
      M.numVertices M.numBones 8 false).bytes) post
    (flattenVertices (weldUnique M.vertices M.numVertices))
    (weldIndices M.vertices M.numVertices)
    (by simp [optimizedObjectBytes]) (by simp [objectHeader_bytes_length]) rfl rfl
    (by rw [hvc, hfl, hcalc, hblock]; exact Nat.mod_eq_of_lt (by omega))
    (by rw [hic, weldIndices_length]) (weldIndices_lt _ _)
  exact ⟨_, _, _, hhead, rfl, rfl, hfl, hvc, hic, hread⟩

theorem readFileHeader_created (numObjects : Nat) (post : List Byte) :
    readFileHeader (IStream.ofBytes ((createFileHeader numObjects).bytes ++ post)) =
      (some (createFileHeader numObjects),
        { content := (createFileHeader numObjects).bytes ++ post, pos := 6, good := true,
          isOpen := true }) := by
  have h := readInto_block
    { content := (createFileHeader numObjects).bytes ++ post, pos := 0, good := true,
      isOpen := true }
    [] (createFileHeader numObjects).bytes post (List.replicate 6 0)
    (by simp) rfl rfl rfl (by simp [FileHeader.bytes])
  have hlen : ¬ ((createFileHeader numObjects).bytes ++ post).length < 6 := by
    simp [FileHeader.bytes]
  have hof : FileHeader.ofBytes (createFileHeader numObjects).bytes =
      createFileHeader numObjects := by
    simp only [FileHeader.ofBytes, FileHeader.bytes, createFileHeader, byteOf, kMagicNumber0,
      kMagicNumber1, kFileFormatVersionMajor, kFileFormatVersionMinor, FileHeader.mk.injEq]
    refine ⟨?_, ?_, ?_, ?_, ?_, ?_⟩
    all_goals first | rfl | exact Nat.mod_mod _ _ | decide
  simp only [readFileHeader, IStream.ofBytes, Bool.not_true, Bool.false_eq_true, if_false,
    if_true, hlen, h, hof]
  simp [createFileHeader, FileHeader.bytes]

/-- Replaying the weld indices over the concatenated unique vertices. -/
theorem weldIndices_replay (vertices : List F32) (n : Nat) (hlen : n * 8 ≤ vertices.length)
    (hdistinct : (windows vertices 8 n).dedup.length ≤ 65536) (i : Nat) (hi : i < n) :
    ∃ index, (weldIndices vertices n)[i]? = some index ∧
      window (flattenVertices (weldUnique vertices n)) 8 index = window vertices 8 i := by
  have hmemF : window vertices 8 i ∈ weldUnique vertices n :=
    (mem_firstOccurrences _ _).mpr (mem_windows vertices 8 n i hi)
  have hmem : Vertex.mk 8 (window vertices 8 i) ∈ (weldUnique vertices n).map (Vertex.mk 8) :=
    List.mem_map_of_mem _ hmemF
  have hlt := List.indexOf_lt_length.mpr hmem
  have hU : ((weldUnique vertices n).map (Vertex.mk 8)).length ≤ 65536 := by
    rw [List.length_map, weldUnique, firstOccurrences_length]
    exact hdistinct
  refine ⟨List.indexOf (Vertex.mk 8 (window vertices 8 i))
    ((weldUnique vertices n).map (Vertex.mk 8)), ?_, ?_⟩
  · rw [weldIndices, List.getElem?_map, windows_getElem? vertices 8 n i hi]
    simp only [Option.map_some', Option.some.injEq]
    exact Nat.mod_eq_of_lt (lt_of_lt_of_le hlt hU)
  · rw [window_flattenVertices 8 _ _ (weldUnique_window_length vertices n hlen)]
    have hget := getElem?_indexOf_of_mem _ _ hmem
    rw [List.getElem?_map] at hget
    cases hF : (weldUnique vertices n)[List.indexOf (Vertex.mk 8 (window vertices 8 i))
        ((weldUnique vertices n).map (Vertex.mk 8))]? with
    | none => rw [hF] at hget; cases hget
    | some w =>
      rw [hF] at hget
      simp only [Option.map_some', Option.some.injEq] at hget
      simp only [Option.getD_some]
      exact vertex_mk_injective 8 hget

theorem writeFile_single_optimized (uninit : Nat → Nat → Nat → F32) (M : Mesh)
    (h8 : M.vertexSize = 8) (hv : M.vertices.length = M.numVertices * M.vertexSize)
    (hpos : 0 < M.numVertices) :
    writeFile uninit [some M] true false =
      some ((createFileHeader 1).bytes ++ optimizedObjectBytes M) := by
  simp only [writeFile, writeFileHeader, writeObjects, List.length_singleton, List.nil_append,
    writeObject_optimized_aos_bytes (uninit 0) _ M h8 hv hpos]

/-- C5, amended: for every well-formed mesh `M` of 8-float vertices
(`M.vertexSize = calcVertexSize M.flags = 8`) with at least one vertex, fewer
than `2^31` vertices (the range of the loop counter of the weld) and at most
65536 distinct vertices, written by `writeFile` with its default options
and read back with `readFileHeader`, `readObjectHeader` and
`readArrayOfStructs`: the header read has `indexCount = M.numVertices`, and for
every `n` below it the decoded vertex at `decoded.indices[n]` equals, float for
float, `M`'s vertex `n`. -/
theorem roundtrip_optimized_file_replays_vertices (uninit : Nat → Nat → Nat → F32)
    (uninitR : Nat → Nat → Byte) (M : Mesh) (hwf : M.WellFormed) (h8 : M.vertexSize = 8)
    (hcalc : calcVertexSize M.flags = 8) (hpos : 0 < M.numVertices)
    (hdistinct : (windows M.vertices 8 M.numVertices).dedup.length ≤ 65536)
    (hcount : M.numVertices < 2147483648) :
    ∃ bytes, writeFile uninit [some M] true false = some bytes ∧
    ∃ fileHeader inp1, readFileHeader (IStream.ofBytes bytes) = (some fileHeader, inp1) ∧
    ∃ header inp2, readObjectHeader inp1 = (some header, inp2) ∧
      header.type = ARRAY_OF_STRUCTS ∧ header.vertexSize = 8 ∧
      header.indexCount = M.numVertices ∧
    ∃ bla inp3, readArrayOfStructs uninitR inp2 header = (some bla, inp3) ∧
    ∃ block, bla.vertices = [some block] ∧
      ∀ n, n < header.indexCount → ∃ index, bla.indices[n]? = some index ∧
        window block header.vertexSize index = window M.vertices M.vertexSize n := by
  obtain ⟨hflags, hnv, _, hv, _, _⟩ := hwf
  have hv8 : M.vertices.length = M.numVertices * 8 := by rw [hv, h8]
  have hU : (weldUnique M.vertices M.numVertices).length ≤ 65536 := by
    rw [weldUnique, firstOccurrences_length]; exact hdistinct
  obtain ⟨header, inp, inp', hhead, htype, hvs, _, _, hic, hread⟩ :=
    readback_optimized_aos uninitR M (createFileHeader 1).bytes [] hflags hnv hv8 hcalc
      (by omega)
  refine ⟨_, writeFile_single_optimized uninit M h8 hv hpos, _, _,
    readFileHeader_created 1 _, header, inp, ?_, htype, hvs, hic, _, inp', hread, _, rfl, ?_⟩
  · rw [← hhead]
    simp [FileHeader.bytes]
  · intro n hn
    rw [hic] at hn
    rw [hvs, h8]
    exact weldIndices_replay M.vertices M.numVertices (le_of_eq hv8.symm) hdistinct n hn

/-- The witness of `roundtrip_optimized_file_replays_vertices`: the square of
two triangles. -/
theorem roundtrip_optimized_file_replays_vertices_witness :
    squareMesh.WellFormed ∧ squareMesh.vertexSize = 8 ∧ calcVertexSize squareMesh.flags = 8 ∧
    0 < squareMesh.numVertices ∧
    (windows squareMesh.vertices 8 squareMesh.numVertices).dedup.length ≤ 65536 ∧
    squareMesh.numVertices < 2147483648 ∧
    ∃ bytes, writeFile (fun _ => zeroMemory) [some squareMesh] true false = some bytes ∧
    ∃ fileHeader inp1, readFileHeader (IStream.ofBytes bytes) = (some fileHeader, inp1) ∧
    ∃ header inp2, readObjectHeader inp1 = (some header, inp2) ∧
      header.type = ARRAY_OF_STRUCTS ∧ header.vertexSize = 8 ∧
      header.indexCount = squareMesh.numVertices ∧
    ∃ bla inp3, readArrayOfStructs zeroBytes inp2 header = (some bla, inp3) ∧
    ∃ block, bla.vertices = [some block] ∧
      ∀ n, n < header.indexCount → ∃ index, bla.indices[n]? = some index ∧
        window block header.vertexSize index =
          window squareMesh.vertices squareMesh.vertexSize n :=
  ⟨by decide, by decide, by decide, by decide, by decide, by decide,
    roundtrip_optimized_file_replays_vertices (fun _ => zeroMemory) zeroBytes squareMesh
      (by decide) (by decide) (by decide) (by decide) (by decide) (by decide)⟩

/-- C5, counterexample: a mesh of two distinct 8-float vertices with the index
buffer `[1, 0]`, written by `writeFile` with its default options.  The index
block read back is `[0, 1]`: the decoded vertex at `decoded.indices[0]` is
`M`'s vertex 0, not `M`'s vertex at `M.indices[0] = 1`. -/
theorem optimized_file_drops_index_buffer :
    swappedMesh.WellFormed ∧ swappedMesh.vertexSize = calcVertexSize swappedMesh.flags ∧
    ((writeFile (fun _ => zeroMemory) [some swappedMesh] true false).bind
        (readFileBack zeroBytes)).map (fun bla => (bla.header.indexCount, bla.indices,
          bla.vertices)) =
      some (2, [0, 1], [some swappedMesh.vertices]) ∧
    swappedMesh.indices = [1, 0] ∧
    window swappedMesh.vertices 8 0 ≠ window swappedMesh.vertices 8 1 := by
  decide

/-- Writing an optimized array-of-structs object of 8-float vertices and
reading it back: the decoded object in closed form. -/
theorem optimized_aos_decoded (uninit : Nat → Nat → F32) (uninitR : Nat → Nat → Byte)
    (M : Mesh) (hflags : M.flags < 65536) (hnv : M.numVertices < 4294967296)
    (hv : M.vertices.length = M.numVertices * M.vertexSize) (h8 : M.vertexSize = 8)
    (hcalc : calcVertexSize M.flags = 8) (hpos : 0 < M.numVertices)
    (hfit : (weldUnique M.vertices M.numVertices).length * 8 < 4294967296) :
    ∃ bytes, writeObject uninit [] (some M) true false = some (bytes, true) ∧
    ∃ header inp, readObjectHeader (IStream.ofBytes bytes) = (some header, inp) ∧
    ∃ inp', readArrayOfStructs uninitR inp header =
      (some { header := header,
              vertices := [some (flattenVertices (weldUnique M.vertices M.numVertices))],
              indices := weldIndices M.vertices M.numVertices }, inp') := by
  have hv8 : M.vertices.length = M.numVertices * 8 := by rw [hv, h8]
  obtain ⟨header, inp, inp', hhead, _, _, _, _, _, hread⟩ :=
    readback_optimized_aos uninitR M [] [] hflags hnv hv8 hcalc hfit
  refine ⟨_, writeObject_optimized_aos_bytes uninit [] M h8 hv hpos, header, inp, ?_, inp',
    hread⟩
  rw [← hhead]
  simp [IStream.ofBytes]

/-- C1, amended: for every well-formed raw mesh `M` of 8-float vertices
(`M.vertexSize = calcVertexSize M.flags = 8`) with at least one vertex, fewer
than `2^31` vertices (the range of the loop counter of the weld) and at most
65536 distinct vertices, the bytes produced by `writeObject` with
`doOptimize = true`, `useStructOfArrays = false`, read back with
`readObjectHeader` and `readArrayOfStructs`, give a decoded object such that
for every `i < M.numVertices` the floats of the decoded vertex block at vertex
position `decoded.indices[i]` are those of vertex `i` of `M`. -/
theorem roundtrip_optimized_array_of_structs (uninit : Nat → Nat → F32)
    (uninitR : Nat → Nat → Byte) (M : Mesh) (hwf : M.WellFormed) (h8 : M.vertexSize = 8)
    (hcalc : calcVertexSize M.flags = 8) (hpos : 0 < M.numVertices)
    (hdistinct : (windows M.vertices 8 M.numVertices).dedup.length ≤ 65536)
    (hcount : M.numVertices < 2147483648) :
    ∃ bytes, writeObject uninit [] (some M) true false = some (bytes, true) ∧
    ∃ header inp, readObjectHeader (IStream.ofBytes bytes) = (some header, inp) ∧
    ∃ bla inp', readArrayOfStructs uninitR inp header = (some bla, inp') ∧
    ∃ block, bla.vertices = [some block] ∧
      ∀ i, i < M.numVertices → ∃ index, bla.indices[i]? = some index ∧
        window block M.vertexSize index = window M.vertices M.vertexSize i := by
  obtain ⟨hflags, hnv, _, hv, _, _⟩ := hwf
  have hv8 : M.vertices.length = M.numVertices * 8 := by rw [hv, h8]
  have hU : (weldUnique M.vertices M.numVertices).length ≤ 65536 := by
    rw [weldUnique, firstOccurrences_length]; exact hdistinct
  obtain ⟨bytes, hwrite, header, inp, hhead, inp', hread⟩ :=
    optimized_aos_decoded uninit uninitR M hflags hnv hv h8 hcalc hpos (by omega)
  refine ⟨bytes, hwrite, header, inp, hhead, _, inp', hread, _, rfl, ?_⟩
  intro i hi
  rw [h8]
  exact weldIndices_replay M.vertices M.numVertices (le_of_eq hv8.symm) hdistinct i hi

/-- The witness of `roundtrip_optimized_array_of_structs`: the square of two
triangles. -/
theorem roundtrip_optimized_array_of_structs_witness :
    squareMesh.WellFormed ∧ squareMesh.vertexSize = 8 ∧ calcVertexSize squareMesh.flags = 8 ∧
    0 < squareMesh.numVertices ∧
    (windows squareMesh.vertices 8 squareMesh.numVertices).dedup.length ≤ 65536 ∧
    squareMesh.numVertices < 2147483648 ∧
    ∃ bytes, writeObject zeroMemory [] (some squareMesh) true false = some (bytes, true) ∧
    ∃ header inp, readObjectHeader (IStream.ofBytes bytes) = (some header, inp) ∧
    ∃ bla inp', readArrayOfStructs zeroBytes inp header = (some bla, inp') ∧
    ∃ block, bla.vertices = [some block] ∧
      ∀ i, i < squareMesh.numVertices → ∃ index, bla.indices[i]? = some index ∧
        window block squareMesh.vertexSize index =
          window squareMesh.vertices squareMesh.vertexSize i :=
  ⟨by decide, by decide, by decide, by decide, by decide, by decide,
    roundtrip_optimized_array_of_structs zeroMemory zeroBytes squareMesh
      (by decide) (by decide) (by decide) (by decide) (by decide) (by decide)⟩

theorem weldUnique_manyVertices :
    weldUnique manyVertices 65537 = (List.range 65537).map countVertex := by
  rw [weldUnique, windows_manyVertices,
    firstOccurrences_of_nodup _ (countVertices_nodup 65537 (by decide))]

theorem weldIndices_manyVertices :
    weldIndices manyVertices 65537 = (List.range 65537).map (fun i => i % 65536) := by
  have h1 := optimizeArrayOfStructs_eight zeroMemory manyVertices 65537
    (le_of_eq manyVertices_length.symm)
  obtain ⟨U, h2⟩ := weld_manyVertices zeroMemory
  rw [h1] at h2
  simp only [Option.some.injEq, Prod.mk.injEq] at h2
  exact h2.1

/-- C1, counterexample: a well-formed mesh of 65537 pairwise distinct 8-float
vertices.  The index of vertex 65536 is written as 0, so after the round trip
the decoded vertex at `decoded.indices[65536]` is vertex 0 of the mesh, which
differs from vertex 65536. -/
theorem roundtrip_optimized_aos_wraps_at_16_bits :
    manyMesh.WellFormed ∧ manyMesh.vertexSize = calcVertexSize manyMesh.flags ∧
    ∃ bytes, writeObject zeroMemory [] (some manyMesh) true false = some (bytes, true) ∧
    ∃ header inp, readObjectHeader (IStream.ofBytes bytes) = (some header, inp) ∧
    ∃ bla inp', readArrayOfStructs zeroBytes inp header = (some bla, inp') ∧
    ∃ block, bla.vertices = [some block] ∧ bla.indices[65536]? = some 0 ∧
      window block manyMesh.vertexSize 0 ≠
        window manyMesh.vertices manyMesh.vertexSize 65536 := by
  have hvert : manyMesh.vertices = manyVertices := by simp only [manyMesh]
  have hnum : manyMesh.numVertices = 65537 := rfl
  have hsz : manyMesh.vertexSize = 8 := rfl
  have hv : manyMesh.vertices.length = manyMesh.numVertices * manyMesh.vertexSize := by
    rw [hvert, hnum, hsz]; exact manyVertices_length
  have hU : (weldUnique manyMesh.vertices manyMesh.numVertices).length = 65537 := by
    rw [hvert, hnum, weldUnique_manyVertices]; simp
  obtain ⟨bytes, hwrite, header, inp, hhead, inp', hread⟩ :=
    optimized_aos_decoded zeroMemory zeroBytes manyMesh (by decide) (by decide) hv hsz
      (by decide) (by decide) (by rw [hU]; decide)
  refine ⟨⟨by decide, by decide, by decide, hv, rfl, by intro x hx; cases hx⟩, by decide,
    bytes, hwrite, header, inp, hhead, _, inp', hread, _, rfl, ?_, ?_⟩
  · simp only [hvert, hnum]
    rw [weldIndices_manyVertices, List.getElem?_map, List.getElem?_range (by decide)]
    rfl
  · simp only [hvert, hnum, hsz]
    rw [weldUnique_manyVertices]
    have hflat : flattenVertices ((List.range 65537).map countVertex) = manyVertices := by
      simp only [manyVertices]
    rw [hflat, window_manyVertices 0 (by decide), window_manyVertices 65536 (by decide)]
    decide

/-! ## The layout transcoder in closed form -/

theorem convertVertex_eq_pushSlots (vertexFlags : Nat) (vertex : Vertex) (object : ObjectData) :
    convertVertex vertexFlags vertex object =
      (pushSlots (componentSlots vertexFlags) vertex.array object.toSlots 0).map
        (ObjectData.ofSlots object.vertexFlags) := by
  simp only [convertVertex, componentSlots, ObjectData.toSlots, pushSlots, kPositionSize,
    kNormalsSize, kTextureSize, kColorSize, kTanSize, kBitanSize]
  repeat' (first | rfl | split)

theorem pushSlots_eq (array : List F32) :
    ∀ (slots : List (Bool × Nat)) (dsts : List (List F32)) (index : Nat),
      dsts.length = slots.length → index + (slots.map enabledSize).sum ≤ array.length →
      pushSlots slots array dsts index =
        some (List.zipWith (· ++ ·) dsts (componentParts slots array index)) := by
  intro slots
  induction slots with
  | nil =>
    intro dsts index hl _
    cases dsts with
    | nil => simp [pushSlots, componentParts]
    | cons d ds => simp at hl
  | cons slot rest ih =>
    intro dsts index hl hle
    cases dsts with
    | nil => simp at hl
    | cons d ds =>
      simp only [List.map_cons, List.sum_cons] at hle
      have hl' : ds.length = rest.length := by simpa using hl
      have hrest := ih ds (index + enabledSize slot) hl' (by omega)
      obtain ⟨has, n⟩ := slot
      cases has with
      | false =>
        simp only [enabledSize, Bool.false_eq_true, if_false, Nat.add_zero] at hrest
        simp [pushSlots, pushComponent, componentParts, enabledSize, hrest]
      | true =>
        simp only [enabledSize, if_true] at hrest hle
        have hb : index + n ≤ array.length := by omega
        simp [pushSlots, pushComponent, componentParts, enabledSize, hrest, hb]

theorem componentSlots_length (vertexFlags : Nat) : (componentSlots vertexFlags).length = 12 := by
  simp [componentSlots]

theorem ite_add_enabled (has : Bool) (a n : Nat) :
    (if has = true then a + n else a) = a + (if has = true then n else 0) := by
  cases has <;> simp

theorem componentSlots_total (vertexFlags : Nat) :
    ((componentSlots vertexFlags).map enabledSize).sum = calcVertexSize vertexFlags := by
  simp only [componentSlots, calcVertexSize, enabledSize, List.map_cons, List.map_nil,
    List.sum_cons, List.sum_nil, kPositionSize, kNormalsSize, kTextureSize, kColorSize, kTanSize,
    kBitanSize, ite_add_enabled]
  cases hasTanBitan vertexFlags <;> simp only [Bool.false_eq_true, if_false, if_true] <;> omega

theorem componentParts_length (array : List F32) :
    ∀ (slots : List (Bool × Nat)) (index : Nat),
      (componentParts slots array index).length = slots.length := by
  intro slots
  induction slots with
  | nil => intro _; rfl
  | cons slot rest ih => intro index; simp [componentParts, ih]

theorem columnsOf_length (slots : List (Bool × Nat)) (arrays : List (List F32)) :
    (columnsOf slots arrays).length = slots.length := by
  induction arrays with
  | nil => simp [columnsOf]
  | cons a rest ih => simp [columnsOf, componentParts_length, ih]

theorem zipWith_append_assoc :
    ∀ (a b c : List (List F32)),
      List.zipWith (· ++ ·) (List.zipWith (· ++ ·) a b) c =
        List.zipWith (· ++ ·) a (List.zipWith (· ++ ·) b c)
  | [], _, _ => by simp
  | _ :: _, [], _ => by simp
  | _ :: _, _ :: _, [] => by simp
  | x :: xs, y :: ys, z :: zs => by
    simp [zipWith_append_assoc xs ys zs]

theorem zipWith_append_nils (a : List (List F32)) (slots : List (Bool × Nat))
    (h : a.length = slots.length) :
    List.zipWith (· ++ ·) a (slots.map (fun _ => ([] : List F32))) = a := by
  induction a generalizing slots with
  | nil => simp
  | cons x xs ih =>
    cases slots with
    | nil => simp at h
    | cons s ss =>
      simp only [List.map_cons, List.zipWith_cons_cons, List.append_nil,
        ih ss (by simpa using h)]

theorem zipWith_nils_append (a : List (List F32)) (slots : List (Bool × Nat))
    (h : a.length = slots.length) :
    List.zipWith (· ++ ·) (slots.map (fun _ => ([] : List F32))) a = a := by
  induction a generalizing slots with
  | nil => simp
  | cons x xs ih =>
    cases slots with
    | nil => simp at h
    | cons s ss =>
      simp only [List.map_cons, List.zipWith_cons_cons, List.nil_append,
        ih ss (by simpa using h)]

theorem toSlots_ofSlots (vertexFlags : Nat) (cols : List (List F32)) (h : cols.length = 12) :
    (ObjectData.ofSlots vertexFlags cols).toSlots = cols ∧
      (ObjectData.ofSlots vertexFlags cols).vertexFlags = vertexFlags := by
  match cols, h with
  | [p, n, u0, u1, u2, u3, c0, c1, c2, c3, t, b], _ => exact ⟨rfl, rfl⟩

theorem ofSlots_toSlots (object : ObjectData) :
    ObjectData.ofSlots object.vertexFlags object.toSlots = object := rfl

theorem toSlots_length (object : ObjectData) : object.toSlots.length = 12 := rfl

theorem convertVertex_eq (vertexFlags : Nat) (vertex : Vertex) (object : ObjectData)
    (h : calcVertexSize vertexFlags ≤ vertex.array.length) :
    convertVertex vertexFlags vertex object =
      some (ObjectData.ofSlots object.vertexFlags (List.zipWith (· ++ ·) object.toSlots
        (componentParts (componentSlots vertexFlags) vertex.array 0))) := by
  rw [convertVertex_eq_pushSlots, pushSlots_eq vertex.array _ _ 0
    (by rw [toSlots_length, componentSlots_length])
    (by rw [componentSlots_total]; omega)]
  rfl

theorem convertVertices_eq (vertexFlags : Nat) :
    ∀ (vertices : List Vertex) (object : ObjectData),
      (∀ u ∈ vertices, calcVertexSize vertexFlags ≤ u.array.length) →
      convertVertices vertexFlags vertices object =
        some (ObjectData.ofSlots object.vertexFlags (List.zipWith (· ++ ·) object.toSlots
          (columnsOf (componentSlots vertexFlags) (vertices.map Vertex.array)))) := by
  intro vertices
  induction vertices with
  | nil =>
    intro object _
    simp only [convertVertices, List.map_nil, columnsOf]
    rw [zipWith_append_nils _ _ (by rw [toSlots_length, componentSlots_length])]
    rfl
  | cons u rest ih =>
    intro object h
    have hu := h u (List.mem_cons_self _ _)
    have hrest : ∀ v ∈ rest, calcVertexSize vertexFlags ≤ v.array.length :=
      fun v hv => h v (List.mem_cons_of_mem _ hv)
    have hlen : (List.zipWith (· ++ ·) object.toSlots
        (componentParts (componentSlots vertexFlags) u.array 0)).length = 12 := by
      simp [toSlots_length, componentParts_length, componentSlots_length]
    obtain ⟨h1, h2⟩ := toSlots_ofSlots object.vertexFlags _ hlen
    simp only [convertVertices, convertVertex_eq vertexFlags u object hu, ih _ hrest, h1, h2,
      List.map_cons, columnsOf, zipWith_append_assoc]

/-- The transcoder in closed form: the sequences of the result are the columns
of the table. -/
theorem convertArrayOfStructsToStructOfArrays_eq (vertices : List Vertex)
    (vertexFlags vertexSize : Nat)
    (h : ∀ u ∈ vertices, calcVertexSize vertexFlags ≤ u.array.length) :
    convertArrayOfStructsToStructOfArrays vertices vertexFlags vertexSize =
      some (ObjectData.ofSlots vertexFlags
        (columnsOf (componentSlots vertexFlags) (vertices.map Vertex.array))) := by
  rw [convertArrayOfStructsToStructOfArrays, convertVertices_eq vertexFlags vertices _ h]
  congr 2
  exact zipWith_nils_append _ (componentSlots vertexFlags)
    (by rw [columnsOf_length])

theorem scanOffset_cons_succ (slot : Bool × Nat) (rest : List (Bool × Nat)) (k : Nat) :
    scanOffset (slot :: rest) (k + 1) = enabledSize slot + scanOffset rest k := by
  simp [scanOffset]

theorem componentParts_getElem? (array : List F32) :
    ∀ (slots : List (Bool × Nat)) (index k : Nat) (has : Bool) (n : Nat),
      slots[k]? = some (has, n) →
      (componentParts slots array index)[k]? =
        some (if has then (array.drop (index + scanOffset slots k)).take n else []) := by
  intro slots
  induction slots with
  | nil => intro index k has n h; simp at h
  | cons slot rest ih =>
    intro index k has n h
    cases k with
    | zero =>
      simp only [List.getElem?_cons_zero, Option.some.injEq] at h
      subst h
      simp [componentParts, scanOffset]
    | succ k =>
      simp only [List.getElem?_cons_succ] at h
      simp only [componentParts, List.getElem?_cons_succ, ih (index + enabledSize slot) k has n h,
        scanOffset_cons_succ, Nat.add_assoc]

theorem columnsOf_getElem? (slots : List (Bool × Nat)) (k : Nat) (has : Bool) (n : Nat)
    (h : slots[k]? = some (has, n)) :
    ∀ (arrays : List (List F32)),
      (columnsOf slots arrays)[k]? =
        some (if has then columnOf arrays (scanOffset slots k) n else []) := by
  intro arrays
  induction arrays with
  | nil =>
    simp only [columnsOf, List.getElem?_map, h, Option.map_some', columnOf, List.map_nil,
      flattenVertices, ite_self]
  | cons a rest ih =>
    simp only [columnsOf, List.getElem?_zipWith, componentParts_getElem? a slots 0 k has n h, ih,
      Nat.zero_add]
    cases has with
    | false => rfl
    | true => rfl

theorem toInt32_add (a b : Int) : toInt32 (toInt32 a + b) = toInt32 (a + b) := by
  simp only [toInt32]
  omega

theorem toInt32_of_lt (n : Nat) (h : n < 2147483648) : toInt32 (n : Int) = (n : Int) := by
  simp only [toInt32]
  omega

theorem ite_write (has : Bool) (out : OStream) (size : Nat) (c : List F32)
    (h : has = false → c = []) :
    (if has = true then
        (out ++ floatBytes c, toInt32 (toInt32 (size : Int) + ((c.length * 4 : Nat) : Int)))
      else (out, toInt32 (size : Int))) =
      (out ++ floatBytes c, toInt32 ((size + c.length * 4 : Nat) : Int)) := by
  cases has with
  | true => simp only [if_true, toInt32_add, Nat.cast_add]
  | false => simp [h rfl, floatBytes]

theorem ite_write_two (has : Bool) (out : OStream) (size : Nat) (c d : List F32)
    (hc : has = false → c = []) (hd : has = false → d = []) :
    (if has = true then (out ++ floatBytes c ++ floatBytes d,
        toInt32 (toInt32 (toInt32 (size : Int) + ((c.length * 4 : Nat) : Int)) +
          ((d.length * 4 : Nat) : Int)))
      else (out, toInt32 (size : Int))) =
      (out ++ floatBytes c ++ floatBytes d,
        toInt32 ((size + c.length * 4 + d.length * 4 : Nat) : Int)) := by
  cases has with
  | true => simp only [if_true, toInt32_add, Nat.cast_add]
  | false => simp [hc rfl, hd rfl, floatBytes]

/-- The bytes that `writeStructOfArraysData` emits for columns that are empty
wherever the flag is unset: the columns back to back. -/
theorem writeStructOfArraysData_columns (out : OStream) (vertexFlags : Nat)
    (cols : List (List F32)) (hlen : cols.length = 12)
    (hempty : ∀ (k n : Nat) (c : List F32),
      (componentSlots vertexFlags)[k]? = some (false, n) → cols[k]? = some c → c = []) :
    writeStructOfArraysData out (ObjectData.ofSlots vertexFlags cols) =
      (out ++ floatBytes (flattenVertices cols),
        toInt32 (((flattenVertices cols).length * 4 : Nat) : Int)) := by
  match cols, hlen with
  | [p, n, u0, u1, u2, u3, c0, c1, c2, c3, t, b], _ =>
    have h1 : hasNormals vertexFlags = false → n = [] := fun h =>
      hempty 1 kNormalsSize n (by simp [componentSlots, h]) rfl
    have h2 : hasTexCoords0 vertexFlags = false → u0 = [] := fun h =>
      hempty 2 kTextureSize u0 (by simp [componentSlots, h]) rfl
    have h3 : hasTexCoords1 vertexFlags = false → u1 = [] := fun h =>
      hempty 3 kTextureSize u1 (by simp [componentSlots, h]) rfl
    have h4 : hasTexCoords2 vertexFlags = false → u2 = [] := fun h =>
      hempty 4 kTextureSize u2 (by simp [componentSlots, h]) rfl
    have h5 : hasTexCoords3 vertexFlags = false → u3 = [] := fun h =>
      hempty 5 kTextureSize u3 (by simp [componentSlots, h]) rfl
    have h6 : hasColor0 vertexFlags = false → c0 = [] := fun h =>
      hempty 6 kColorSize c0 (by simp [componentSlots, h]) rfl
    have h7 : hasColor1 vertexFlags = false → c1 = [] := fun h =>
      hempty 7 kColorSize c1 (by simp [componentSlots, h]) rfl
    have h8 : hasColor2 vertexFlags = false → c2 = [] := fun h =>
      hempty 8 kColorSize c2 (by simp [componentSlots, h]) rfl
    have h9 : hasColor3 vertexFlags = false → c3 = [] := fun h =>
      hempty 9 kColorSize c3 (by simp [componentSlots, h]) rfl
    have h10 : hasTanBitan vertexFlags = false → t = [] := fun h =>
      hempty 10 kTanSize t (by simp [componentSlots, h]) rfl
    have h11 : hasTanBitan vertexFlags = false → b = [] := fun h =>
      hempty 11 kBitanSize b (by simp [componentSlots, h]) rfl
    simp only [writeStructOfArraysData, ObjectData.ofSlots, Int.zero_add,
      ite_write _ _ _ n h1, ite_write _ _ _ u0 h2, ite_write _ _ _ u1 h3,
      ite_write _ _ _ u2 h4, ite_write _ _ _ u3 h5, ite_write _ _ _ c0 h6,
      ite_write _ _ _ c1 h7, ite_write _ _ _ c2 h8, ite_write _ _ _ c3 h9,
      ite_write_two _ _ _ t b h10 h11]
    simp only [flattenVertices, floatBytes_append, List.append_assoc, List.length_append,
      List.append_nil, floatBytes, Prod.mk.injEq, true_and, List.length_nil]
    congr 2
    omega

/-! ## The struct-of-arrays reader in closed form -/

theorem readStructOfArrays_eq_readSlots (uninit : Nat → Nat → Byte) (inp : IStream)
    (object : ObjectHeader) (ho : inp.isOpen = true) :
    readStructOfArrays uninit inp object =
      (some { header := object,
              vertices := (readSlots uninit object.vertexCount
                (readerSlots object.vertexFlags) 0 (List.replicate 12 none, inp)).1,
              indices := bytesToIndices
                ((readSlots uninit object.vertexCount (readerSlots object.vertexFlags) 0
                  (List.replicate 12 none, inp)).2.readInto
                    (freshBytes uninit 12 (object.indexCount * 2))).1 },
        ((readSlots uninit object.vertexCount (readerSlots object.vertexFlags) 0
          (List.replicate 12 none, inp)).2.readInto
            (freshBytes uninit 12 (object.indexCount * 2))).2) := by
  simp only [readStructOfArrays, ho, Bool.not_true, Bool.false_eq_true, if_false]
  rfl

theorem set_append_none (done rest : List (Option (List F32))) (x : Option (List F32)) :
    (done ++ none :: rest).set done.length x = done ++ x :: rest := by
  induction done with
  | nil => rfl
  | cons d ds ih => simp [ih]

/-- Reading the columns of a table of slots that the stream holds back to back
at its get position. -/
theorem readSlots_eq (uninit : Nat → Nat → Byte) (vertexCount : Nat) (content : List Byte) :
    ∀ (slots : List (Bool × Nat)) (cols : List (List F32)) (k : Nat)
      (done : List (Option (List F32))) (pre post : List Byte),
      List.Forall₂ (fun slot col => col.length = slotLength vertexCount slot) slots cols →
      content = pre ++ floatBytes (flattenVertices cols) ++ post → done.length = k →
      readSlots uninit vertexCount slots k
          (done ++ List.replicate slots.length none,
            { content := content, pos := pre.length, good := true, isOpen := true }) =
        (done ++ List.zipWith slotValue slots cols,
          { content := content, pos := pre.length + 4 * (flattenVertices cols).length,
            good := true, isOpen := true }) := by
  intro slots
  induction slots with
  | nil =>
    intro cols k done pre post hf _ _
    cases hf
    simp [readSlots, flattenVertices]
  | cons slot rest ih =>
    intro cols k done pre post hf hc hk
    cases hf with
    | cons hcol hrest =>
      rename_i col cols'
      obtain ⟨has, n⟩ := slot
      subst hk
      cases has with
      | false =>
        simp only [slotLength, Bool.false_eq_true, if_false, List.length_eq_zero] at hcol
        subst hcol
        have := ih cols' (done.length + 1) (done ++ [none]) pre post hrest
          (by simpa [flattenVertices] using hc) (by simp)
        simp only [List.append_assoc, List.singleton_append] at this
        simp only [readSlots, readDataIf, Bool.false_eq_true, if_false, List.length_cons,
          List.replicate_succ, this, List.zipWith_cons_cons, slotValue, flattenVertices,
          List.nil_append]
      | true =>
        simp only [slotLength, if_true] at hcol
        have hread := readInto_block
          { content := content, pos := pre.length, good := true, isOpen := true }
          pre (floatBytes col) (floatBytes (flattenVertices cols') ++ post)
          (freshBytes uninit done.length (n * vertexCount % 4294967296 * 4))
          (by rw [hc]; simp [flattenVertices, floatBytes_append]) rfl rfl rfl
          (by simp [freshBytes, floatBytes_length, ← hcol]; omega)
        have := ih cols' (done.length + 1) (done ++ [some col]) (pre ++ floatBytes col) post
          hrest (by rw [hc]; simp [flattenVertices, floatBytes_append]) (by simp)
        simp only [List.append_assoc, List.singleton_append, List.length_append] at this
        rw [floatBytes_length] at this
        simp only [readSlots, readDataIf, if_true, readData, hread, bytesToFloats_floatBytes,
          List.length_cons, List.replicate_succ, set_append_none, List.zipWith_cons_cons,
          slotValue, flattenVertices, List.length_append, floatBytes_length]
        rw [this]
        simp only [Prod.mk.injEq, true_and, IStream.mk.injEq, and_true]
        omega

/-! ## Round trip of the optimized struct-of-arrays layout -/

theorem forall₂_of_getElem? {α β : Type} (R : α → β → Prop) (l₁ : List α) (l₂ : List β)
    (hlen : l₁.length = l₂.length)
    (h : ∀ (k : Nat) (a : α) (b : β), l₁[k]? = some a → l₂[k]? = some b → R a b) :
    List.Forall₂ R l₁ l₂ := by
  apply List.forall₂_of_length_eq_of_get hlen
  intro i h₁ h₂
  exact h i _ _ (by simp [List.getElem?_eq_getElem h₁]) (by simp [List.getElem?_eq_getElem h₂])

theorem scanOffset_add_le :
    ∀ (slots : List (Bool × Nat)) (k n : Nat), slots[k]? = some (true, n) →
      scanOffset slots k + n ≤ (slots.map enabledSize).sum := by
  intro slots
  induction slots with
  | nil => intro k n h; simp at h
  | cons slot rest ih =>
    intro k n h
    cases k with
    | zero =>
      simp only [List.getElem?_cons_zero, Option.some.injEq] at h
      subst h
      simp [scanOffset, enabledSize]
    | succ k =>
      simp only [List.getElem?_cons_succ] at h
      have := ih k n h
      simp only [scanOffset_cons_succ, List.map_cons, List.sum_cons]
      omega

theorem columnOf_length (arrays : List (List F32)) (offset size : Nat)
    (h : ∀ a ∈ arrays, offset + size ≤ a.length) :
    (columnOf arrays offset size).length = arrays.length * size := by
  have := flattenVertices_length (arrays.map (fun a => (a.drop offset).take size)) size (by
    intro b hb
    simp only [List.mem_map] at hb
    obtain ⟨a, ha, rfl⟩ := hb
    have := h a ha
    simp only [List.length_take, List.length_drop]
    omega)
  simpa [columnOf] using this

/-- The columns of a table have the lengths the reader computes for them. -/
theorem columnsOf_slotLength (slots : List (Bool × Nat)) (arrays : List (List F32))
    (hlen : ∀ a ∈ arrays, (slots.map enabledSize).sum ≤ a.length)
    (hfit : ∀ slot ∈ slots, slot.1 = true → slot.2 * arrays.length < 4294967296) :
    List.Forall₂ (fun slot col => col.length = slotLength arrays.length slot) slots
      (columnsOf slots arrays) := by
  apply forall₂_of_getElem? _ _ _ (columnsOf_length slots arrays).symm
  intro k slot col hs hcol
  obtain ⟨has, n⟩ := slot
  rw [columnsOf_getElem? slots k has n hs arrays] at hcol
  simp only [Option.some.injEq] at hcol
  subst hcol
  cases has with
  | false => simp [slotLength]
  | true =>
    have hb := scanOffset_add_le slots k n hs
    have hmem : (true, n) ∈ slots := List.getElem?_mem hs
    have hf := hfit _ hmem rfl
    simp only [if_true, slotLength]
    rw [columnOf_length arrays _ n (fun a ha => le_trans hb (hlen a ha)),
      Nat.mod_eq_of_lt hf, Nat.mul_comm]

theorem readerSlots_eq (vertexFlags : Nat) (h : hasPositions vertexFlags = hasNormals vertexFlags) :
    readerSlots vertexFlags = componentSlots vertexFlags := by
  simp only [readerSlots, componentSlots, h]

/-- Reading back a struct-of-arrays object whose columns follow the header. -/
theorem readback_columns (uninitR : Nat → Nat → Byte) (vertexFlags vertexCount indexCount
    boneCount vertexSize : Nat) (arrays : List (List F32)) (indices : List Nat)
    (hflags : vertexFlags < 65536) (hvc : vertexCount < 4294967296)
    (hic : indexCount < 4294967296)
    (hpn : hasPositions vertexFlags = hasNormals vertexFlags)
    (ha : arrays.length = vertexCount)
    (hlen : ∀ a ∈ arrays, calcVertexSize vertexFlags ≤ a.length)
    (hfit : ∀ slot ∈ componentSlots vertexFlags, slot.1 = true →
      slot.2 * vertexCount < 4294967296)
    (hi : indices.length = indexCount) (hr : ∀ x ∈ indices, x < 65536) :
    ∃ inp inp',
      readObjectHeader (IStream.ofBytes
        ((createObjectHeader vertexFlags vertexCount indexCount boneCount vertexSize true).bytes ++
          floatBytes (flattenVertices (columnsOf (componentSlots vertexFlags) arrays)) ++
          indexBytes indices)) =
        (some (createObjectHeader vertexFlags vertexCount indexCount boneCount vertexSize true),
          inp) ∧
      readStructOfArrays uninitR inp
          (createObjectHeader vertexFlags vertexCount indexCount boneCount vertexSize true) =
        (some { header := createObjectHeader vertexFlags vertexCount indexCount boneCount
                  vertexSize true,
                vertices := List.zipWith slotValue (componentSlots vertexFlags)
                  (columnsOf (componentSlots vertexFlags) arrays),
                indices := indices }, inp') := by
  have hhead := readObjectHeader_created vertexFlags vertexCount indexCount boneCount vertexSize
    true [] (floatBytes (flattenVertices (columnsOf (componentSlots vertexFlags) arrays)) ++
      indexBytes indices)
    (IStream.ofBytes
      ((createObjectHeader vertexFlags vertexCount indexCount boneCount vertexSize true).bytes ++
        floatBytes (flattenVertices (columnsOf (componentSlots vertexFlags) arrays)) ++
        indexBytes indices))
    (by simp [IStream.ofBytes]) rfl rfl rfl
  have hfl : (createObjectHeader vertexFlags vertexCount indexCount boneCount vertexSize
      true).vertexFlags = vertexFlags := Nat.mod_eq_of_lt hflags
  have hvc' : (createObjectHeader vertexFlags vertexCount indexCount boneCount vertexSize
      true).vertexCount = vertexCount := Nat.mod_eq_of_lt hvc
  have hic' : (createObjectHeader vertexFlags vertexCount indexCount boneCount vertexSize
      true).indexCount = indexCount := Nat.mod_eq_of_lt hic
  have hforall := columnsOf_slotLength (componentSlots vertexFlags) arrays
    (by rw [componentSlots_total]; exact hlen)
    (by rw [ha]; exact hfit)
  rw [ha] at hforall
  have hslots := readSlots_eq uninitR vertexCount
    ((createObjectHeader vertexFlags vertexCount indexCount boneCount vertexSize true).bytes ++
      floatBytes (flattenVertices (columnsOf (componentSlots vertexFlags) arrays)) ++
      indexBytes indices)
    (componentSlots vertexFlags) (columnsOf (componentSlots vertexFlags) arrays) 0 []
    (createObjectHeader vertexFlags vertexCount indexCount boneCount vertexSize true).bytes
    (indexBytes indices) hforall rfl rfl
  simp only [List.nil_append, componentSlots_length, objectHeader_bytes_length] at hslots
  have hidx := readInto_block
    { content := (createObjectHeader vertexFlags vertexCount indexCount boneCount vertexSize
          true).bytes ++
        floatBytes (flattenVertices (columnsOf (componentSlots vertexFlags) arrays)) ++
        indexBytes indices,
      pos := 16 + 4 * (flattenVertices (columnsOf (componentSlots vertexFlags) arrays)).length,
      good := true, isOpen := true }
    ((createObjectHeader vertexFlags vertexCount indexCount boneCount vertexSize true).bytes ++
      floatBytes (flattenVertices (columnsOf (componentSlots vertexFlags) arrays)))
    (indexBytes indices) [] (freshBytes uninitR 12 (indexCount * 2))
    (by simp) (by simp [objectHeader_bytes_length, floatBytes_length]) rfl rfl
    (by simp [freshBytes, indexBytes_length, hi]; omega)
  refine ⟨_, _, hhead, Prod.ext ?_ rfl⟩
  rw [readStructOfArrays_eq_readSlots _ _ _ rfl]
  simp only [hfl, hvc', hic', readerSlots_eq vertexFlags hpn, IStream.ofBytes, List.length_nil,
    Nat.zero_add, hslots, hidx, bytesToIndices_indexBytes indices hr]

theorem window_columnOf (arrays : List (List F32)) (offset size j : Nat) (a : List F32)
    (h : ∀ b ∈ arrays, offset + size ≤ b.length) (ha : arrays[j]? = some a) :
    window (columnOf arrays offset size) size j = (a.drop offset).take size := by
  have := window_flattenVertices size (arrays.map (fun a => (a.drop offset).take size)) j (by
    intro b hb
    simp only [List.mem_map] at hb
    obtain ⟨c, hc, rfl⟩ := hb
    have := h c hc
    simp only [List.length_take, List.length_drop]
    omega)
  rw [columnOf, this, List.getElem?_map, ha]
  rfl

theorem decoded_column (slots : List (Bool × Nat)) (arrays : List (List F32)) (k size : Nat)
    (hs : slots[k]? = some (true, size)) :
    (List.zipWith slotValue slots (columnsOf slots arrays))[k]? =
      some (some (columnOf arrays (scanOffset slots k) size)) := by
  simp only [List.getElem?_zipWith, hs, columnsOf_getElem? slots k true size hs arrays, slotValue,
    if_true]

theorem window_drop_take (vertices : List F32) (stride j offset size : Nat)
    (h : offset + size ≤ stride) :
    ((window vertices stride j).drop offset).take size =
      (vertices.drop (offset + j * stride)).take size := by
  simp only [window, List.drop_take, List.take_take, List.drop_drop]
  have : min size (stride - offset) = size := by omega
  rw [this, Nat.add_comm]

/-- The loop of `writeElementArray` from vertex `j` on: it appends the
component of every remaining vertex. -/
theorem writeElementLoop_eq (vertices : List F32) (vertexSize elementSize offset n : Nat)
    (hoff : offset < vertexSize) (hsz : offset + elementSize ≤ vertexSize)
    (hlen : n * vertexSize ≤ vertices.length) :
    ∀ (d j fuel : Nat) (out : OStream), j + d = n → d ≤ fuel →
      writeElementLoop vertices (n * vertexSize) vertexSize elementSize fuel
          (offset + j * vertexSize) out =
        some (out ++ floatBytes
          (columnOf ((List.range' j d).map (window vertices vertexSize)) offset elementSize)) := by
  intro d
  induction d with
  | zero =>
    intro j fuel out hj _
    have hj' : j = n := by omega
    subst hj'
    cases fuel with
    | zero => simp [writeElementLoop, columnOf, flattenVertices, floatBytes]
    | succ fuel =>
      have : ¬ offset + j * vertexSize < j * vertexSize := by omega
      simp [writeElementLoop, this, columnOf, flattenVertices, floatBytes]
  | succ d ih =>
    intro j fuel out hj hfuel
    cases fuel with
    | zero => omega
    | succ fuel =>
      have hmul : (j + 1) * vertexSize ≤ n * vertexSize :=
        Nat.mul_le_mul_right _ (by omega)
      have hexp : (j + 1) * vertexSize = j * vertexSize + vertexSize := by ring
      have hlt : offset + j * vertexSize < n * vertexSize := by omega
      have hin : offset + j * vertexSize + elementSize ≤ vertices.length := by omega
      have hnext : offset + j * vertexSize + vertexSize = offset + (j + 1) * vertexSize := by
        omega
      have := ih (j + 1) fuel
        (out ++ floatBytes ((vertices.drop (offset + j * vertexSize)).take elementSize))
        (by omega) (by omega)
      simp only [writeElementLoop, hlt, hin, if_true, hnext, this, List.range'_succ,
        List.map_cons, columnOf, flattenVertices, floatBytes_append, List.append_assoc,
        window_drop_take vertices vertexSize j offset elementSize hsz]

/-- The function `writeElementArray` appends the component at `offset` of
every vertex. -/
theorem writeElementArray_eq (out : OStream) (M : Mesh) (offset elementSize : Nat)
    (hoff : offset < M.vertexSize) (hsz : offset + elementSize ≤ M.vertexSize)
    (hlen : M.numVertices * M.vertexSize ≤ M.vertices.length) :
    writeElementArray out M offset elementSize =
      some (out ++ floatBytes
        (columnOf (windows M.vertices M.vertexSize M.numVertices) offset elementSize)) := by
  have h := writeElementLoop_eq M.vertices M.vertexSize elementSize offset M.numVertices
    hoff hsz hlen M.numVertices 0 (M.numVertices * M.vertexSize) out (by omega)
    (Nat.le_mul_of_pos_right _ (by omega))
  simp only [Nat.zero_mul, Nat.add_zero] at h
  simp only [writeElementArray, h, windows, List.range_eq_range']

theorem writeElementArrayIf_eq (has : Bool) (out : OStream) (M : Mesh)
    (offset elementSize : Nat) (hpos : 0 < elementSize)
    (hsz : has = true → offset + elementSize ≤ M.vertexSize)
    (hlen : M.numVertices * M.vertexSize ≤ M.vertices.length) :
    writeElementArrayIf has (some out) M offset elementSize =
      some (out ++ floatBytes (if has then
        columnOf (windows M.vertices M.vertexSize M.numVertices) offset elementSize else [])) := by
  cases has with
  | false => simp [writeElementArrayIf, floatBytes]
  | true =>
    have := hsz rfl
    simp only [writeElementArrayIf, if_true,
      writeElementArray_eq out M offset elementSize (by omega) this hlen]

theorem scanOffset_succ (slots : List (Bool × Nat)) (k : Nat) (slot : Bool × Nat)
    (h : slots[k]? = some slot) :
    scanOffset slots (k + 1) = scanOffset slots k + enabledSize slot := by
  have hk : k < slots.length := by
    by_contra hc
    rw [List.getElem?_eq_none (by omega)] at h
    cases h
  have hget : slots[k] = slot := by
    rw [List.getElem?_eq_getElem hk] at h
    exact Option.some.inj h
  simp only [scanOffset, List.take_succ, List.getElem?_eq_getElem hk, Option.toList,
    List.map_append, List.sum_append, List.map_cons, List.map_nil, List.sum_cons, List.sum_nil,
    Nat.add_zero, hget]

/-- With the Position flag set, the offsets of the layout calculator are the
running sums of the sizes of the enabled components. -/
theorem layout_offsets (vertexFlags : Nat) (hp : hasPositions vertexFlags = true) :
    positionOffset = scanOffset (componentSlots vertexFlags) 0 ∧
    normalsOffset = scanOffset (componentSlots vertexFlags) 1 ∧
    texCoords0Offset vertexFlags = scanOffset (componentSlots vertexFlags) 2 ∧
    texCoords1Offset vertexFlags = scanOffset (componentSlots vertexFlags) 3 ∧
    texCoords2Offset vertexFlags = scanOffset (componentSlots vertexFlags) 4 ∧
    texCoords3Offset vertexFlags = scanOffset (componentSlots vertexFlags) 5 ∧
    color0Offset vertexFlags = scanOffset (componentSlots vertexFlags) 6 ∧
    color1Offset vertexFlags = scanOffset (componentSlots vertexFlags) 7 ∧
    color2Offset vertexFlags = scanOffset (componentSlots vertexFlags) 8 ∧
    color3Offset vertexFlags = scanOffset (componentSlots vertexFlags) 9 ∧
    tanOffset vertexFlags = scanOffset (componentSlots vertexFlags) 10 ∧
    bitanOffset vertexFlags = scanOffset (componentSlots vertexFlags) 11 := by
  have h0 : positionOffset = scanOffset (componentSlots vertexFlags) 0 := rfl
  have h1 : normalsOffset = scanOffset (componentSlots vertexFlags) 1 := by
    rw [scanOffset_succ _ 0 (hasPositions vertexFlags, kPositionSize) rfl, ← h0]
    simp [enabledSize, hp, normalsOffset, positionOffset]
  have h2 : texCoords0Offset vertexFlags = scanOffset (componentSlots vertexFlags) 2 := by
    rw [scanOffset_succ _ 1 (hasNormals vertexFlags, kNormalsSize) rfl, ← h1]
    cases h : hasNormals vertexFlags <;> simp [enabledSize, texCoords0Offset, h]
  have h3 : texCoords1Offset vertexFlags = scanOffset (componentSlots vertexFlags) 3 := by
    rw [scanOffset_succ _ 2 (hasTexCoords0 vertexFlags, kTextureSize) rfl, ← h2]
    cases h : hasTexCoords0 vertexFlags <;> simp [enabledSize, texCoords1Offset, h]
  have h4 : texCoords2Offset vertexFlags = scanOffset (componentSlots vertexFlags) 4 := by
    rw [scanOffset_succ _ 3 (hasTexCoords1 vertexFlags, kTextureSize) rfl, ← h3]
    cases h : hasTexCoords1 vertexFlags <;> simp [enabledSize, texCoords2Offset, h]
  have h5 : texCoords3Offset vertexFlags = scanOffset (componentSlots vertexFlags) 5 := by
    rw [scanOffset_succ _ 4 (hasTexCoords2 vertexFlags, kTextureSize) rfl, ← h4]
    cases h : hasTexCoords2 vertexFlags <;> simp [enabledSize, texCoords3Offset, h]
  have h6 : color0Offset vertexFlags = scanOffset (componentSlots vertexFlags) 6 := by
    rw [scanOffset_succ _ 5 (hasTexCoords3 vertexFlags, kTextureSize) rfl, ← h5]
    cases h : hasTexCoords3 vertexFlags <;> simp [enabledSize, color0Offset, h]
  have h7 : color1Offset vertexFlags = scanOffset (componentSlots vertexFlags) 7 := by
    rw [scanOffset_succ _ 6 (hasColor0 vertexFlags, kColorSize) rfl, ← h6]
    cases h : hasColor0 vertexFlags <;> simp [enabledSize, color1Offset, h]
  have h8 : color2Offset vertexFlags = scanOffset (componentSlots vertexFlags) 8 := by
    rw [scanOffset_succ _ 7 (hasColor1 vertexFlags, kColorSize) rfl, ← h7]
    cases h : hasColor1 vertexFlags <;> simp [enabledSize, color2Offset, h]
  have h9 : color3Offset vertexFlags = scanOffset (componentSlots vertexFlags) 9 := by
    rw [scanOffset_succ _ 8 (hasColor2 vertexFlags, kColorSize) rfl, ← h8]
    cases h : hasColor2 vertexFlags <;> simp [enabledSize, color3Offset, h]
  have h10 : tanOffset vertexFlags = scanOffset (componentSlots vertexFlags) 10 := by
    rw [scanOffset_succ _ 9 (hasColor3 vertexFlags, kColorSize) rfl, ← h9]
    cases h : hasColor3 vertexFlags <;> simp [enabledSize, tanOffset, h]
  have h11 : bitanOffset vertexFlags = scanOffset (componentSlots vertexFlags) 11 := by
    rw [scanOffset_succ _ 10 (hasTanBitan vertexFlags, kTanSize) rfl, ← h10]
    cases h : hasTanBitan vertexFlags <;> simp [enabledSize, bitanOffset, h]
  exact ⟨h0, h1, h2, h3, h4, h5, h6, h7, h8, h9, h10, h11⟩

/-- The twelve columns of a list of vertex arrays, one by one. -/
theorem columnsOf_componentSlots (vertexFlags : Nat) (arrays : List (List F32)) :
    columnsOf (componentSlots vertexFlags) arrays =
      [if hasPositions vertexFlags then
          columnOf arrays (scanOffset (componentSlots vertexFlags) 0) kPositionSize else [],
       if hasNormals vertexFlags then
          columnOf arrays (scanOffset (componentSlots vertexFlags) 1) kNormalsSize else [],
       if hasTexCoords0 vertexFlags then
          columnOf arrays (scanOffset (componentSlots vertexFlags) 2) kTextureSize else [],
       if hasTexCoords1 vertexFlags then
          columnOf arrays (scanOffset (componentSlots vertexFlags) 3) kTextureSize else [],
       if hasTexCoords2 vertexFlags then
          columnOf arrays (scanOffset (componentSlots vertexFlags) 4) kTextureSize else [],
       if hasTexCoords3 vertexFlags then
          columnOf arrays (scanOffset (componentSlots vertexFlags) 5) kTextureSize else [],
       if hasColor0 vertexFlags then
          columnOf arrays (scanOffset (componentSlots vertexFlags) 6) kColorSize else [],
       if hasColor1 vertexFlags then
          columnOf arrays (scanOffset (componentSlots vertexFlags) 7) kColorSize else [],
       if hasColor2 vertexFlags then
          columnOf arrays (scanOffset (componentSlots vertexFlags) 8) kColorSize else [],
       if hasColor3 vertexFlags then
          columnOf arrays (scanOffset (componentSlots vertexFlags) 9) kColorSize else [],
       if hasTanBitan vertexFlags then
          columnOf arrays (scanOffset (componentSlots vertexFlags) 10) kTanSize else [],
       if hasTanBitan vertexFlags then
          columnOf arrays (scanOffset (componentSlots vertexFlags) 11) kBitanSize else []] := by
  apply List.ext_getElem?
  intro k
  have hlen := columnsOf_length (componentSlots vertexFlags) arrays
  rw [componentSlots_length] at hlen
  rcases k with _ | _ | _ | _ | _ | _ | _ | _ | _ | _ | _ | _ | k
  · exact columnsOf_getElem? _ 0 _ _ rfl arrays
  · exact columnsOf_getElem? _ 1 _ _ rfl arrays
  · exact columnsOf_getElem? _ 2 _ _ rfl arrays
  · exact columnsOf_getElem? _ 3 _ _ rfl arrays
  · exact columnsOf_getElem? _ 4 _ _ rfl arrays
  · exact columnsOf_getElem? _ 5 _ _ rfl arrays
  · exact columnsOf_getElem? _ 6 _ _ rfl arrays
  · exact columnsOf_getElem? _ 7 _ _ rfl arrays
  · exact columnsOf_getElem? _ 8 _ _ rfl arrays
  · exact columnsOf_getElem? _ 9 _ _ rfl arrays
  · exact columnsOf_getElem? _ 10 _ _ rfl arrays
  · exact columnsOf_getElem? _ 11 _ _ rfl arrays
  · rw [List.getElem?_eq_none (by omega)]
    simp

theorem slot_fits (vertexFlags k : Nat) (has : Bool) (n : Nat)
    (hs : (componentSlots vertexFlags)[k]? = some (has, n)) (h : has = true) :
    scanOffset (componentSlots vertexFlags) k + n ≤ calcVertexSize vertexFlags := by
  subst h
  rw [← componentSlots_total]
  exact scanOffset_add_le _ k n hs

/-- The struct-of-arrays branch of the unoptimized `writeObject` for a mesh
with positions: it appends the twelve columns of the vertex buffer. -/
theorem writeColumns_eq (out : OStream) (M : Mesh) (hp : hasPositions M.flags = true)
    (hcalc : M.vertexSize = calcVertexSize M.flags)
    (hlen : M.numVertices * M.vertexSize ≤ M.vertices.length) :
    writeColumns out M =
      some (out ++ floatBytes (flattenVertices (columnsOf (componentSlots M.flags)
        (windows M.vertices M.vertexSize M.numVertices)))) := by
  obtain ⟨o0, o1, o2, o3, o4, o5, o6, o7, o8, o9, o10, o11⟩ := layout_offsets M.flags hp
  have fit : ∀ (k : Nat) (has : Bool) (n : Nat),
      (componentSlots M.flags)[k]? = some (has, n) → has = true →
        scanOffset (componentSlots M.flags) k + n ≤ M.vertexSize := by
    intro k has n hs h
    rw [hcalc]
    exact slot_fits M.flags k has n hs h
  simp only [writeColumns, o0, o1, o2, o3, o4, o5, o6, o7, o8, o9, o10, o11,
    writeElementArrayIf_eq (hasPositions M.flags) _ M _ kPositionSize (by decide)
      (fit 0 _ _ rfl) hlen,
    writeElementArrayIf_eq (hasNormals M.flags) _ M _ kNormalsSize (by decide)
      (fit 1 _ _ rfl) hlen,
    writeElementArrayIf_eq (hasTexCoords0 M.flags) _ M _ kTextureSize (by decide)
      (fit 2 _ _ rfl) hlen,
    writeElementArrayIf_eq (hasTexCoords1 M.flags) _ M _ kTextureSize (by decide)
      (fit 3 _ _ rfl) hlen,
    writeElementArrayIf_eq (hasTexCoords2 M.flags) _ M _ kTextureSize (by decide)
      (fit 4 _ _ rfl) hlen,
    writeElementArrayIf_eq (hasTexCoords3 M.flags) _ M _ kTextureSize (by decide)
      (fit 5 _ _ rfl) hlen,
    writeElementArrayIf_eq (hasColor0 M.flags) _ M _ kColorSize (by decide)
      (fit 6 _ _ rfl) hlen,
    writeElementArrayIf_eq (hasColor1 M.flags) _ M _ kColorSize (by decide)
      (fit 7 _ _ rfl) hlen,
    writeElementArrayIf_eq (hasColor2 M.flags) _ M _ kColorSize (by decide)
      (fit 8 _ _ rfl) hlen,
    writeElementArrayIf_eq (hasColor3 M.flags) _ M _ kColorSize (by decide)
      (fit 9 _ _ rfl) hlen,
    writeElementArrayIf_eq (hasTanBitan M.flags) _ M _ kTanSize (by decide)
      (fit 10 _ _ rfl) hlen,
    writeElementArrayIf_eq (hasTanBitan M.flags) _ M _ kBitanSize (by decide)
      (fit 11 _ _ rfl) hlen]
  rw [columnsOf_componentSlots]
  simp only [flattenVertices, floatBytes_append, List.append_assoc, List.append_nil]

/-- The bytes of an unoptimized struct-of-arrays object of a mesh with
positions. -/
theorem writeObject_unoptimized_soa (uninit : Nat → Nat → F32) (out : OStream) (M : Mesh)
    (hp : hasPositions M.flags = true) (hcalc : M.vertexSize = calcVertexSize M.flags)
    (hv : M.vertices.length = M.numVertices * M.vertexSize)
    (hi : M.indices.length = M.numIndices) :
    writeObject uninit out (some M) false true =
      some (out ++ (createObjectHeader M.flags M.numVertices M.numIndices M.numBones
          M.vertexSize true).bytes ++
        floatBytes (flattenVertices (columnsOf (componentSlots M.flags)
          (windows M.vertices M.vertexSize M.numVertices))) ++ indexBytes M.indices, true) := by
  simp only [writeObject, writeObjectHeader, Bool.false_eq_true, if_false, if_true,
    writeColumns_eq _ M hp hcalc (le_of_eq hv.symm), ← hi, le_refl, List.take_length]

/-- Writing an unoptimized struct-of-arrays object and reading it back: the
decoded object in closed form. -/
theorem unoptimized_soa_decoded (uninit : Nat → Nat → F32) (uninitR : Nat → Nat → Byte)
    (M : Mesh) (hwf : M.WellFormed) (hcalc : M.vertexSize = calcVertexSize M.flags)
    (hp : hasPositions M.flags = true) (hn : hasNormals M.flags = true)
    (hfit : M.numVertices * M.vertexSize < 2147483648) :
    ∃ bytes, writeObject uninit [] (some M) false true = some (bytes, true) ∧
    ∃ header inp, readObjectHeader (IStream.ofBytes bytes) = (some header, inp) ∧
    ∃ bla inp', readStructOfArrays uninitR inp header = (some bla, inp') ∧
      header.vertexCount = M.numVertices ∧ header.indexCount = M.numIndices ∧
      bla.vertices = List.zipWith slotValue (componentSlots M.flags)
        (columnsOf (componentSlots M.flags)
          (windows M.vertices M.vertexSize M.numVertices)) ∧
      bla.indices = M.indices := by
  obtain ⟨hflags, hnv, hni, hv, hi, hr⟩ := hwf
  obtain ⟨inp, inp', hhead, hread⟩ := readback_columns uninitR M.flags M.numVertices
    M.numIndices M.numBones M.vertexSize (windows M.vertices M.vertexSize M.numVertices)
    M.indices hflags hnv hni (by rw [hp, hn]) (windows_length _ _ _)
    (fun a ha => by
      simp only [windows, List.mem_map, List.mem_range] at ha
      obtain ⟨i, hi', rfl⟩ := ha
      rw [← hcalc, window_length M.vertices M.vertexSize i (by
        calc (i + 1) * M.vertexSize ≤ M.numVertices * M.vertexSize :=
              Nat.mul_le_mul_right _ hi'
          _ = M.vertices.length := hv.symm)])
    (fun slot hs h => by
      obtain ⟨k, hk⟩ := List.getElem?_of_mem hs
      obtain ⟨has, n⟩ := slot
      have h1 := slot_fits M.flags k has n hk h
      rw [← hcalc] at h1
      have h2 : n ≤ M.vertexSize := by omega
      calc n * M.numVertices ≤ M.vertexSize * M.numVertices := Nat.mul_le_mul_right _ h2
        _ = M.numVertices * M.vertexSize := Nat.mul_comm _ _
        _ < 4294967296 := by omega)
    hi hr
  have hwrite := writeObject_unoptimized_soa uninit [] M hp hcalc hv hi
  rw [List.nil_append] at hwrite
  exact ⟨_, hwrite, _, inp, hhead, _, inp', hread, Nat.mod_eq_of_lt hnv, Nat.mod_eq_of_lt hni,
    rfl, rfl⟩

/-- C4, amended: for every well-formed raw mesh `M` with
`M.vertexSize = calcVertexSize M.flags` whose flags have Position and Normal
set and whose vertex buffer holds fewer than `2^31` floats, writing with
`writeObject` (`doOptimize = false`, `useStructOfArrays = true`) and reading
back with `readObjectHeader` and `readStructOfArrays` gives an index block
equal to `M`'s index buffer and, for every component enabled in `M.flags`
(slot `k` of the canonical order, of `size` floats) and every vertex
`v < M.numVertices`, decoded column `k` at row `v` equal to the `size` floats
of `M`'s vertex `v` that start at the sum of the sizes of the enabled
components preceding it in canonical order. -/
theorem roundtrip_unoptimized_struct_of_arrays (uninit : Nat → Nat → F32)
    (uninitR : Nat → Nat → Byte) (M : Mesh) (hwf : M.WellFormed)
    (hcalc : M.vertexSize = calcVertexSize M.flags)
    (hp : hasPositions M.flags = true) (hn : hasNormals M.flags = true)
    (hfit : M.numVertices * M.vertexSize < 2147483648) :
    ∃ bytes, writeObject uninit [] (some M) false true = some (bytes, true) ∧
    ∃ header inp, readObjectHeader (IStream.ofBytes bytes) = (some header, inp) ∧
    ∃ bla inp', readStructOfArrays uninitR inp header = (some bla, inp') ∧
      bla.indices = M.indices ∧
      ∀ k size, (componentSlots M.flags)[k]? = some (true, size) →
        ∃ column, bla.vertices[k]? = some (some column) ∧
          ∀ v, v < M.numVertices →
            window column size v =
              ((window M.vertices M.vertexSize v).drop
                (scanOffset (componentSlots M.flags) k)).take size := by
  have hv := hwf.2.2.2.1
  obtain ⟨bytes, hwrite, header, inp, hhead, bla, inp', hread, _, _, hcols, hinds⟩ :=
    unoptimized_soa_decoded uninit uninitR M hwf hcalc hp hn hfit
  refine ⟨bytes, hwrite, header, inp, hhead, bla, inp', hread, hinds, ?_⟩
  intro k size hs
  refine ⟨_, by rw [hcols]; exact decoded_column _ _ k size hs, ?_⟩
  intro v hv'
  apply window_columnOf _ _ _ _ _ _ (windows_getElem? M.vertices M.vertexSize M.numVertices v hv')
  intro b hb
  simp only [windows, List.mem_map, List.mem_range] at hb
  obtain ⟨i, hi, rfl⟩ := hb
  rw [window_length M.vertices M.vertexSize i (by
    calc (i + 1) * M.vertexSize ≤ M.numVertices * M.vertexSize := Nat.mul_le_mul_right _ hi
      _ = M.vertices.length := hv.symm), hcalc]
  exact slot_fits M.flags k true size hs rfl

/-- The witness of `roundtrip_unoptimized_struct_of_arrays`: the square of two
triangles. -/
theorem roundtrip_unoptimized_struct_of_arrays_witness :
    squareMesh.WellFormed ∧ squareMesh.vertexSize = calcVertexSize squareMesh.flags ∧
    hasPositions squareMesh.flags = true ∧ hasNormals squareMesh.flags = true ∧
    squareMesh.numVertices * squareMesh.vertexSize < 2147483648 ∧
    ∃ bytes, writeObject zeroMemory [] (some squareMesh) false true = some (bytes, true) ∧
    ∃ header inp, readObjectHeader (IStream.ofBytes bytes) = (some header, inp) ∧
    ∃ bla inp', readStructOfArrays zeroBytes inp header = (some bla, inp') ∧
      bla.indices = squareMesh.indices ∧
      ∀ k size, (componentSlots squareMesh.flags)[k]? = some (true, size) →
        ∃ column, bla.vertices[k]? = some (some column) ∧
          ∀ v, v < squareMesh.numVertices →
            window column size v =
              ((window squareMesh.vertices squareMesh.vertexSize v).drop
                (scanOffset (componentSlots squareMesh.flags) k)).take size :=
  ⟨by decide, by decide, by decide, by decide, by decide,
    roundtrip_unoptimized_struct_of_arrays zeroMemory zeroBytes squareMesh
      (by decide) (by decide) (by decide) (by decide) (by decide)⟩

/-- C4, counterexample: a well-formed mesh of one vertex whose only component
is UV0 (`vertexSize = calcVertexSize flags = 2`).  The layout calculator places
UV0 at offset 3, after a position that is not there, so `writeElementArray`
writes no float at all; the reader then takes the first eight index bytes for
the UV0 column: the decoded column holds two zero floats, not the two floats
of the vertex. -/
theorem roundtrip_unoptimized_soa_without_positions :
    uvMesh.WellFormed ∧ uvMesh.vertexSize = calcVertexSize uvMesh.flags ∧
    (componentSlots uvMesh.flags)[2]? = some (true, kTextureSize) ∧
    ((writeObject zeroMemory [] (some uvMesh) false true).bind
        (fun r => readObjectBack zeroBytes r.1 true)).map (fun bla => bla.vertices[2]?) =
      some (some (some [floatOfBits 0, floatOfBits 0])) ∧
    ((window uvMesh.vertices uvMesh.vertexSize 0).drop
        (scanOffset (componentSlots uvMesh.flags) 2)).take kTextureSize =
      [floatOfBits 1, floatOfBits 2] := by
  decide

/-! ## Flags, stride and layout offsets -/

theorem and_two_pow_ne_zero (f i : Nat) : ((f &&& 2 ^ i) != 0) = f.testBit i := by
  cases h : f.testBit i with
  | true =>
    have : (f &&& 2 ^ i).testBit i = true := by simp [h, Nat.testBit_two_pow_self]
    have hne : f &&& 2 ^ i ≠ 0 := by
      intro h0
      rw [h0] at this
      simp at this
    simpa using hne
  | false =>
    have : f &&& 2 ^ i = 0 := by
      apply Nat.eq_of_testBit_eq
      intro j
      by_cases hj : i = j
      · subst hj; simp [h]
      · simp [Nat.testBit_two_pow_of_ne hj]
    simp [this]

theorem has_eq_testBit (f : Nat) :
    hasPositions f = f.testBit 0 ∧ hasNormals f = f.testBit 1 ∧
    hasTexCoords0 f = f.testBit 4 ∧ hasTexCoords1 f = f.testBit 5 ∧
    hasTexCoords2 f = f.testBit 6 ∧ hasTexCoords3 f = f.testBit 7 ∧
    hasColor0 f = f.testBit 8 ∧ hasColor1 f = f.testBit 9 ∧
    hasColor2 f = f.testBit 10 ∧ hasColor3 f = f.testBit 11 ∧
    hasTanBitan f = f.testBit 12 :=
  ⟨and_two_pow_ne_zero f 0, and_two_pow_ne_zero f 1, and_two_pow_ne_zero f 4,
    and_two_pow_ne_zero f 5, and_two_pow_ne_zero f 6, and_two_pow_ne_zero f 7,
    and_two_pow_ne_zero f 8, and_two_pow_ne_zero f 9, and_two_pow_ne_zero f 10,
    and_two_pow_ne_zero f 11, and_two_pow_ne_zero f 12⟩

theorem ite_toNat (b : Bool) (n : Nat) : (if b = true then n else 0) = n * b.toNat := by
  cases b <;> simp

theorem calcVertexSize_testBit (f : Nat) :
    calcVertexSize f =
      3 * (f.testBit 0).toNat + 3 * (f.testBit 1).toNat +
      2 * ((f.testBit 4).toNat + (f.testBit 5).toNat + (f.testBit 6).toNat +
        (f.testBit 7).toNat) +
      4 * ((f.testBit 8).toNat + (f.testBit 9).toNat + (f.testBit 10).toNat +
        (f.testBit 11).toNat) +
      6 * (f.testBit 12).toNat := by
  obtain ⟨h0, h1, h4, h5, h6, h7, h8, h9, h10, h11, h12⟩ := has_eq_testBit f
  rw [← componentSlots_total]
  simp only [componentSlots, enabledSize, List.map_cons, List.map_nil, List.sum_cons,
    List.sum_nil, kPositionSize, kNormalsSize, kTextureSize, kColorSize, kTanSize, kBitanSize,
    h0, h1, h4, h5, h6, h7, h8, h9, h10, h11, h12, ite_toNat]
  omega

theorem testBit_layout_mask :
    Nat.testBit 0x1FF3 0 = true ∧ Nat.testBit 0x1FF3 1 = true ∧ Nat.testBit 0x1FF3 4 = true ∧
    Nat.testBit 0x1FF3 5 = true ∧ Nat.testBit 0x1FF3 6 = true ∧ Nat.testBit 0x1FF3 7 = true ∧
    Nat.testBit 0x1FF3 8 = true ∧ Nat.testBit 0x1FF3 9 = true ∧ Nat.testBit 0x1FF3 10 = true ∧
    Nat.testBit 0x1FF3 11 = true ∧ Nat.testBit 0x1FF3 12 = true := by
  decide

theorem testBit_other_mask :
    Nat.testBit 0xE00C 0 = false ∧ Nat.testBit 0xE00C 1 = false ∧
    Nat.testBit 0xE00C 4 = false ∧ Nat.testBit 0xE00C 5 = false ∧
    Nat.testBit 0xE00C 6 = false ∧ Nat.testBit 0xE00C 7 = false ∧
    Nat.testBit 0xE00C 8 = false ∧ Nat.testBit 0xE00C 9 = false ∧
    Nat.testBit 0xE00C 10 = false ∧ Nat.testBit 0xE00C 11 = false ∧
    Nat.testBit 0xE00C 12 = false := by
  decide

/-- C12: for every flags value `f`, `calcVertexSize f` is 3 for Position (bit
0) plus 3 for Normal (bit 1) plus 2 for each of the bits UV0..UV3 (bits 4..7)
plus 4 for each of the bits Color0..Color3 (bits 8..11) plus 6 for
TangentAndBitangent (bit 12); it depends on these eleven bits only (mask
`0x1FF3`), and flipping any of the other bits of a 16-bit value (Bones
`0x2000`, HalfFloat `0x8000` and the unassigned bits, mask `0xE00C`) does not
change it. -/
theorem stride_additivity (f g : Nat) :
    calcVertexSize f =
      3 * (f.testBit 0).toNat + 3 * (f.testBit 1).toNat +
      2 * ((f.testBit 4).toNat + (f.testBit 5).toNat + (f.testBit 6).toNat +
        (f.testBit 7).toNat) +
      4 * ((f.testBit 8).toNat + (f.testBit 9).toNat + (f.testBit 10).toNat +
        (f.testBit 11).toNat) +
      6 * (f.testBit 12).toNat ∧
    calcVertexSize (f &&& 0x1FF3) = calcVertexSize f ∧
    calcVertexSize (f ^^^ (g &&& 0xE00C)) = calcVertexSize f := by
  obtain ⟨m0, m1, m4, m5, m6, m7, m8, m9, m10, m11, m12⟩ := testBit_layout_mask
  obtain ⟨o0, o1, o4, o5, o6, o7, o8, o9, o10, o11, o12⟩ := testBit_other_mask
  refine ⟨calcVertexSize_testBit f, ?_, ?_⟩
  · simp only [calcVertexSize_testBit, Nat.testBit_and, m0, m1, m4, m5, m6, m7, m8, m9, m10,
      m11, m12, Bool.and_true]
  · simp only [calcVertexSize_testBit, Nat.testBit_xor, Nat.testBit_and, o0, o1, o4, o5, o6,
      o7, o8, o9, o10, o11, o12, Bool.and_false, Bool.xor_false]

theorem scanOffset_split (slots : List (Bool × Nat)) (i j : Nat) (h : i ≤ j) :
    scanOffset slots j =
      scanOffset slots i + (((slots.take j).drop i).map enabledSize).sum := by
  have h1 : slots.take i = (slots.take j).take i := by
    rw [List.take_take, Nat.min_eq_left h]
  simp only [scanOffset]
  rw [h1, ← List.sum_append, ← List.map_append, List.take_append_drop]

theorem scanOffset_mono (slots : List (Bool × Nat)) (i j : Nat) (h : i ≤ j) :
    scanOffset slots i ≤ scanOffset slots j := by
  rw [scanOffset_split slots i j h]
  exact Nat.le_add_right _ _

/-- The offsets of the layout calculator are the running sums of the sizes of
the enabled components, Position being counted whatever the flags say. -/
theorem layoutOffsets_eq (vertexFlags : Nat) :
    layoutOffsets vertexFlags = (List.range 12).map (scanOffset (layoutSlots vertexFlags)) := by
  have h0 : positionOffset = scanOffset (layoutSlots vertexFlags) 0 := rfl
  have h1 : normalsOffset = scanOffset (layoutSlots vertexFlags) 1 := rfl
  have h2 : texCoords0Offset vertexFlags = scanOffset (layoutSlots vertexFlags) 2 := by
    rw [scanOffset_succ _ 1 (hasNormals vertexFlags, kNormalsSize) rfl, ← h1]
    cases h : hasNormals vertexFlags <;> simp [enabledSize, texCoords0Offset, h]
  have h3 : texCoords1Offset vertexFlags = scanOffset (layoutSlots vertexFlags) 3 := by
    rw [scanOffset_succ _ 2 (hasTexCoords0 vertexFlags, kTextureSize) rfl, ← h2]
    cases h : hasTexCoords0 vertexFlags <;> simp [enabledSize, texCoords1Offset, h]
  have h4 : texCoords2Offset vertexFlags = scanOffset (layoutSlots vertexFlags) 4 := by
    rw [scanOffset_succ _ 3 (hasTexCoords1 vertexFlags, kTextureSize) rfl, ← h3]
    cases h : hasTexCoords1 vertexFlags <;> simp [enabledSize, texCoords2Offset, h]
  have h5 : texCoords3Offset vertexFlags = scanOffset (layoutSlots vertexFlags) 5 := by
    rw [scanOffset_succ _ 4 (hasTexCoords2 vertexFlags, kTextureSize) rfl, ← h4]
    cases h : hasTexCoords2 vertexFlags <;> simp [enabledSize, texCoords3Offset, h]
  have h6 : color0Offset vertexFlags = scanOffset (layoutSlots vertexFlags) 6 := by
    rw [scanOffset_succ _ 5 (hasTexCoords3 vertexFlags, kTextureSize) rfl, ← h5]
    cases h : hasTexCoords3 vertexFlags <;> simp [enabledSize, color0Offset, h]
  have h7 : color1Offset vertexFlags = scanOffset (layoutSlots vertexFlags) 7 := by
    rw [scanOffset_succ _ 6 (hasColor0 vertexFlags, kColorSize) rfl, ← h6]
    cases h : hasColor0 vertexFlags <;> simp [enabledSize, color1Offset, h]
  have h8 : color2Offset vertexFlags = scanOffset (layoutSlots vertexFlags) 8 := by
    rw [scanOffset_succ _ 7 (hasColor1 vertexFlags, kColorSize) rfl, ← h7]
    cases h : hasColor1 vertexFlags <;> simp [enabledSize, color2Offset, h]
  have h9 : color3Offset vertexFlags = scanOffset (layoutSlots vertexFlags) 9 := by
    rw [scanOffset_succ _ 8 (hasColor2 vertexFlags, kColorSize) rfl, ← h8]
    cases h : hasColor2 vertexFlags <;> simp [enabledSize, color3Offset, h]
  have h10 : tanOffset vertexFlags = scanOffset (layoutSlots vertexFlags) 10 := by
    rw [scanOffset_succ _ 9 (hasColor3 vertexFlags, kColorSize) rfl, ← h9]
    cases h : hasColor3 vertexFlags <;> simp [enabledSize, tanOffset, h]
  have h11 : bitanOffset vertexFlags = scanOffset (layoutSlots vertexFlags) 11 := by
    rw [scanOffset_succ _ 10 (hasTanBitan vertexFlags, kTanSize) rfl, ← h10]
    cases h : hasTanBitan vertexFlags <;> simp [enabledSize, bitanOffset, h]
  simp only [layoutOffsets, h0, h1, h2, h3, h4, h5, h6, h7, h8, h9, h10, h11]
  rfl

theorem layoutSlots_eq (vertexFlags : Nat) (hp : hasPositions vertexFlags = true) :
    layoutSlots vertexFlags = componentSlots vertexFlags := by
  simp only [layoutSlots, componentSlots, hp, List.tail_cons]

/-- C13, amended: for every flags value and every component of the canonical
order, the layout calculator's offset of the component is the sum of the sizes
of the components that precede it and are enabled in the flags or are
Position: Position is counted whether or not its flag is set, and the
component's own flag plays no part. -/
theorem offsets_are_running_sums_counting_position (vertexFlags : Nat) :
    layoutOffsets vertexFlags =
      (List.range 12).map (scanOffset ((true, kPositionSize) ::
        (componentSlots vertexFlags).tail)) :=
  layoutOffsets_eq vertexFlags

/-- C13, counterexample: with the flags `HAS_NORMALS` alone, no enabled
component precedes Normal, so the running sum before it is 0, while
`normalsOffset` is 3. -/
theorem normals_offset_ignores_missing_position :
    hasPositions HAS_NORMALS = false ∧
    (layoutOffsets HAS_NORMALS)[1]? = some 3 ∧
    scanOffset (componentSlots HAS_NORMALS) 1 = 0 := by
  decide

/-- C14: for every flags value with `HAS_POSITIONS` set, the offset of each of
the twelve components equals the sum of the sizes of the enabled components
before it; with all flags set the offsets are 0, 3, 6, 8, 10, 12, 14, 18, 22,
26, 30, 33; with Position, Normal, UV0 and TanBitan the offsets of Position,
Normal, UV0, Tangent and Bitangent are 0, 3, 6, 8, 11; with Position, UV0,
Color0 and Color1 the offsets of UV0, Color0 and Color1 are 3, 5, 9. -/
theorem offsets_with_positions (vertexFlags : Nat) (hp : hasPositions vertexFlags = true) :
    layoutOffsets vertexFlags =
      (List.range 12).map (scanOffset (componentSlots vertexFlags)) ∧
    layoutOffsets 0xFFFF = [0, 3, 6, 8, 10, 12, 14, 18, 22, 26, 30, 33] ∧
    [positionOffset, normalsOffset,
      texCoords0Offset (HAS_POSITIONS ||| HAS_NORMALS ||| HAS_UV0 ||| HAS_TAN_AND_BITAN),
      tanOffset (HAS_POSITIONS ||| HAS_NORMALS ||| HAS_UV0 ||| HAS_TAN_AND_BITAN),
      bitanOffset (HAS_POSITIONS ||| HAS_NORMALS ||| HAS_UV0 ||| HAS_TAN_AND_BITAN)] =
      [0, 3, 6, 8, 11] ∧
    [texCoords0Offset (HAS_POSITIONS ||| HAS_UV0 ||| HAS_COLOR0 ||| HAS_COLOR1),
      color0Offset (HAS_POSITIONS ||| HAS_UV0 ||| HAS_COLOR0 ||| HAS_COLOR1),
      color1Offset (HAS_POSITIONS ||| HAS_UV0 ||| HAS_COLOR0 ||| HAS_COLOR1)] = [3, 5, 9] := by
  refine ⟨?_, by decide, by decide, by decide⟩
  rw [layoutOffsets_eq, layoutSlots_eq vertexFlags hp]

/-- The witness of `offsets_with_positions`: the flags of the test model
(Position, Normal, UV0). -/
theorem offsets_with_positions_witness :
    hasPositions 0x13 = true ∧
    layoutOffsets 0x13 = (List.range 12).map (scanOffset (componentSlots 0x13)) :=
  ⟨by decide, (offsets_with_positions 0x13 (by decide)).1⟩

/-- C15: for every flags value, the offsets of the twelve components are
non-decreasing along the canonical order: the offset of a component is at most
the offset of every component after it. -/
theorem offsets_monotone (vertexFlags : Nat) :
    List.Pairwise (· ≤ ·) (layoutOffsets vertexFlags) := by
  rw [layoutOffsets_eq, List.pairwise_map]
  exact (List.pairwise_lt_range 12).imp (fun h => scanOffset_mono _ _ _ (le_of_lt h))

theorem layoutSlots_size_pos (vertexFlags : Nat) :
    ∀ slot ∈ layoutSlots vertexFlags, 0 < slot.2 := by
  intro slot hs
  simp only [layoutSlots, componentSlots, List.tail_cons, List.mem_cons, List.mem_singleton,
    List.not_mem_nil, or_false, kPositionSize, kNormalsSize, kTextureSize, kColorSize, kTanSize,
    kBitanSize] at hs
  rcases hs with h | h | h | h | h | h | h | h | h | h | h | h <;> subst h <;> simp

theorem mem_take_drop {α : Type} (l : List α) (i j : Nat) (x : α) :
    x ∈ (l.take j).drop i ↔ ∃ k, i ≤ k ∧ k < j ∧ l[k]? = some x := by
  constructor
  · intro h
    obtain ⟨n, hn⟩ := List.getElem?_of_mem h
    rw [List.getElem?_drop, List.getElem?_take] at hn
    split at hn
    · exact ⟨i + n, by omega, by assumption, hn⟩
    · cases hn
  · rintro ⟨k, hik, hkj, hk⟩
    apply List.getElem?_mem (n := k - i)
    rw [List.getElem?_drop, List.getElem?_take]
    have : i + (k - i) = k := by omega
    rw [this, if_pos hkj, hk]

/-- Two offsets of the layout calculator are equal exactly when no component
from the first up to, but not including, the second is counted. -/
theorem scanOffset_eq_iff (slots : List (Bool × Nat)) (hpos : ∀ slot ∈ slots, 0 < slot.2)
    (i j : Nat) (h : i ≤ j) :
    scanOffset slots i = scanOffset slots j ↔
      ∀ k, i ≤ k → k < j → ∀ slot, slots[k]? = some slot → slot.1 = false := by
  rw [scanOffset_split slots i j h]
  have hsum : scanOffset slots i =
      scanOffset slots i + (((slots.take j).drop i).map enabledSize).sum ↔
      (((slots.take j).drop i).map enabledSize).sum = 0 := by omega
  rw [hsum, List.sum_eq_zero_iff]
  constructor
  · intro hz k hik hkj slot hk
    have hmem : slot ∈ (slots.take j).drop i := (mem_take_drop slots i j slot).mpr ⟨k, hik, hkj, hk⟩
    have h0 := hz _ (List.mem_map_of_mem enabledSize hmem)
    have hp := hpos slot (List.getElem?_mem hk)
    cases hb : slot.1 with
    | false => rfl
    | true =>
      simp only [enabledSize, hb, if_true] at h0
      omega
  · intro hall x hx
    simp only [List.mem_map] at hx
    obtain ⟨slot, hs, rfl⟩ := hx
    obtain ⟨k, hik, hkj, hk⟩ := (mem_take_drop slots i j slot).mp hs
    simp [enabledSize, hall k hik hkj slot hk]

/-- C16, amended: for every flags value and every two components `C` (number
`i`) before `C'` (number `j`) in canonical order, the offsets of `C` and `C'`
are equal if and only if none of the components from `C` itself up to, but not
including, `C'` is counted, where a component is counted when it is enabled in
the flags or is Position. -/
theorem offsets_equal_iff (vertexFlags i j : Nat) (hij : i < j) (hj : j < 12) :
    (layoutOffsets vertexFlags)[i]? = (layoutOffsets vertexFlags)[j]? ↔
      ∀ k, i ≤ k → k < j → ∀ slot,
        ((true, kPositionSize) :: (componentSlots vertexFlags).tail)[k]? = some slot →
          slot.1 = false := by
  have hi : i < 12 := by omega
  rw [layoutOffsets_eq, List.getElem?_map, List.getElem?_map, List.getElem?_range hi,
    List.getElem?_range hj]
  simp only [Option.map_some', Option.some.injEq]
  exact scanOffset_eq_iff (layoutSlots vertexFlags) (layoutSlots_size_pos vertexFlags) i j
    (le_of_lt hij)

/-- The witness of `offsets_equal_iff`: with Position, Normal and UV0 set, the
offsets of UV1 and Color0 are equal. -/
theorem offsets_equal_iff_witness :
    (3 : Nat) < 6 ∧ (6 : Nat) < 12 ∧
    ((layoutOffsets 0x13)[3]? = (layoutOffsets 0x13)[6]? ↔
      ∀ k, 3 ≤ k → k < 6 → ∀ slot,
        ((true, kPositionSize) :: (componentSlots 0x13).tail)[k]? = some slot →
          slot.1 = false) :=
  ⟨by decide, by decide, offsets_equal_iff 0x13 3 6 (by decide) (by decide)⟩

/-- C16, counterexample: with Position and Normal set, UV0 is the only
component strictly between Normal and UV1 and it is not enabled, yet the
offsets of Normal and UV1 differ (3 and 6): the size of the enabled component
Normal itself lies between them. -/
theorem offsets_differ_with_nothing_enabled_between :
    (layoutOffsets 0x3)[1]? = some 3 ∧ (layoutOffsets 0x3)[3]? = some 6 ∧
    ∀ k, 1 < k → k < 3 → ∀ slot, (componentSlots 0x3)[k]? = some slot → slot.1 = false := by
  refine ⟨by decide, by decide, ?_⟩
  intro k h1 h3 slot hs
  have hk : k = 2 := by omega
  subst hk
  have h2 : (componentSlots 0x3)[2]? = some (false, kTextureSize) := by decide
  rw [h2] at hs
  cases hs
  rfl

/-! ## The channel-count setters -/

theorem or_flag (f m : Nat) (hf : f < 65536) (hm : m < 65536) :
    (f ||| m) % 65536 = f ||| m :=
  Nat.mod_eq_of_lt (Nat.or_lt_two_pow (n := 16) hf hm)

/-- The loop `flags |= (first << i)` for `i = 0 .. count - 1`, `count ≤ 4`,
from a channel bit `first` whose four shifts are disjoint 16-bit values. -/
theorem setChannels_fold (first f : Nat) (hf : f < 65536) (h4 : first <<< 3 < 65536)
    (h1 : (first <<< 0) ||| (first <<< 1) = channelMask first 2)
    (h2 : channelMask first 2 ||| (first <<< 2) = channelMask first 3)
    (h3 : channelMask first 3 ||| (first <<< 3) = channelMask first 4)
    (count : Nat) (hc : count ≤ 4) :
    (List.range count).foldl (fun flags i => (flags ||| (first <<< i)) % 65536) f =
      f ||| channelMask first count := by
  have s0 : first <<< 0 = first := rfl
  have b1 : first <<< 1 < 65536 := by
    simp only [Nat.shiftLeft_eq] at h4 ⊢; omega
  have b2 : first <<< 2 < 65536 := by
    simp only [Nat.shiftLeft_eq] at h4 ⊢; omega
  have b0 : first < 65536 := by
    simp only [Nat.shiftLeft_eq] at h4; omega
  have m1 : channelMask first 1 = first := by simp [channelMask]
  have m0 : channelMask first 0 = 0 := by simp [channelMask]
  have e1 : (f ||| first <<< 0) % 65536 = f ||| first := by rw [s0]; exact or_flag f first hf b0
  have l1 : f ||| first < 65536 := Nat.or_lt_two_pow (n := 16) hf b0
  have e2 : (f ||| first ||| first <<< 1) % 65536 = f ||| channelMask first 2 := by
    rw [or_flag _ _ l1 b1, Nat.or_assoc, ← h1, s0]
  have l2 : f ||| channelMask first 2 < 65536 := by
    rw [← h1, s0, ← Nat.or_assoc]; exact Nat.or_lt_two_pow (n := 16) l1 b1
  have e3 : (f ||| channelMask first 2 ||| first <<< 2) % 65536 = f ||| channelMask first 3 := by
    rw [or_flag _ _ l2 b2, Nat.or_assoc, h2]
  have l3 : f ||| channelMask first 3 < 65536 := by
    rw [← h2, ← Nat.or_assoc]; exact Nat.or_lt_two_pow (n := 16) l2 b2
  have e4 : (f ||| channelMask first 3 ||| first <<< 3) % 65536 = f ||| channelMask first 4 := by
    rw [or_flag _ _ l3 h4, Nat.or_assoc, h3]
  have r1 : List.range 1 = [0] := by decide
  have r2 : List.range 2 = [0, 1] := by decide
  have r3 : List.range 3 = [0, 1, 2] := by decide
  have r4 : List.range 4 = [0, 1, 2, 3] := by decide
  rcases count with _ | _ | _ | _ | _ | count
  · simp [m0]
  · simp only [Nat.zero_add, r1, List.foldl, e1, m1]
  · simp only [Nat.zero_add, Nat.reduceAdd, r2, List.foldl, e1, e2]
  · simp only [Nat.zero_add, Nat.reduceAdd, r3, List.foldl, e1, e2, e3]
  · simp only [Nat.zero_add, Nat.reduceAdd, r4, List.foldl, e1, e2, e3, e4]
  · omega

theorem setHasTexCoords_eq (f n : Nat) (hf : f < 65536) :
    setHasTexCoords f n = f ||| channelMask HAS_UV0 (min n 4) := by
  have hfold := setChannels_fold HAS_UV0 f hf (by decide) (by decide) (by decide) (by decide)
    (min n 4) (Nat.min_le_right _ _)
  have hmin : (if n > kMaxNumTexCoords then kMaxNumTexCoords else n) = min n 4 := by
    simp only [kMaxNumTexCoords]; split <;> omega
  simp only [setHasTexCoords, hmin, hfold]
  split
  · rfl
  · have : min n 4 = 0 := by omega
    rw [this]; simp [channelMask]

theorem setHasColors_eq (f n : Nat) (hf : f < 65536) :
    setHasColors f n = f ||| channelMask HAS_COLOR0 (min n 4) := by
  have hfold := setChannels_fold HAS_COLOR0 f hf (by decide) (by decide) (by decide) (by decide)
    (min n 4) (Nat.min_le_right _ _)
  have hmin : (if n > kMaxNumColors then kMaxNumColors else n) = min n 4 := by
    simp only [kMaxNumColors]; split <;> omega
  simp only [setHasColors, hmin, hfold]
  split
  · rfl
  · have : min n 4 = 0 := by omega
    rw [this]; simp [channelMask]

/-- C17: for every 16-bit flags value `f` and every count `n`,
`setHasTexCoords f n` is `f` with the bits UV0..UV(min(n,4)-1) OR-ed in and
`setHasColors f n` is `f` with the bits Color0..Color(min(n,4)-1) OR-ed in
(the masks for 0, 1, 2, 3, 4 channels are `0, 0x10, 0x30, 0x70, 0xF0` and
`0, 0x100, 0x300, 0x700, 0xF00`); a count of 0 leaves `f` unchanged and every
count gives the result of the count clamped to 4. -/
theorem channel_count_setters (f n : Nat) (hf : f < 65536) :
    setHasTexCoords f n = f ||| channelMask HAS_UV0 (min n 4) ∧
    setHasColors f n = f ||| channelMask HAS_COLOR0 (min n 4) ∧
    (List.range 5).map (channelMask HAS_UV0) = [0, HAS_UV0, HAS_UV0 ||| HAS_UV1,
      HAS_UV0 ||| HAS_UV1 ||| HAS_UV2, HAS_UV0 ||| HAS_UV1 ||| HAS_UV2 ||| HAS_UV3] ∧
    (List.range 5).map (channelMask HAS_COLOR0) = [0, HAS_COLOR0, HAS_COLOR0 ||| HAS_COLOR1,
      HAS_COLOR0 ||| HAS_COLOR1 ||| HAS_COLOR2,
      HAS_COLOR0 ||| HAS_COLOR1 ||| HAS_COLOR2 ||| HAS_COLOR3] ∧
    setHasTexCoords f 0 = f ∧ setHasColors f 0 = f ∧
    setHasTexCoords f n = setHasTexCoords f (min n 4) ∧
    setHasColors f n = setHasColors f (min n 4) := by
  refine ⟨setHasTexCoords_eq f n hf, setHasColors_eq f n hf, by decide, by decide, ?_, ?_, ?_, ?_⟩
  · rw [setHasTexCoords_eq f 0 hf]; simp [channelMask]
  · rw [setHasColors_eq f 0 hf]; simp [channelMask]
  · rw [setHasTexCoords_eq f n hf, setHasTexCoords_eq f (min n 4) hf, Nat.min_assoc,
      Nat.min_self]
  · rw [setHasColors_eq f n hf, setHasColors_eq f (min n 4) hf, Nat.min_assoc, Nat.min_self]

/-- The witness of `channel_count_setters`: five texture channels and five
colour channels requested on empty flags, as in the header tests. -/
theorem channel_count_setters_witness :
    (0 : Nat) < 65536 ∧
    setHasTexCoords 0 5 = 0 ||| channelMask HAS_UV0 (min 5 4) ∧
    setHasColors 0 5 = 0 ||| channelMask HAS_COLOR0 (min 5 4) :=
  ⟨by decide, (channel_count_setters 0 5 (by decide)).1,
    (channel_count_setters 0 5 (by decide)).2.1⟩

/-! ## The file header -/

/-- What `readFileHeader` returns for an open stream in good state that holds
at least six bytes. -/
theorem readFileHeader_six (m0 m1 v0 v1 c u : Byte) (rest : List Byte) (pos : Nat) :
    (readFileHeader
        { content := m0 :: m1 :: v0 :: v1 :: c :: u :: rest, pos := pos, good := true,
          isOpen := true }).1 =
      if m0.val ≠ kMagicNumber0 ∨ m1.val ≠ kMagicNumber1 then none
      else some
        { magicNumber0 := m0.val, magicNumber1 := m1.val, version0 := v0.val,
          version1 := v1.val, objectCount := c.val, unused := u.val } := by
  have hread := readInto_block
    { content := m0 :: m1 :: v0 :: v1 :: c :: u :: rest, pos := 0, good := true,
      isOpen := true }
    [] [m0, m1, v0, v1, c, u] rest (List.replicate 6 0) rfl rfl rfl rfl rfl
  have h6 : ¬ (rest.length + 1 + 1 + 1 + 1 + 1 + 1 < 6) := by omega
  simp only [readFileHeader, Bool.not_true, Bool.false_eq_true, if_false, if_true,
    List.length_cons, h6, hread, FileHeader.ofBytes]
  by_cases hm : m0.val ≠ kMagicNumber0 ∨ m1.val ≠ kMagicNumber1
  · rw [if_pos hm, if_pos hm]
  · rw [if_neg hm, if_neg hm]

/-- What `readFileHeader` returns for an open stream in good state that holds
fewer than six bytes. -/
theorem readFileHeader_short (content : List Byte) (pos : Nat) (h : content.length < 6) :
    (readFileHeader { content := content, pos := pos, good := true, isOpen := true }).1 =
      none := by
  simp [readFileHeader, h]

/-- A stream that is closed or not in good state yields no header. -/
theorem readFileHeader_not_ready (inp : IStream) (h : ¬ (inp.isOpen = true ∧ inp.good = true)) :
    (readFileHeader inp).1 = none := by
  obtain ⟨content, pos, good, isOpen⟩ := inp
  cases isOpen with
  | false => simp [readFileHeader]
  | true =>
    cases good with
    | true => simp at h
    | false =>
      simp [readFileHeader, IStream.readInto, IStream.read, FileHeader.ofBytes, kMagicNumber0]

theorem six_or_short (content : List Byte) :
    content.length < 6 ∨
      ∃ m0 m1 v0 v1 c u rest, content = m0 :: m1 :: v0 :: v1 :: c :: u :: rest := by
  match content with
  | [] => left; simp
  | [_] => left; simp
  | [_, _] => left; simp
  | [_, _, _] => left; simp
  | [_, _, _, _] => left; simp
  | [_, _, _, _, _] => left; simp
  | m0 :: m1 :: v0 :: v1 :: c :: u :: rest => right; exact ⟨m0, m1, v0, v1, c, u, rest, rfl⟩

/-- C18: for every input stream whose content does not start with the two
bytes `0xDE, 0xAD` (one of them differs, or both, or the content is shorter
than two bytes), `readFileHeader` returns the null pointer. -/
theorem magic_rejection (inp : IStream)
    (h : ¬ (inp.content[0]? = some 0xDE ∧ inp.content[1]? = some 0xAD)) :
    (readFileHeader inp).1 = none := by
  by_cases hr : inp.isOpen = true ∧ inp.good = true
  · obtain ⟨content, pos, good, isOpen⟩ := inp
    simp only at hr h
    obtain ⟨ho, hg⟩ := hr
    subst ho hg
    rcases six_or_short content with hs | ⟨m0, m1, v0, v1, c, u, rest, rfl⟩
    · exact readFileHeader_short content pos hs
    · rw [readFileHeader_six]
      simp only [List.getElem?_cons_zero, List.getElem?_cons_succ, Option.some.injEq] at h
      have hm : m0.val ≠ kMagicNumber0 ∨ m1.val ≠ kMagicNumber1 := by
        by_contra hc
        simp only [not_or, not_not, kMagicNumber0, kMagicNumber1] at hc
        apply h
        exact ⟨Fin.ext hc.1, Fin.ext hc.2⟩
      rw [if_pos hm]
  · exact readFileHeader_not_ready inp hr

/-- The witness of `magic_rejection`: the header of the reader test, with the
magic bytes `0xAB, 0xFF`. -/
theorem magic_rejection_witness :
    ¬ ((IStream.ofBytes [0xAB, 0xFF, 0, 0, 0, 0]).content[0]? = some 0xDE ∧
        (IStream.ofBytes [0xAB, 0xFF, 0, 0, 0, 0]).content[1]? = some 0xAD) ∧
    (readFileHeader (IStream.ofBytes [0xAB, 0xFF, 0, 0, 0, 0])).1 = none :=
  ⟨by decide, magic_rejection (IStream.ofBytes [0xAB, 0xFF, 0, 0, 0, 0]) (by decide)⟩

/-- C19, amended: `readFileHeader` rejects the bytes of a freshly opened input
if and only if they are fewer than six or the first two differ from
`0xDE 0xAD`; the version bytes, the object count and the reserved byte of an
input of at least six bytes that starts with the magic number never reject
it. -/
theorem file_header_validation (content : List Byte) :
    (readFileHeader (IStream.ofBytes content)).1 = none ↔
      content.length < 6 ∨ ¬ (content[0]? = some 0xDE ∧ content[1]? = some 0xAD) := by
  rcases six_or_short content with hs | ⟨m0, m1, v0, v1, c, u, rest, rfl⟩
  · simp only [IStream.ofBytes, readFileHeader_short content 0 hs, hs, true_or]
  · simp only [IStream.ofBytes, readFileHeader_six, List.length_cons, List.getElem?_cons_zero,
      List.getElem?_cons_succ, Option.some.injEq]
    have hlen : ¬ (rest.length + 1 + 1 + 1 + 1 + 1 + 1 < 6) := by omega
    have e0 : m0.val ≠ kMagicNumber0 ↔ m0 ≠ 0xDE := by
      constructor
      · intro h hc; subst hc; exact h rfl
      · intro h hc; exact h (Fin.ext hc)
    have e1 : m1.val ≠ kMagicNumber1 ↔ m1 ≠ 0xAD := by
      constructor
      · intro h hc; subst hc; exact h rfl
      · intro h hc; exact h (Fin.ext hc)
    simp only [hlen, false_or, e0, e1]
    by_cases h0 : m0 = 0xDE <;> by_cases h1 : m1 = 0xAD <;> simp [h0, h1]

/-- C19, counterexample: five bytes that start with the magic number
(`DE AD 00 01 01`) are rejected by the length check. -/
theorem short_input_with_magic_rejected :
    ([0xDE, 0xAD, 0x00, 0x01, 0x01] : List Byte)[0]? = some 0xDE ∧
    ([0xDE, 0xAD, 0x00, 0x01, 0x01] : List Byte)[1]? = some 0xAD ∧
    (readFileHeader (IStream.ofBytes [0xDE, 0xAD, 0x00, 0x01, 0x01])).1 = none := by
  decide

/-- C20: for every object count `n < 256`, `writeFileHeader` applied to
`createFileHeader n` appends exactly the six bytes `DE AD 00 01 n 00` to the
stream and returns 6. -/
theorem file_header_wire_bytes (n : Nat) (hn : n < 256) (out : OStream) :
    writeFileHeader out (some (createFileHeader n)) =
      (out ++ [0xDE, 0xAD, 0x00, 0x01, ⟨n, hn⟩, 0x00], 6) := by
  simp only [writeFileHeader, createFileHeader, FileHeader.bytes, byteOf, kMagicNumber0,
    kMagicNumber1, kFileFormatVersionMajor, kFileFormatVersionMinor, Nat.mod_eq_of_lt hn]
  rfl

/-- The witness of `file_header_wire_bytes`: the two objects of the writer
test. -/
theorem file_header_wire_bytes_witness :
    (2 : Nat) < 256 ∧
    writeFileHeader [] (some (createFileHeader 2)) =
      ([] ++ [0xDE, 0xAD, 0x00, 0x01, ⟨2, by decide⟩, 0x00], 6) :=
  ⟨by decide, file_header_wire_bytes 2 (by decide) []⟩

/-! ## The size of the unique vertices -/

/-- C11, failing strides below 8: whatever the indeterminate memory holds,
every unique vertex that `optimizeArrayOfStructs` returns has `size = 8` and an
array of 8 floats, not `vertexSize` floats. -/
theorem weld_unique_vertices_have_size_eight (uninit : Nat → Nat → F32)
    (vertices : List F32) (vertexSize vertexCount : Nat) (hs : vertexSize < 8)
    (hlen : vertices.length = vertexCount * vertexSize) :
    ∃ indicesOut verticesOut,
      optimizeArrayOfStructs uninit vertices vertexSize vertexCount [] [] =
        some (indicesOut, verticesOut) ∧
      ∀ v ∈ verticesOut, v.size = 8 ∧ v.array.length = 8 ∧ v.size ≠ vertexSize := by
  have hle : vertexCount * vertexSize ≤ vertices.length := le_of_eq hlen.symm
  refine ⟨_, _, optimizeArrayOfStructs_eq uninit vertices vertexSize vertexCount
    (le_of_lt hs) hle, ?_⟩
  intro v hv
  have hmem := (mem_firstOccurrences _ _).mp hv
  obtain ⟨h1, h2⟩ := weldVertices_sized uninit vertices vertexSize vertexCount (le_of_lt hs)
    hle v hmem
  exact ⟨h1, h2, by omega⟩

/-- The witness of `weld_unique_vertices_have_size_eight`: two vertices of
three floats. -/
theorem weld_unique_vertices_have_size_eight_witness :
    (3 : Nat) < 8 ∧
    [floatOfBits 1, floatOfBits 2, floatOfBits 3, floatOfBits 4, floatOfBits 5,
      floatOfBits 6].length = 2 * 3 ∧
    ∃ indicesOut verticesOut,
      optimizeArrayOfStructs zeroMemory
        [floatOfBits 1, floatOfBits 2, floatOfBits 3, floatOfBits 4, floatOfBits 5,
          floatOfBits 6] 3 2 [] [] = some (indicesOut, verticesOut) ∧
      ∀ v ∈ verticesOut, v.size = 8 ∧ v.array.length = 8 ∧ v.size ≠ 3 :=
  ⟨by decide, by decide,
    weld_unique_vertices_have_size_eight zeroMemory
      [floatOfBits 1, floatOfBits 2, floatOfBits 3, floatOfBits 4, floatOfBits 5,
        floatOfBits 6] 3 2 (by decide) (by decide)⟩

/-! ## Header round trips and the object header on the wire -/

/-- C21: for every object count `n < 256`, `readFileHeader` applied to the
bytes that `writeFileHeader` writes for `createFileHeader n` returns a header:
magic number `DE AD`, version `0, 1`, `objectCount = n`, `unused = 0`, the
header that was written. -/
theorem file_header_roundtrip (n : Nat) (hn : n < 256) :
    ∃ header inp,
      readFileHeader (IStream.ofBytes (writeFileHeader [] (some (createFileHeader n))).1) =
        (some header, inp) ∧
      header.magicNumber0 = 0xDE ∧ header.magicNumber1 = 0xAD ∧
      header.version0 = 0 ∧ header.version1 = 1 ∧
      header.objectCount = n ∧ header.unused = 0 ∧ header = createFileHeader n := by
  have h := readFileHeader_created n []
  simp only [List.append_nil] at h
  have hw : (writeFileHeader [] (some (createFileHeader n))).1 = (createFileHeader n).bytes := by
    simp only [writeFileHeader, List.nil_append]
  rw [hw]
  exact ⟨createFileHeader n, _, h, rfl, rfl, rfl, rfl, Nat.mod_eq_of_lt hn, rfl, rfl⟩

/-- The witness of `file_header_roundtrip`: the two objects of the reader
test. -/
theorem file_header_roundtrip_witness :
    (2 : Nat) < 256 ∧
    ∃ header inp,
      readFileHeader (IStream.ofBytes (writeFileHeader [] (some (createFileHeader 2))).1) =
        (some header, inp) ∧
      header.magicNumber0 = 0xDE ∧ header.magicNumber1 = 0xAD ∧
      header.version0 = 0 ∧ header.version1 = 1 ∧
      header.objectCount = 2 ∧ header.unused = 0 ∧ header = createFileHeader 2 :=
  ⟨by decide, file_header_roundtrip 2 (by decide)⟩

theorem ofBytes_bytes (h : ObjectHeader) (ht : h.Typed) : ObjectHeader.ofBytes h.bytes = h := by
  obtain ⟨h1, h2, h3, h4, h5, h6⟩ := ht
  obtain ⟨type, vertexSize, vertexFlags, vertexCount, indexCount, boneCount⟩ := h
  simp only at h1 h2 h3 h4 h5 h6
  simp only [ObjectHeader.bytes, u16Bytes, u32Bytes, List.cons_append, List.nil_append,
    ObjectHeader.ofBytes, byteOf, ObjectHeader.mk.injEq]
  refine ⟨?_, ?_, ?_, ?_, ?_, ?_⟩
  all_goals omega

/-- C22: for every `ObjectHeader` value `h` whose fields fit their types (any
type byte, any stride byte, any 16-bit flags, any 32-bit counts, consistent
with each other or not), `readObjectHeader` applied to the bytes that
`writeObjectHeader` writes for `h` returns a header equal to `h`, having
consumed the sixteen bytes. -/
theorem object_header_roundtrip (h : ObjectHeader) (ht : h.Typed) :
    readObjectHeader (IStream.ofBytes (writeObjectHeader [] (some h)).1) =
      (some h, { content := h.bytes, pos := 16, good := true, isOpen := true }) := by
  have hread := readInto_block
    { content := h.bytes, pos := 0, good := true, isOpen := true }
    [] h.bytes [] (List.replicate 16 0) (by simp) rfl rfl rfl
    (by rw [objectHeader_bytes_length]; simp)
  simp only [writeObjectHeader, List.nil_append, readObjectHeader, IStream.ofBytes,
    Bool.not_true, Bool.false_eq_true, if_false, hread, ofBytes_bytes h ht,
    objectHeader_bytes_length, List.length_nil, Nat.zero_add]

/-- The witness of `object_header_roundtrip`: the header of the reader test,
flags `0xdead` with stride 15. -/
theorem object_header_roundtrip_witness :
    ObjectHeader.Typed
      { type := 2, vertexSize := 0x0f, vertexFlags := 0xdead, vertexCount := 36,
        indexCount := 128, boneCount := 18 } ∧
    readObjectHeader (IStream.ofBytes (writeObjectHeader [] (some
      { type := 2, vertexSize := 0x0f, vertexFlags := 0xdead, vertexCount := 36,
        indexCount := 128, boneCount := 18 })).1) =
      (some { type := 2, vertexSize := 0x0f, vertexFlags := 0xdead, vertexCount := 36,
              indexCount := 128, boneCount := 18 },
        { content := ObjectHeader.bytes
            { type := 2, vertexSize := 0x0f, vertexFlags := 0xdead, vertexCount := 36,
              indexCount := 128, boneCount := 18 },
          pos := 16, good := true, isOpen := true }) :=
  ⟨by decide, object_header_roundtrip _ (by decide)⟩

/-- C23: for all arguments, `writeObjectHeader` applied to
`createObjectHeader flags vertexCount indexCount boneCount vertexSize
useStructOfArrays` appends exactly sixteen bytes and returns 16: byte 0 is the
type (1 for struct of arrays, else 2), byte 1 the stride, bytes 2-3 the flags,
bytes 4-7 the vertex count, bytes 8-11 the index count, bytes 12-15 the bone
count, every integer with its least significant byte first. -/
theorem object_header_wire_layout (out : OStream)
    (vertexFlags vertexCount indexCount boneCount vertexSize : Nat) (useStructOfArrays : Bool) :
    writeObjectHeader out (some (createObjectHeader vertexFlags vertexCount indexCount
        boneCount vertexSize useStructOfArrays)) =
      (out ++ [if useStructOfArrays then 1 else 2, byteOf vertexSize,
        byteOf vertexFlags, byteOf (vertexFlags / 256),
        byteOf vertexCount, byteOf (vertexCount / 256), byteOf (vertexCount / 65536),
        byteOf (vertexCount / 16777216),
        byteOf indexCount, byteOf (indexCount / 256), byteOf (indexCount / 65536),
        byteOf (indexCount / 16777216),
        byteOf boneCount, byteOf (boneCount / 256), byteOf (boneCount / 65536),
        byteOf (boneCount / 16777216)], 16) := by
  simp only [writeObjectHeader, createObjectHeader, ObjectHeader.bytes, u16Bytes, u32Bytes,
    List.cons_append, List.nil_append, byteOf, Prod.mk.injEq, and_true, List.append_cancel_left_eq,
    List.cons.injEq, Fin.mk.injEq]
  refine ⟨?_, ?_, ?_, ?_, ?_, ?_, ?_, ?_, ?_, ?_, ?_, ?_, ?_, ?_, ?_, ?_⟩
  · cases useStructOfArrays <;> simp [STRUCT_OF_ARRAYS, ARRAY_OF_STRUCTS]
  all_goals omega

/-! ## Writers append to the stream -/

theorem writeVertexArrays_append (floats : Nat) :
    ∀ (U : List Vertex) (out : OStream),
      writeVertexArrays floats U out = (writeVertexArrays floats U []).map (out ++ ·) := by
  intro U
  induction U with
  | nil => intro out; simp [writeVertexArrays]
  | cons u us ih =>
    intro out
    by_cases h : floats ≤ u.array.length
    · simp only [writeVertexArrays, h, if_true, List.nil_append]
      rw [ih (out ++ floatBytes (u.array.take floats)), ih (floatBytes (u.array.take floats))]
      cases writeVertexArrays floats us [] <;> simp
    · simp [writeVertexArrays, h]

theorem writeArrayOfStructsData_append (out : OStream) (U : List Vertex) :
    writeArrayOfStructsData out U =
      (writeArrayOfStructsData [] U).map (fun r => (out ++ r.1, r.2)) := by
  cases U with
  | nil => simp [writeArrayOfStructsData]
  | cons u us =>
    simp only [writeArrayOfStructsData]
    rw [writeVertexArrays_append u.size (u :: us) out]
    cases writeVertexArrays u.size (u :: us) [] <;> simp

theorem ite_gate (has : Bool) (out : OStream) (size : Nat) (c : List F32) :
    (if has = true then
        (out ++ floatBytes c, toInt32 (toInt32 (size : Int) + ((c.length * 4 : Nat) : Int)))
      else (out, toInt32 (size : Int))) =
      (out ++ floatBytes (if has = true then c else []),
        toInt32 ((size + (if has = true then c else []).length * 4 : Nat) : Int)) := by
  cases has with
  | true => simp only [if_true, toInt32_add, Nat.cast_add]
  | false => simp [floatBytes]

theorem ite_gate_two (has : Bool) (out : OStream) (size : Nat) (c d : List F32) :
    (if has = true then (out ++ floatBytes c ++ floatBytes d,
        toInt32 (toInt32 (toInt32 (size : Int) + ((c.length * 4 : Nat) : Int)) +
          ((d.length * 4 : Nat) : Int)))
      else (out, toInt32 (size : Int))) =
      (out ++ floatBytes (if has = true then c else []) ++
          floatBytes (if has = true then d else []),
        toInt32 ((size + (if has = true then c else []).length * 4 +
          (if has = true then d else []).length * 4 : Nat) : Int)) := by
  cases has with
  | true => simp only [if_true, toInt32_add, Nat.cast_add]
  | false => simp [floatBytes]

/-- The function `writeStructOfArraysData` in closed form, for any
`ObjectData`. -/
theorem writeStructOfArraysData_gated (out : OStream) (data : ObjectData) :
    writeStructOfArraysData out data =
      (out ++ floatBytes (flattenVertices (gatedSlots data)),
        toInt32 (((flattenVertices (gatedSlots data)).length * 4 : Nat) : Int)) := by
  simp only [writeStructOfArraysData, Int.zero_add, ite_gate, ite_gate_two]
  simp only [gatedSlots, flattenVertices, floatBytes_append, List.append_assoc,
    List.length_append, List.append_nil, Prod.mk.injEq, true_and]
  congr 2
  omega

theorem writeStructOfArraysData_append (out : OStream) (data : ObjectData) :
    (writeStructOfArraysData out data).1 = out ++ (writeStructOfArraysData [] data).1 := by
  simp only [writeStructOfArraysData_gated, List.nil_append]

theorem writeElementLoop_append (vertices : List F32) (limit vertexSize elementSize : Nat) :
    ∀ (fuel i : Nat) (out : OStream),
      writeElementLoop vertices limit vertexSize elementSize fuel i out =
        (writeElementLoop vertices limit vertexSize elementSize fuel i []).map (out ++ ·) := by
  intro fuel
  induction fuel with
  | zero => intro i out; simp [writeElementLoop]
  | succ fuel ih =>
    intro i out
    by_cases h1 : i < limit
    · by_cases h2 : i + elementSize ≤ vertices.length
      · simp only [writeElementLoop, h1, h2, if_true, List.nil_append]
        rw [ih _ (out ++ _), ih _ (floatBytes _)]
        cases writeElementLoop vertices limit vertexSize elementSize fuel (i + vertexSize) [] <;>
          simp
      · simp [writeElementLoop, h1, h2]
    · simp [writeElementLoop, h1]

theorem writeElementArrayIf_append (has : Bool) (out : OStream) (o : Option OStream)
    (M : Mesh) (offset elementSize : Nat) :
    writeElementArrayIf has (o.map (out ++ ·)) M offset elementSize =
      (writeElementArrayIf has o M offset elementSize).map (out ++ ·) := by
  cases o with
  | none => simp [writeElementArrayIf]
  | some b =>
    cases has with
    | false => simp [writeElementArrayIf]
    | true =>
      simp only [writeElementArrayIf, Option.map_some', if_true, writeElementArray]
      rw [writeElementLoop_append _ _ _ _ _ _ (out ++ b), writeElementLoop_append _ _ _ _ _ _ b]
      cases writeElementLoop M.vertices (M.numVertices * M.vertexSize) M.vertexSize elementSize
        (M.numVertices * M.vertexSize) offset [] <;> simp

theorem writeColumns_append (out : OStream) (M : Mesh) :
    writeColumns out M = (writeColumns [] M).map (out ++ ·) := by
  have h0 : (some out : Option OStream) = (some []).map (out ++ ·) := by simp
  simp only [writeColumns]
  rw [h0]
  simp only [writeElementArrayIf_append]

/-- The function `writeObject` appends to the stream: what it appends does not
depend on what the stream holds. -/
theorem writeObject_append (uninit : Nat → Nat → F32) (out : OStream) (mesh : Option Mesh)
    (doOptimize useStructOfArrays : Bool) :
    writeObject uninit out mesh doOptimize useStructOfArrays =
      (writeObject uninit [] mesh doOptimize useStructOfArrays).map
        (fun r => (out ++ r.1, r.2)) := by
  cases mesh with
  | none => simp [writeObject]
  | some M =>
    cases doOptimize with
    | true =>
      simp only [writeObject, if_true, writeObjectHeader, List.nil_append]
      cases hw : optimizeArrayOfStructs uninit M.vertices M.vertexSize M.numVertices [] [] with
      | none => simp
      | some r =>
        obtain ⟨indicesOut, verticesOut⟩ := r
        simp only
        cases useStructOfArrays with
        | true =>
          simp only [if_true]
          cases convertArrayOfStructsToStructOfArrays verticesOut M.flags M.vertexSize with
          | none => simp
          | some data =>
            simp only [Option.map_some', Option.some.injEq, Prod.mk.injEq, and_true]
            rw [writeStructOfArraysData_append (out ++ _), writeStructOfArraysData_append
              (ObjectHeader.bytes _)]
            simp only [List.append_assoc]
        | false =>
          simp only [Bool.false_eq_true, if_false]
          rw [writeArrayOfStructsData_append (out ++ _), writeArrayOfStructsData_append
            (ObjectHeader.bytes _)]
          cases writeArrayOfStructsData [] verticesOut with
          | none => simp
          | some r => simp [List.append_assoc]
    | false =>
      simp only [writeObject, Bool.false_eq_true, if_false, writeObjectHeader, List.nil_append]
      cases useStructOfArrays with
      | true =>
        simp only [if_true]
        rw [writeColumns_append (out ++ _), writeColumns_append (ObjectHeader.bytes _)]
        cases writeColumns [] M with
        | none => simp
        | some b =>
          by_cases hi : M.numIndices ≤ M.indices.length
          · simp [hi, List.append_assoc]
          · simp [hi]
      | false =>
        simp only [Bool.false_eq_true, if_false]
        by_cases hv : M.numVertices * M.vertexSize ≤ M.vertices.length
        · by_cases hi : M.numIndices ≤ M.indices.length
          · simp [hv, hi, List.append_assoc]
          · simp [hv, hi]
        · simp [hv]

theorem writeObjects_eq (uninit : Nat → Nat → Nat → F32) (doOptimize useStructOfArrays : Bool) :
    ∀ (meshes : List (Option Mesh)) (i : Nat) (out : OStream),
      writeObjects uninit doOptimize useStructOfArrays meshes i out =
        (objectsBytes uninit doOptimize useStructOfArrays meshes i).map (out ++ ·) := by
  intro meshes
  induction meshes with
  | nil => intro i out; simp [writeObjects, objectsBytes]
  | cons mesh rest ih =>
    intro i out
    simp only [writeObjects, objectsBytes, objectBytes]
    rw [writeObject_append]
    cases writeObject (uninit i) [] mesh doOptimize useStructOfArrays with
    | none => simp
    | some r =>
      simp only [Option.map_some', ih]
      cases objectsBytes uninit doOptimize useStructOfArrays rest (i + 1) <;>
        simp [List.append_assoc]

/-- The bytes of a file: the file header followed by the objects written
alone. -/
theorem writeFile_eq (uninit : Nat → Nat → Nat → F32) (meshes : List (Option Mesh))
    (doOptimize useStructOfArrays : Bool) :
    writeFile uninit meshes doOptimize useStructOfArrays =
      (objectsBytes uninit doOptimize useStructOfArrays meshes 0).map
        ((createFileHeader meshes.length).bytes ++ ·) := by
  simp only [writeFile, writeFileHeader, List.nil_append, writeObjects_eq]

theorem objectsBytes_replicate (uninit : Nat → Nat → F32) (M : Mesh) (h8 : M.vertexSize = 8)
    (hv : M.vertices.length = M.numVertices * M.vertexSize) (hpos : 0 < M.numVertices) :
    ∀ (k i : Nat),
      objectsBytes (fun _ => uninit) true false (List.replicate k (some M)) i =
        some (List.replicate k (optimizedObjectBytes M)).flatten := by
  intro k
  induction k with
  | zero => intro i; simp [objectsBytes]
  | succ k ih =>
    intro i
    simp only [List.replicate_succ, objectsBytes, objectBytes,
      writeObject_optimized_aos_bytes uninit [] M h8 hv hpos, Option.map_some', List.nil_append,
      ih, List.flatten_cons]

/-- C24, amended: for every list of meshes passed to `writeFile`, whenever
every object can be written, the file starts with the six bytes
`DE AD 00 01 c 00` where the objectCount byte `c` is the number of meshes of
the list modulo 256 (the number itself for fewer than 256 meshes). -/
theorem object_count_byte (uninit : Nat → Nat → Nat → F32) (meshes : List (Option Mesh))
    (doOptimize useStructOfArrays : Bool) :
    (writeFile uninit meshes doOptimize useStructOfArrays).map (fun bytes => bytes.take 6) =
      (objectsBytes uninit doOptimize useStructOfArrays meshes 0).map
        (fun _ => [0xDE, 0xAD, 0x00, 0x01, byteOf meshes.length, 0x00]) ∧
    (byteOf meshes.length).val = meshes.length % 256 := by
  refine ⟨?_, rfl⟩
  rw [writeFile_eq]
  cases objectsBytes uninit doOptimize useStructOfArrays meshes 0 with
  | none => rfl
  | some body =>
    simp only [Option.map_some', Option.some.injEq]
    have hlen : (createFileHeader meshes.length).bytes.length = 6 := by simp [FileHeader.bytes]
    rw [List.take_append_of_le_length (le_of_eq hlen.symm), ← hlen, List.take_length]
    simp only [createFileHeader, FileHeader.bytes, byteOf, kMagicNumber0, kMagicNumber1,
      kFileFormatVersionMajor, kFileFormatVersionMinor, Nat.mod_mod]
    rfl

/-- C24, counterexample: a list of 256 meshes (256 times the square of two
triangles) written with the default options.  The file is written and its
objectCount byte, byte 4, is 0, not 256. -/
theorem object_count_byte_wraps :
    (List.replicate 256 (some squareMesh)).length = 256 ∧
    ∃ bytes, writeFile (fun _ => zeroMemory) (List.replicate 256 (some squareMesh))
        true false = some bytes ∧
      bytes[4]? = some 0 := by
  refine ⟨List.length_replicate _ _,
    (createFileHeader 256).bytes ++ (List.replicate 256 (optimizedObjectBytes squareMesh)).flatten,
    ?_, ?_⟩
  · rw [writeFile_eq, objectsBytes_replicate zeroMemory squareMesh rfl (by decide) (by decide),
      List.length_replicate]
    rfl
  · rw [List.getElem?_append_left (by simp [FileHeader.bytes])]
    decide

theorem flattenVertices_length_sum (cols : List (List F32)) :
    (flattenVertices cols).length = (cols.map List.length).sum := by
  induction cols with
  | nil => rfl
  | cons c cs ih => simp [flattenVertices, ih]

/-- The lengths of the columns of a table: the number of vertices times the
size of the slot for an enabled slot, zero otherwise. -/
theorem columnsOf_lengths (slots : List (Bool × Nat)) (arrays : List (List F32))
    (hlen : ∀ a ∈ arrays, (slots.map enabledSize).sum ≤ a.length) :
    (columnsOf slots arrays).map List.length =
      slots.map (fun slot => arrays.length * enabledSize slot) := by
  apply List.ext_getElem?
  intro k
  rw [List.getElem?_map, List.getElem?_map]
  cases hs : slots[k]? with
  | none =>
    have hk : slots.length ≤ k := by
      by_contra hc
      rw [List.getElem?_eq_getElem (by omega)] at hs
      cases hs
    rw [List.getElem?_eq_none (by rw [columnsOf_length]; exact hk)]
    rfl
  | some slot =>
    obtain ⟨has, n⟩ := slot
    rw [columnsOf_getElem? slots k has n hs arrays]
    cases has with
    | false => simp [enabledSize]
    | true =>
      have hb := scanOffset_add_le slots k n hs
      simp only [if_true, Option.map_some', enabledSize, Option.some.injEq]
      exact columnOf_length arrays _ n (fun a ha => le_trans hb (hlen a ha))

theorem columnsOf_total_length (slots : List (Bool × Nat)) (arrays : List (List F32))
    (hlen : ∀ a ∈ arrays, (slots.map enabledSize).sum ≤ a.length) :
    (flattenVertices (columnsOf slots arrays)).length =
      arrays.length * (slots.map enabledSize).sum := by
  rw [flattenVertices_length_sum, columnsOf_lengths slots arrays hlen]
  have hsum : ∀ l : List (Bool × Nat),
      (l.map (fun slot => arrays.length * enabledSize slot)).sum =
        arrays.length * (l.map enabledSize).sum := by
    intro l
    induction l with
    | nil => simp
    | cons slot rest ih => simp [ih, Nat.mul_add]
  exact hsum slots

/-- What `writeStructOfArraysData` does with the result of the transcoder: the
twelve sequences back to back, and the number of bytes converted to `int` as
the return value. -/
theorem writeStructOfArraysData_converted (out : OStream) (vertices : List Vertex)
    (vertexFlags vertexSize : Nat)
    (hlen : ∀ v ∈ vertices, calcVertexSize vertexFlags ≤ v.array.length) :
    ∃ data, convertArrayOfStructsToStructOfArrays vertices vertexFlags vertexSize = some data ∧
      writeStructOfArraysData out data =
        (out ++ floatBytes (flattenVertices data.toSlots),
          toInt32 ((4 * vertices.length * calcVertexSize vertexFlags : Nat) : Int)) ∧
      (floatBytes (flattenVertices data.toSlots)).length =
        4 * vertices.length * calcVertexSize vertexFlags ∧
      ∀ (k size : Nat), (componentSlots vertexFlags)[k]? = some (false, size) →
        data.toSlots[k]? = some [] := by
  have hcols := columnsOf_length (componentSlots vertexFlags) (vertices.map Vertex.array)
  rw [componentSlots_length] at hcols
  obtain ⟨hslots, _⟩ := toSlots_ofSlots vertexFlags _ hcols
  have hempty : ∀ (k size : Nat), (componentSlots vertexFlags)[k]? = some (false, size) →
      (columnsOf (componentSlots vertexFlags) (vertices.map Vertex.array))[k]? = some [] := by
    intro k size hs
    rw [columnsOf_getElem? _ k false size hs]
    rfl
  have htotal := columnsOf_total_length (componentSlots vertexFlags) (vertices.map Vertex.array)
    (by
      intro a ha
      simp only [List.mem_map] at ha
      obtain ⟨v, hv, rfl⟩ := ha
      rw [componentSlots_total]
      exact hlen v hv)
  rw [componentSlots_total, List.length_map] at htotal
  refine ⟨_, convertArrayOfStructsToStructOfArrays_eq vertices vertexFlags vertexSize hlen,
    ?_, ?_, ?_⟩
  · rw [hslots, writeStructOfArraysData_columns out vertexFlags _ hcols (by
      intro k n c hs hc
      rw [hempty k n hs] at hc
      exact (Option.some.inj hc).symm), htotal]
    congr 3
    ring
  · rw [hslots, floatBytes_length, htotal]
    ring
  · intro k size hs
    rw [hslots]
    exact hempty k size hs

/-- C28, counterexample: for the `ObjectData` that the transcoder produces from
`2^26` vertices of 8 floats (flags Position, Normal, UV0),
`writeStructOfArraysData` emits `4 * 2^26 * 8 = 2^31` bytes, which its `int`
counter does not hold: the value returned is `-2^31`. -/
theorem struct_of_arrays_return_value_wraps :
    (∀ v ∈ repeatedVertices, calcVertexSize 0x13 ≤ v.array.length) ∧
    repeatedVertices.length = 67108864 ∧
    4 * repeatedVertices.length * calcVertexSize 0x13 = 2147483648 ∧
    (convertArrayOfStructsToStructOfArrays repeatedVertices 0x13 8).map
        (fun data => ((writeStructOfArraysData [] data).1.length,
          (writeStructOfArraysData [] data).2)) =
      some (2147483648, -2147483648) := by
  have hlen : ∀ v ∈ repeatedVertices, calcVertexSize 0x13 ≤ v.array.length := by
    intro v hv
    rw [List.eq_of_mem_replicate hv]
    decide
  have hcalc : calcVertexSize 0x13 = 8 := by decide
  have hn : repeatedVertices.length = 67108864 := List.length_replicate _ _
  obtain ⟨data, hconv, hwrite, hbytes, -⟩ :=
    writeStructOfArraysData_converted [] repeatedVertices 0x13 8 hlen
  refine ⟨hlen, hn, by rw [hn, hcalc], ?_⟩
  rw [hconv, Option.map_some', hwrite]
  simp only [List.nil_append, hbytes, hn, hcalc, Option.some.injEq, Prod.mk.injEq]
  exact ⟨by decide, by decide⟩

/-- C28, amended: for every `ObjectData` that
`convertArrayOfStructsToStructOfArrays` produces from `n` vertices (fewer than
`2^31`, the range of the loop counter of the transcoder) and flags `f`,
`writeStructOfArraysData` appends the twelve sequences back to back in
canonical order, the sequence of a component whose flag is unset being empty,
`4 * n * calcVertexSize f` bytes in all, and returns that number converted to
`int`: the number itself when it is below `2^31`. -/
theorem struct_of_arrays_wire_data (out : OStream) (vertices : List Vertex)
    (vertexFlags vertexSize : Nat)
    (hlen : ∀ v ∈ vertices, calcVertexSize vertexFlags ≤ v.array.length)
    (hcount : vertices.length < 2147483648) :
    ∃ data, convertArrayOfStructsToStructOfArrays vertices vertexFlags vertexSize = some data ∧
      (writeStructOfArraysData out data).1 = out ++ floatBytes (flattenVertices data.toSlots) ∧
      (writeStructOfArraysData out data).2 =
        toInt32 ((4 * vertices.length * calcVertexSize vertexFlags : Nat) : Int) ∧
      (4 * vertices.length * calcVertexSize vertexFlags < 2147483648 →
        (writeStructOfArraysData out data).2 =
          ((4 * vertices.length * calcVertexSize vertexFlags : Nat) : Int)) ∧
      (floatBytes (flattenVertices data.toSlots)).length =
        4 * vertices.length * calcVertexSize vertexFlags ∧
      ∀ (k size : Nat), (componentSlots vertexFlags)[k]? = some (false, size) →
        data.toSlots[k]? = some [] := by
  obtain ⟨data, hconv, hwrite, hbytes, hempty⟩ :=
    writeStructOfArraysData_converted out vertices vertexFlags vertexSize hlen
  refine ⟨data, hconv, by rw [hwrite], by rw [hwrite], ?_, hbytes, hempty⟩
  intro hlt
  rw [hwrite]
  exact toInt32_of_lt _ hlt

/-- The witness of `struct_of_arrays_wire_data`: two 8-float vertices with the
flags Position, Normal, UV0. -/
theorem struct_of_arrays_wire_data_witness :
    (∀ v ∈ twoVertices, calcVertexSize 0x13 ≤ v.array.length) ∧
    twoVertices.length < 2147483648 ∧
    ∃ data, convertArrayOfStructsToStructOfArrays twoVertices 0x13 8 = some data ∧
      (writeStructOfArraysData [] data).1 = [] ++ floatBytes (flattenVertices data.toSlots) ∧
      (writeStructOfArraysData [] data).2 =
        toInt32 ((4 * twoVertices.length * calcVertexSize 0x13 : Nat) : Int) ∧
      (4 * twoVertices.length * calcVertexSize 0x13 < 2147483648 →
        (writeStructOfArraysData [] data).2 =
          ((4 * twoVertices.length * calcVertexSize 0x13 : Nat) : Int)) ∧
      (floatBytes (flattenVertices data.toSlots)).length =
        4 * twoVertices.length * calcVertexSize 0x13 ∧
      ∀ (k size : Nat), (componentSlots 0x13)[k]? = some (false, size) →
        data.toSlots[k]? = some [] :=
  ⟨by decide, by decide,
    struct_of_arrays_wire_data [] twoVertices 0x13 8 (by decide) (by decide)⟩

/-- C30, amended: for every object header `h` such that
`h.vertexCount * calcVertexSize h.vertexFlags` does not overflow 32 bits, and
every open stream in good state that holds the bytes at its get position,
`readArrayOfStructs` reads exactly `h.vertexCount * calcVertexSize
h.vertexFlags` floats as the interleaved vertex block, the stride being
computed from the flags of the header, not taken from its stride byte, and
then `h.indexCount` 16-bit values as the index block. -/
theorem array_of_structs_reader_block (uninit : Nat → Nat → Byte) (s : IStream)
    (h : ObjectHeader) (pre post : List Byte) (block : List F32) (indices : List Nat)
    (hc : s.content = pre ++ floatBytes block ++ indexBytes indices ++ post)
    (hp : s.pos = pre.length) (hg : s.good = true) (ho : s.isOpen = true)
    (hfit : h.vertexCount * calcVertexSize h.vertexFlags < 4294967296)
    (hb : block.length = h.vertexCount * calcVertexSize h.vertexFlags)
    (hi : indices.length = h.indexCount) (hr : ∀ x ∈ indices, x < 65536) :
    readArrayOfStructs uninit s h =
      (some { header := h, vertices := [some block], indices := indices },
        { s with pos := pre.length + 4 * (h.vertexCount * calcVertexSize h.vertexFlags) +
            2 * h.indexCount }) := by
  rw [readArrayOfStructs_blocks uninit s h pre post block indices hc hp hg ho
    (by rw [Nat.mod_eq_of_lt hfit, hb]) hi.symm hr, hb, hi]

/-- The witness of `array_of_structs_reader_block`: the header with the flag
Position alone and one vertex, on a stream of eight floats. -/
theorem array_of_structs_reader_block_witness :
    (IStream.ofBytes (floatBytes eightFloats)).content =
      [] ++ floatBytes (eightFloats.take 3) ++ indexBytes [] ++
        floatBytes (eightFloats.drop 3) ∧
    strideHeader.vertexCount * calcVertexSize strideHeader.vertexFlags < 4294967296 ∧
    (eightFloats.take 3).length =
      strideHeader.vertexCount * calcVertexSize strideHeader.vertexFlags ∧
    readArrayOfStructs zeroBytes (IStream.ofBytes (floatBytes eightFloats)) strideHeader =
      (some { header := strideHeader, vertices := [some (eightFloats.take 3)], indices := [] },
        { IStream.ofBytes (floatBytes eightFloats) with
          pos := ([] : List Byte).length +
            4 * (strideHeader.vertexCount * calcVertexSize strideHeader.vertexFlags) +
            2 * strideHeader.indexCount }) :=
  ⟨by decide, by decide, by decide,
    array_of_structs_reader_block zeroBytes (IStream.ofBytes (floatBytes eightFloats))
      strideHeader [] (floatBytes (eightFloats.drop 3)) (eightFloats.take 3) []
      (by decide) rfl rfl rfl (by decide) (by decide) rfl (by intro x hx; cases hx)⟩

/-- C30, counterexample: a header with one vertex, the stride byte 8 and the
flag Position alone, on a stream that holds eight floats.  The vertex block
that `readArrayOfStructs` reads holds 3 floats, the stride of the flags, not
`vertexCount * vertexSize = 8`, and the get position ends at byte 12. -/
theorem reader_ignores_stride_byte :
    strideHeader.Typed ∧ strideHeader.vertexCount * strideHeader.vertexSize = 8 ∧
    (readArrayOfStructs zeroBytes (IStream.ofBytes (floatBytes eightFloats)) strideHeader).1.map
        (fun bla => bla.vertices) =
      some [some [floatOfBits 1, floatOfBits 2, floatOfBits 3]] ∧
    (readArrayOfStructs zeroBytes (IStream.ofBytes (floatBytes eightFloats)) strideHeader).2.pos =
      12 := by
  decide

/-- C26, failing strides above 8: for every mesh with more than 8 floats per
vertex and at least one vertex, the weld inside the optimized `writeObject`
copies `vertexSize` floats into an array of 8, so the call has no defined
outcome and no object header is emitted, whichever layout is asked for.  For
the square of two triangles (six 8-float vertices, two of which repeat earlier
ones) the header that is written has `vertexCount = 4` and `indexCount = 6`. -/
theorem optimized_write_overflows_beyond_eight (uninit : Nat → Nat → F32) (out : OStream)
    (M : Mesh) (useStructOfArrays : Bool) (hs : 8 < M.vertexSize) (hn : 0 < M.numVertices) :
    writeObject uninit out (some M) true useStructOfArrays = none ∧
    (writeObject zeroMemory [] (some squareMesh) true false).map
        (fun r => ObjectHeader.ofBytes (r.1.take 16)) =
      some { type := 2, vertexSize := 8, vertexFlags := 0x13, vertexCount := 4,
             indexCount := 6, boneCount := 0 } := by
  refine ⟨?_, by decide⟩
  obtain ⟨k, hk⟩ : ∃ k, M.numVertices = k + 1 := ⟨M.numVertices - 1, by omega⟩
  simp only [writeObject, if_true, optimizeArrayOfStructs, hk,
    optimizeIter_overflow uninit M.vertices M.vertexSize hs _ k]

/-- The witness of `optimized_write_overflows_beyond_eight`: one vertex of
nine floats (Position, UV0, Color0). -/
theorem optimized_write_overflows_beyond_eight_witness :
    8 < nineMesh.vertexSize ∧ 0 < nineMesh.numVertices ∧
    nineMesh.WellFormed ∧ nineMesh.vertexSize = calcVertexSize nineMesh.flags ∧
    writeObject zeroMemory [] (some nineMesh) true false = none :=
  ⟨by decide, by decide, by decide, by decide,
    (optimized_write_overflows_beyond_eight zeroMemory [] nineMesh false (by decide)
      (by decide)).1⟩

/-! ## The comparison of vertices -/

theorem memcmp_trans : ∀ (a b c : List Byte) (n : Nat),
    0 < memcmp a b n → 0 < memcmp b c n → 0 < memcmp a c n
  | [], _, _, n, h, _ => by simp [memcmp] at h
  | _ :: _, [], _, n, h, _ => by simp [memcmp] at h
  | _ :: _, _ :: _, [], n, _, h => by simp [memcmp] at h
  | _ :: _, _ :: _, _ :: _, 0, h, _ => by simp [memcmp] at h
  | x :: xs, y :: ys, z :: zs, n + 1, h1, h2 => by
    simp only [memcmp] at h1 h2 ⊢
    by_cases hxy : x = y
    · subst hxy
      by_cases hxz : x = z
      · subst hxz
        simp only [if_true] at h1 h2 ⊢
        exact memcmp_trans xs ys zs n h1 h2
      · simp only [hxz, if_false, if_true] at h1 h2 ⊢
        exact h2
    · by_cases hyz : y = z
      · subst hyz
        simp only [hxy, if_false, if_true] at h1 h2 ⊢
        exact h1
      · simp only [hxy, hyz, if_false] at h1 h2
        have hxz : x ≠ z := by
          intro h
          subst h
          omega
        simp only [hxz, if_false]
        omega

/-- C37: for all vertices `a`, `b`, `c` of the same size `n` (arrays of `n`
floats), `a == b` holds if and only if their contents are identical, exactly
one of `a < b`, `a == b`, `b < a` holds, `a < b` and `b < c` imply `a < c`,
and two keys are equivalent under `operator<` (neither is less than the
other) if and only if they are equal. -/
theorem vertex_order (a b c : Vertex) (n : Nat) (ha : a.Sized n) (hb : b.Sized n)
    (hc : c.Sized n) :
    (a.eq b = true ↔ a.array = b.array) ∧
    ((a.lt b = true ∧ a.eq b = false ∧ b.lt a = false) ∨
      (a.lt b = false ∧ a.eq b = true ∧ b.lt a = false) ∨
      (a.lt b = false ∧ a.eq b = false ∧ b.lt a = true)) ∧
    (a.lt b = true → b.lt c = true → a.lt c = true) ∧
    (VertexMap.equiv a b = true ↔ a.eq b = true) := by
  obtain ⟨ha1, ha2⟩ := ha
  obtain ⟨hb1, hb2⟩ := hb
  obtain ⟨hc1, hc2⟩ := hc
  have hz := memcmp_eq_zero_iff (floatBytes a.array) (floatBytes b.array) (4 * n)
    (by rw [floatBytes_length, ha2]) (by rw [floatBytes_length, hb2])
  have hneg := memcmp_neg (floatBytes a.array) (floatBytes b.array) (4 * n)
  have htrans := memcmp_trans (floatBytes a.array) (floatBytes b.array) (floatBytes c.array)
    (4 * n)
  simp only [Vertex.lt, Vertex.eq, VertexMap.equiv, ha1, hb1, hc1, decide_eq_true_eq,
    decide_eq_false_iff_not, Bool.and_eq_true, Bool.not_eq_true', gt_iff_lt, hneg]
  refine ⟨?_, ?_, htrans, ?_⟩
  · rw [hz]
    exact ⟨fun h => floatBytes_inj _ _ h, fun h => by rw [h]⟩
  · omega
  · omega

/-- The witness of `vertex_order`: three corners of the square. -/
theorem vertex_order_witness :
    (Vertex.mk 8 (corner 0)).Sized 8 ∧ (Vertex.mk 8 (corner 1)).Sized 8 ∧
    (Vertex.mk 8 (corner 2)).Sized 8 ∧
    ((Vertex.mk 8 (corner 0)).eq (Vertex.mk 8 (corner 1)) = true ↔
      (Vertex.mk 8 (corner 0)).array = (Vertex.mk 8 (corner 1)).array) ∧
    ((Vertex.mk 8 (corner 0)).lt (Vertex.mk 8 (corner 1)) = true →
      (Vertex.mk 8 (corner 1)).lt (Vertex.mk 8 (corner 2)) = true →
      (Vertex.mk 8 (corner 0)).lt (Vertex.mk 8 (corner 2)) = true) :=
  ⟨⟨rfl, rfl⟩, ⟨rfl, rfl⟩, ⟨rfl, rfl⟩,
    (vertex_order (Vertex.mk 8 (corner 0)) (Vertex.mk 8 (corner 1)) (Vertex.mk 8 (corner 2)) 8
      ⟨rfl, rfl⟩ ⟨rfl, rfl⟩ ⟨rfl, rfl⟩).1,
    (vertex_order (Vertex.mk 8 (corner 0)) (Vertex.mk 8 (corner 1)) (Vertex.mk 8 (corner 2)) 8
      ⟨rfl, rfl⟩ ⟨rfl, rfl⟩ ⟨rfl, rfl⟩).2.2.1⟩

/-! ## The stride and its header byte -/

/-- C39: for every flags value, `calcVertexSize` is at most 36, it is 36 when
all eleven component flags are set (whatever the other bits), and the one-byte
`vertexSize` field of an object header created with it holds it unchanged. -/
theorem stride_fits_header_byte (vertexFlags headerFlags vertexCount indexCount boneCount : Nat)
    (useStructOfArrays : Bool) :
    calcVertexSize vertexFlags ≤ 36 ∧
    calcVertexSize (vertexFlags ||| 0x1FF3) = 36 ∧
    (createObjectHeader headerFlags vertexCount indexCount boneCount
      (calcVertexSize vertexFlags) useStructOfArrays).vertexSize = calcVertexSize vertexFlags := by
  obtain ⟨m0, m1, m4, m5, m6, m7, m8, m9, m10, m11, m12⟩ := testBit_layout_mask
  have hle : calcVertexSize vertexFlags ≤ 36 := by
    rw [calcVertexSize_testBit]
    have hb : ∀ b : Bool, b.toNat ≤ 1 := by decide
    have := hb (vertexFlags.testBit 0)
    have := hb (vertexFlags.testBit 1)
    have := hb (vertexFlags.testBit 4)
    have := hb (vertexFlags.testBit 5)
    have := hb (vertexFlags.testBit 6)
    have := hb (vertexFlags.testBit 7)
    have := hb (vertexFlags.testBit 8)
    have := hb (vertexFlags.testBit 9)
    have := hb (vertexFlags.testBit 10)
    have := hb (vertexFlags.testBit 11)
    have := hb (vertexFlags.testBit 12)
    omega
  refine ⟨hle, ?_, ?_⟩
  · simp only [calcVertexSize_testBit, Nat.testBit_or, m0, m1, m4, m5, m6, m7, m8, m9, m10,
      m11, m12, Bool.or_true, Bool.toNat_true]
  · simp only [createObjectHeader]
    exact Nat.mod_eq_of_lt (by omega)

/-! ## The layout of a converted mesh -/

theorem clamp_four (n : Nat) : (if n > 4 then 4 else n) = min n 4 := by
  split <;> omega

theorem convertAiMeshLayout_clamped (p q t : Bool) (n m : Nat) :
    convertAiMeshLayout ⟨p, q, n, m, t⟩ = convertAiMeshLayout ⟨p, q, min n 4, min m 4, t⟩ := by
  simp only [convertAiMeshLayout, kMaxNumTexCoords, kMaxNumColors, clamp_four, Nat.min_assoc,
    Nat.min_self]

/-- C33: for every combination of importer facts (has positions, has normals,
number of UV channels, number of colour channels, has tangents and
bitangents; channel numbers of any size), the `vertexSize` that
`convertAiMesh` accumulates equals `calcVertexSize` of the flags it sets, and
the object header created from the two satisfies
`header.vertexSize = calcVertexSize header.vertexFlags`. -/
theorem converted_stride_agrees_with_flags (aimesh : AiMesh)
    (vertexCount indexCount boneCount : Nat) (useStructOfArrays : Bool) :
    (convertAiMeshLayout aimesh).1 = calcVertexSize (convertAiMeshLayout aimesh).2 ∧
    (createObjectHeader (convertAiMeshLayout aimesh).2 vertexCount indexCount boneCount
        (convertAiMeshLayout aimesh).1 useStructOfArrays).vertexSize =
      calcVertexSize (createObjectHeader (convertAiMeshLayout aimesh).2 vertexCount indexCount
        boneCount (convertAiMeshLayout aimesh).1 useStructOfArrays).vertexFlags := by
  obtain ⟨p, q, n, m, t⟩ := aimesh
  rw [convertAiMeshLayout_clamped]
  have hn : min n 4 ≤ 4 := Nat.min_le_right _ _
  have hm : min m 4 ≤ 4 := Nat.min_le_right _ _
  generalize min n 4 = a at hn ⊢
  generalize min m 4 = b at hm ⊢
  simp only [createObjectHeader]
  interval_cases a <;> interval_cases b <;> cases p <;> cases q <;> cases t <;> decide

theorem channelMask_uv_testBit (n j : Nat) (hn : n ≤ 4) (hj : j < n) :
    (channelMask HAS_UV0 n).testBit (4 + j) = true := by
  interval_cases n <;> interval_cases j <;> decide

theorem channelMask_color_testBit (n j : Nat) (hn : n ≤ 4) (hj : j < n) :
    (channelMask HAS_COLOR0 n).testBit (8 + j) = true := by
  interval_cases n <;> interval_cases j <;> decide

theorem channelMask_lt (first n : Nat) (hfirst : first ≤ 0x100) (hn : n ≤ 4) :
    channelMask first n < 65536 := by
  have : 2 ^ n ≤ 2 ^ 4 := Nat.pow_le_pow_right (by decide) hn
  simp only [channelMask]
  calc (2 ^ n - 1) * first ≤ 15 * 0x100 := Nat.mul_le_mul (by omega) hfirst
    _ < 65536 := by decide

/-- C38: for every 16-bit flags value `f` and counts `n, m ≤ 4`, with
`g = setHasColors (setHasTexCoords f n) m`, the offset of UV channel `k` in `g`
is `texCoords0Offset g + 2 * k` for every `k < n` and the offset of colour
channel `k` is `color0Offset g + 4 * k` for every `k < m`; these are the
positions at which `convertAiMesh` stores channel `k`. -/
theorem channel_offsets_progression (f n m k : Nat) (hf : f < 65536) (hn : n ≤ 4)
    (hm : m ≤ 4) :
    (k < n →
      (layoutOffsets (setHasColors (setHasTexCoords f n) m))[2 + k]? =
          some (texCoords0Offset (setHasColors (setHasTexCoords f n) m) + 2 * k) ∧
        texCoordsStore (setHasColors (setHasTexCoords f n) m) k =
          texCoords0Offset (setHasColors (setHasTexCoords f n) m) + 2 * k) ∧
    (k < m →
      (layoutOffsets (setHasColors (setHasTexCoords f n) m))[6 + k]? =
          some (color0Offset (setHasColors (setHasTexCoords f n) m) + 4 * k) ∧
        colorStore (setHasColors (setHasTexCoords f n) m) k =
          color0Offset (setHasColors (setHasTexCoords f n) m) + 4 * k) := by
  have hg1 : setHasTexCoords f n < 65536 := by
    rw [setHasTexCoords_eq f n hf]
    exact Nat.or_lt_two_pow (n := 16) hf (channelMask_lt _ _ (by decide) (Nat.min_le_right _ _))
  have hg : setHasColors (setHasTexCoords f n) m =
      f ||| channelMask HAS_UV0 n ||| channelMask HAS_COLOR0 m := by
    rw [setHasColors_eq _ m hg1, setHasTexCoords_eq f n hf, Nat.min_eq_left hn,
      Nat.min_eq_left hm]
  generalize setHasColors (setHasTexCoords f n) m = g at hg
  obtain ⟨-, -, h4, h5, h6, h7, h8, h9, h10, h11, -⟩ := has_eq_testBit g
  have huv : ∀ j, j < n → g.testBit (4 + j) = true := by
    intro j hj
    rw [hg, Nat.testBit_or, Nat.testBit_or, channelMask_uv_testBit n j hn hj]
    simp
  have hcol : ∀ j, j < m → g.testBit (8 + j) = true := by
    intro j hj
    rw [hg, Nat.testBit_or, channelMask_color_testBit m j hm hj]
    simp
  clear hg
  have e0 : 0 < n → hasTexCoords0 g = true := fun h => by rw [h4]; exact huv 0 h
  have e1 : 1 < n → hasTexCoords1 g = true := fun h => by rw [h5]; exact huv 1 h
  have e2 : 2 < n → hasTexCoords2 g = true := fun h => by rw [h6]; exact huv 2 h
  have c0 : 0 < m → hasColor0 g = true := fun h => by rw [h8]; exact hcol 0 h
  have c1 : 1 < m → hasColor1 g = true := fun h => by rw [h9]; exact hcol 1 h
  have c2 : 2 < m → hasColor2 g = true := fun h => by rw [h10]; exact hcol 2 h
  clear h4 h5 h6 h7 h8 h9 h10 h11 huv hcol
  refine ⟨fun hk => ⟨?_, by simp only [texCoordsStore, kTextureSize, Nat.mul_comm]⟩,
    fun hk => ⟨?_, by simp only [colorStore, kColorSize, Nat.mul_comm]⟩⟩
  · have hk4 : k < 4 := by omega
    interval_cases k
    · rfl
    · simp [layoutOffsets, texCoords1Offset, e0 (by omega), kTextureSize]
    · simp [layoutOffsets, texCoords1Offset, texCoords2Offset, e0 (by omega), e1 (by omega),
        kTextureSize]
    · simp [layoutOffsets, texCoords1Offset, texCoords2Offset, texCoords3Offset, e0 (by omega),
        e1 (by omega), e2 (by omega), kTextureSize]
  · have hk4 : k < 4 := by omega
    interval_cases k
    · rfl
    · simp [layoutOffsets, color1Offset, c0 (by omega), kColorSize]
    · simp [layoutOffsets, color1Offset, color2Offset, c0 (by omega), c1 (by omega), kColorSize]
    · simp [layoutOffsets, color1Offset, color2Offset, color3Offset, c0 (by omega),
        c1 (by omega), c2 (by omega), kColorSize]

/-- The witness of `channel_offsets_progression`: three UV channels and two
colour channels set on empty flags, channel 1. -/
theorem channel_offsets_progression_witness :
    (0 : Nat) < 65536 ∧ 3 ≤ 4 ∧ 2 ≤ 4 ∧ 1 < 3 ∧ 1 < 2 ∧
    (layoutOffsets (setHasColors (setHasTexCoords 0 3) 2))[2 + 1]? =
      some (texCoords0Offset (setHasColors (setHasTexCoords 0 3) 2) + 2 * 1) ∧
    (layoutOffsets (setHasColors (setHasTexCoords 0 3) 2))[6 + 1]? =
      some (color0Offset (setHasColors (setHasTexCoords 0 3) 2) + 4 * 1) :=
  ⟨by decide, by decide, by decide, by decide, by decide,
    ((channel_offsets_progression 0 3 2 1 (by decide) (by decide) (by decide)).1
      (by decide)).1,
    ((channel_offsets_progression 0 3 2 1 (by decide) (by decide) (by decide)).2
      (by decide)).1⟩

/-! ## Column extraction and the transcoder -/

theorem rawVertices_arrays (M : Mesh) :
    (rawVertices M).map Vertex.array = windows M.vertices M.vertexSize M.numVertices := by
  simp only [rawVertices, List.map_map]
  exact List.map_id _

theorem rawVertices_fit (M : Mesh) (hv : M.vertices.length = M.numVertices * M.vertexSize) :
    ∀ u ∈ rawVertices M, M.vertexSize ≤ u.array.length := by
  intro u hu
  simp only [rawVertices, windows, List.mem_map, List.mem_range] at hu
  obtain ⟨a, ⟨i, hi, rfl⟩, rfl⟩ := hu
  have hle : (i + 1) * M.vertexSize ≤ M.vertices.length := by
    rw [hv]
    exact Nat.mul_le_mul_right _ hi
  exact le_of_eq (window_length M.vertices M.vertexSize i hle).symm

/-- C36, counterexample: for the well-formed mesh `uvMesh` (one vertex, UV0
only, `vertexSize = calcVertexSize flags = 2`) the unoptimized
struct-of-arrays `writeObject` emits no vertex data at all (the layout
calculator places UV0 at offset 3, beyond the buffer), whereas the transcoder
followed by `writeStructOfArraysData` emits the eight bytes of the two
floats. -/
theorem unoptimized_soa_extraction_without_positions :
    uvMesh.WellFormed ∧ uvMesh.vertexSize = calcVertexSize uvMesh.flags ∧
    writeColumns [] uvMesh = some [] ∧
    writeObject zeroMemory [] (some uvMesh) false true =
      some ((createObjectHeader uvMesh.flags 1 6 0 2 true).bytes ++ [] ++
        indexBytes uvMesh.indices, true) ∧
    (convertArrayOfStructsToStructOfArrays (rawVertices uvMesh) uvMesh.flags
        uvMesh.vertexSize).map (fun data => (writeStructOfArraysData [] data).1) =
      some (floatBytes [floatOfBits 1, floatOfBits 2]) := by
  decide

/-- C36, amended: for every mesh `M` with the Position flag set,
`M.vertexSize = calcVertexSize M.flags`, buffers of the declared lengths and a
vertex buffer of fewer than `2^31` floats (the range of the loop counter of
`writeElementArray`), the vertex-data bytes that `writeObject` emits for
(doOptimize = false, useStructOfArrays = true) are the bytes that
`writeStructOfArraysData` emits for the result of
`convertArrayOfStructsToStructOfArrays` on the vertices of `M` taken in
original order without deduplication. -/
theorem unoptimized_soa_extraction_agrees (uninit : Nat → Nat → F32) (out : OStream) (M : Mesh)
    (hp : hasPositions M.flags = true) (hcalc : M.vertexSize = calcVertexSize M.flags)
    (hv : M.vertices.length = M.numVertices * M.vertexSize)
    (hi : M.indices.length = M.numIndices)
    (hfit : M.numVertices * M.vertexSize < 2147483648) :
    ∃ data, convertArrayOfStructsToStructOfArrays (rawVertices M) M.flags M.vertexSize =
        some data ∧
      writeColumns out M = some (writeStructOfArraysData out data).1 ∧
      writeObject uninit out (some M) false true =
        some ((writeStructOfArraysData
            (out ++ (createObjectHeader M.flags M.numVertices M.numIndices M.numBones
              M.vertexSize true).bytes) data).1 ++ indexBytes M.indices, true) := by
  have hfit : ∀ u ∈ rawVertices M, calcVertexSize M.flags ≤ u.array.length := by
    rw [← hcalc]
    exact rawVertices_fit M hv
  have hcols := columnsOf_length (componentSlots M.flags)
    (windows M.vertices M.vertexSize M.numVertices)
  rw [componentSlots_length] at hcols
  have hempty : ∀ (k n : Nat) (c : List F32),
      (componentSlots M.flags)[k]? = some (false, n) →
      (columnsOf (componentSlots M.flags) (windows M.vertices M.vertexSize M.numVertices))[k]? =
        some c → c = [] := by
    intro k n c hs hc
    rw [columnsOf_getElem? _ k false n hs] at hc
    simpa using hc.symm
  have hconv := convertArrayOfStructsToStructOfArrays_eq (rawVertices M) M.flags M.vertexSize hfit
  rw [rawVertices_arrays] at hconv
  refine ⟨_, hconv, ?_, ?_⟩
  · rw [writeStructOfArraysData_columns out M.flags _ hcols hempty]
    exact writeColumns_eq out M hp hcalc (le_of_eq hv.symm)
  · rw [writeStructOfArraysData_columns _ M.flags _ hcols hempty]
    exact writeObject_unoptimized_soa uninit out M hp hcalc hv hi

/-- The witness of `unoptimized_soa_extraction_agrees`: the square mesh. -/
theorem unoptimized_soa_extraction_agrees_witness :
    hasPositions squareMesh.flags = true ∧
    squareMesh.vertexSize = calcVertexSize squareMesh.flags ∧
    squareMesh.vertices.length = squareMesh.numVertices * squareMesh.vertexSize ∧
    squareMesh.indices.length = squareMesh.numIndices ∧
    squareMesh.numVertices * squareMesh.vertexSize < 2147483648 ∧
    ∃ data, convertArrayOfStructsToStructOfArrays (rawVertices squareMesh) squareMesh.flags
        squareMesh.vertexSize = some data ∧
      writeColumns [] squareMesh = some (writeStructOfArraysData [] data).1 ∧
      writeObject zeroMemory [] (some squareMesh) false true =
        some ((writeStructOfArraysData
            ([] ++ (createObjectHeader squareMesh.flags squareMesh.numVertices
              squareMesh.numIndices squareMesh.numBones squareMesh.vertexSize true).bytes)
            data).1 ++ indexBytes squareMesh.indices, true) :=
  ⟨by decide, by decide, by decide, by decide, by decide,
    unoptimized_soa_extraction_agrees zeroMemory [] squareMesh (by decide) (by decide)
      (by decide) (by decide) (by decide)⟩

/-! ## The struct-of-arrays reader and the Normal flag -/

theorem readDataIf_getElem?_ne (uninit : Nat → Nat → Byte) (has : Bool)
    (st : List (Option (List F32)) × IStream) (slot elementSize vertexCount j : Nat)
    (h : slot ≠ j) :
    (readDataIf uninit has st slot elementSize vertexCount).1[j]? = st.1[j]? := by
  cases has <;> simp [readDataIf, List.getElem?_set_ne h]

/-- C31, failing headers: for every object header and every open stream,
`readStructOfArrays` fills the Normal slot (slot 1) exactly when the Position
flag is set, whatever the Normal flag says: it reads a normal block for a
header with Position and without Normal, and none for a header with Normal and
without Position.  For the object that `writeObject` emits for `positionMesh`
(Position only, two vertices, indices 0, 1, 1) the reader takes the six index
bytes for the start of a normal block and returns the indices 0, 0, 0. -/
theorem soa_reader_reads_normals_under_position_flag (uninit : Nat → Nat → Byte)
    (inp : IStream) (object : ObjectHeader) (ho : inp.isOpen = true) :
    (∃ bla inp', readStructOfArrays uninit inp object = (some bla, inp') ∧
      (bla.vertices[1]? = some none ↔ hasPositions object.vertexFlags = false)) ∧
    positionMesh.WellFormed ∧ positionMesh.vertexSize = calcVertexSize positionMesh.flags ∧
    hasNormals positionMesh.flags = false ∧
    ((writeObject zeroMemory [] (some positionMesh) false true).bind
        (fun r => readObjectBack zeroBytes r.1 true)).map
        (fun bla => (bla.vertices[1]?, bla.indices)) =
      some (some (some [floatOfBits 65536, floatOfBits 1, floatOfBits 0, floatOfBits 0,
        floatOfBits 0, floatOfBits 0]), [0, 0, 0]) := by
  refine ⟨?_, by decide, by decide, by decide, by decide⟩
  simp only [readStructOfArrays, ho, Bool.not_true, Bool.false_eq_true, if_false]
  refine ⟨_, _, rfl, ?_⟩
  simp only [readDataIf_getElem?_ne _ _ _ 2 _ _ 1 (by decide),
    readDataIf_getElem?_ne _ _ _ 3 _ _ 1 (by decide),
    readDataIf_getElem?_ne _ _ _ 4 _ _ 1 (by decide),
    readDataIf_getElem?_ne _ _ _ 5 _ _ 1 (by decide),
    readDataIf_getElem?_ne _ _ _ 6 _ _ 1 (by decide),
    readDataIf_getElem?_ne _ _ _ 7 _ _ 1 (by decide),
    readDataIf_getElem?_ne _ _ _ 8 _ _ 1 (by decide),
    readDataIf_getElem?_ne _ _ _ 9 _ _ 1 (by decide),
    readDataIf_getElem?_ne _ _ _ 10 _ _ 1 (by decide),
    readDataIf_getElem?_ne _ _ _ 11 _ _ 1 (by decide)]
  cases hasPositions object.vertexFlags <;> simp [readDataIf]

/-- The witness of `soa_reader_reads_normals_under_position_flag`: a header
with the flag Normal alone, read from an empty open stream. -/
theorem soa_reader_reads_normals_under_position_flag_witness :
    (IStream.ofBytes []).isOpen = true ∧
    ∃ bla inp', readStructOfArrays zeroBytes (IStream.ofBytes [])
        { type := 1, vertexSize := 3, vertexFlags := 0x2, vertexCount := 1, indexCount := 0,
          boneCount := 0 } = (some bla, inp') ∧
      (bla.vertices[1]? = some none ↔
        hasPositions (ObjectHeader.vertexFlags
          { type := 1, vertexSize := 3, vertexFlags := 0x2, vertexCount := 1, indexCount := 0,
            boneCount := 0 }) = false) :=
  ⟨rfl, (soa_reader_reads_normals_under_position_flag zeroBytes (IStream.ofBytes [])
    { type := 1, vertexSize := 3, vertexFlags := 0x2, vertexCount := 1, indexCount := 0,
      boneCount := 0 } rfl).1⟩

/-! ## Reading from a stream that is too short -/

theorem freshBytes_length (uninit : Nat → Nat → Byte) (a n : Nat) :
    (freshBytes uninit a n).length = n := by
  simp [freshBytes]

/-- What a `read` leaves of the stream: it stays open with the same contents,
and it is good afterwards only if it was good and held the bytes asked for,
which are then consumed. -/
theorem readInto_state (s : IStream) (prior : List Byte) :
    (s.readInto prior).2.isOpen = s.isOpen ∧
    ((s.readInto prior).2.good = true →
      s.good = true ∧ prior.length ≤ s.available ∧
      (s.readInto prior).2.available = s.available - prior.length) := by
  simp only [IStream.readInto, IStream.read, IStream.available]
  by_cases h : (s.isOpen && s.good) = true
  · simp only [h, if_true]
    rw [Bool.and_eq_true] at h
    by_cases hn : prior.length ≤ (s.content.drop s.pos).length
    · simp only [hn, if_true]
      rw [List.length_drop] at hn
      exact ⟨trivial, fun _ => ⟨h.2, hn, by omega⟩⟩
    · simp only [hn, if_false]
      exact ⟨trivial, fun hg => by simp at hg⟩
  · rw [if_neg h]
    exact ⟨rfl, fun hg => by simp at hg⟩

theorem readDataIf_state (uninit : Nat → Nat → Byte) (has : Bool)
    (st : List (Option (List F32)) × IStream) (slot elementSize vertexCount : Nat) :
    (readDataIf uninit has st slot elementSize vertexCount).2.isOpen = st.2.isOpen ∧
    ((readDataIf uninit has st slot elementSize vertexCount).2.good = true →
      st.2.good = true ∧ slotLength vertexCount (has, elementSize) * 4 ≤ st.2.available ∧
      (readDataIf uninit has st slot elementSize vertexCount).2.available =
        st.2.available - slotLength vertexCount (has, elementSize) * 4) := by
  cases has with
  | false => simp [readDataIf, slotLength]
  | true =>
    have h := readInto_state st.2
      (freshBytes uninit slot ((elementSize * vertexCount) % 4294967296 * 4))
    rw [freshBytes_length] at h
    simpa [readDataIf, readData, slotLength] using h

theorem readSlots_state (uninit : Nat → Nat → Byte) (vertexCount : Nat) :
    ∀ (slots : List (Bool × Nat)) (k : Nat) (st : List (Option (List F32)) × IStream),
      (readSlots uninit vertexCount slots k st).2.isOpen = st.2.isOpen ∧
      ((readSlots uninit vertexCount slots k st).2.good = true →
        st.2.good = true ∧ (slots.map (slotLength vertexCount)).sum * 4 ≤ st.2.available ∧
        (readSlots uninit vertexCount slots k st).2.available =
          st.2.available - (slots.map (slotLength vertexCount)).sum * 4)
  | [], k, st => by simp [readSlots]
  | (has, size) :: rest, k, st => by
    obtain ⟨ho, hg⟩ := readSlots_state uninit vertexCount rest (k + 1)
      (readDataIf uninit has st k size vertexCount)
    obtain ⟨ho1, hg1⟩ := readDataIf_state uninit has st k size vertexCount
    simp only [readSlots, List.map_cons, List.sum_cons]
    refine ⟨ho.trans ho1, fun h => ?_⟩
    obtain ⟨g1, l1, a1⟩ := hg h
    obtain ⟨g0, l0, a0⟩ := hg1 g1
    refine ⟨g0, ?_, ?_⟩
    · rw [a0] at l1; omega
    · rw [a1, a0]; omega

/-- C32, counterexample: an open stream that holds no byte at all.
`readObjectHeader` returns a header of zeros, and for a header that announces
one vertex with a position and three indices (18 bytes of data)
`readArrayOfStructs` and `readStructOfArrays` return a decoded object whose
arrays hold what the fresh memory held; none of them returns a null pointer. -/
theorem truncated_stream_returns_object :
    (IStream.ofBytes []).available < 16 ∧
    (IStream.ofBytes []).available < arrayOfStructsBytes triangleHeader ∧
    (IStream.ofBytes []).available < structOfArraysBytes triangleHeader ∧
    (readObjectHeader (IStream.ofBytes [])).1 =
      some { type := 0, vertexSize := 0, vertexFlags := 0, vertexCount := 0, indexCount := 0,
             boneCount := 0 } ∧
    (readArrayOfStructs zeroBytes (IStream.ofBytes []) triangleHeader).1 =
      some { header := triangleHeader,
             vertices := [some [floatOfBits 0, floatOfBits 0, floatOfBits 0]],
             indices := [0, 0, 0] } ∧
    ((readStructOfArrays zeroBytes (IStream.ofBytes []) triangleHeader).1.map
        (fun bla => (bla.vertices[0]?, bla.indices))) =
      some (some (some [floatOfBits 0, floatOfBits 0, floatOfBits 0]), [0, 0, 0]) := by
  decide

/-- C32, amended: on an open stream, `readObjectHeader`, `readArrayOfStructs`
and `readStructOfArrays` always return a header or a decoded object, also when
the stream holds fewer bytes than the section being read requires (16 bytes
for an object header; the vertex-data and index-data sizes computed from the
header for the two data readers); the shortage shows in the state of the
stream only, which is not good afterwards, and a header read from a good
stream that is too short holds the bytes that were left followed by zeros. -/
theorem truncated_stream_sets_stream_state (uninit : Nat → Nat → Byte) (inp : IStream)
    (object : ObjectHeader) (ho : inp.isOpen = true) :
    (∃ header inp', readObjectHeader inp = (some header, inp') ∧
      (inp.available < 16 → inp'.good = false) ∧
      (inp.good = true → inp.available < 16 →
        header = ObjectHeader.ofBytes
          (inp.content.drop inp.pos ++ List.replicate (16 - inp.available) 0))) ∧
    (∃ bla inp', readArrayOfStructs uninit inp object = (some bla, inp') ∧
      bla.header = object ∧
      (inp.available < arrayOfStructsBytes object → inp'.good = false)) ∧
    (∃ bla inp', readStructOfArrays uninit inp object = (some bla, inp') ∧
      bla.header = object ∧
      (inp.available < structOfArraysBytes object → inp'.good = false)) := by
  refine ⟨?_, ?_, ?_⟩
  · simp only [readObjectHeader, ho, Bool.not_true, Bool.false_eq_true, if_false]
    refine ⟨_, _, rfl, ?_, ?_⟩
    · intro hlt
      have h := (readInto_state inp (List.replicate 16 0)).2
      rw [List.length_replicate] at h
      cases hg : (inp.readInto (List.replicate 16 0)).2.good with
      | false => rfl
      | true => have := (h hg).2.1; omega
    · intro hg hlt
      have hlen : ¬ 16 ≤ inp.content.length - inp.pos := by
        simp only [IStream.available] at hlt
        omega
      simp only [IStream.readInto, IStream.read, ho, hg, Bool.and_self, if_true,
        List.length_replicate, hlen, if_false, List.drop_replicate, IStream.available,
        List.length_drop]
  · simp only [readArrayOfStructs, ho, Bool.not_true, Bool.false_eq_true, if_false]
    refine ⟨_, _, rfl, rfl, ?_⟩
    intro hlt
    generalize hv : freshBytes uninit 0
      ((object.vertexCount * calcVertexSize object.vertexFlags) % 4294967296 * 4) = pv
    generalize hi : freshBytes uninit 1 (object.indexCount * 2) = pi
    have hvl : pv.length =
        (object.vertexCount * calcVertexSize object.vertexFlags) % 4294967296 * 4 := by
      rw [← hv, freshBytes_length]
    have hil : pi.length = object.indexCount * 2 := by rw [← hi, freshBytes_length]
    have h1 := (readInto_state inp pv).2
    have h2 := (readInto_state (inp.readInto pv).2 pi).2
    cases hg : ((inp.readInto pv).2.readInto pi).2.good with
    | false => rfl
    | true =>
      obtain ⟨g1, l1, a1⟩ := h2 hg
      obtain ⟨-, l0, a0⟩ := h1 g1
      simp only [arrayOfStructsBytes] at hlt
      omega
  · rw [readStructOfArrays_eq_readSlots uninit inp object ho]
    refine ⟨_, _, rfl, rfl, ?_⟩
    intro hlt
    generalize hi : freshBytes uninit 12 (object.indexCount * 2) = pi
    have hil : pi.length = object.indexCount * 2 := by rw [← hi, freshBytes_length]
    have h1 := (readSlots_state uninit object.vertexCount (readerSlots object.vertexFlags) 0
      (List.replicate 12 none, inp)).2
    dsimp only at h1
    generalize readSlots uninit object.vertexCount (readerSlots object.vertexFlags) 0
      (List.replicate 12 none, inp) = st at h1 ⊢
    have h2 := (readInto_state st.2 pi).2
    cases hg : (st.2.readInto pi).2.good with
    | false => rfl
    | true =>
      obtain ⟨g1, l1, a1⟩ := h2 hg
      obtain ⟨-, l0, a0⟩ := h1 g1
      simp only [structOfArraysBytes] at hlt
      omega

/-- The witness of `truncated_stream_sets_stream_state`: the empty open stream
and a header that announces 18 bytes of data. -/
theorem truncated_stream_sets_stream_state_witness :
    (IStream.ofBytes []).isOpen = true ∧
    (∃ header inp', readObjectHeader (IStream.ofBytes []) = (some header, inp') ∧
      ((IStream.ofBytes []).available < 16 → inp'.good = false) ∧
      ((IStream.ofBytes []).good = true → (IStream.ofBytes []).available < 16 →
        header = ObjectHeader.ofBytes
          ((IStream.ofBytes []).content.drop (IStream.ofBytes []).pos ++
            List.replicate (16 - (IStream.ofBytes []).available) 0))) ∧
    (∃ bla inp', readArrayOfStructs zeroBytes (IStream.ofBytes []) triangleHeader =
        (some bla, inp') ∧ bla.header = triangleHeader ∧
      ((IStream.ofBytes []).available < arrayOfStructsBytes triangleHeader →
        inp'.good = false)) :=
  ⟨rfl,
    (truncated_stream_sets_stream_state zeroBytes (IStream.ofBytes []) triangleHeader rfl).1,
    (truncated_stream_sets_stream_state zeroBytes (IStream.ofBytes []) triangleHeader rfl).2.1⟩

/-! ## The buffers of the writer -/

/-- C40, failing meshes: for every mesh without vertices, and for every mesh of
more than 8 floats per vertex, the optimized array-of-structs `writeObject`
has no defined outcome: with no vertex the weld returns an empty list of
unique vertices and `writeArrayOfStructsData` reads the size of its first
element; with a stride above 8 the weld copies `vertexSize` floats into an
array of 8.  The mesh `emptyMesh` is well formed with
`vertexSize = calcVertexSize flags`.  The unoptimized struct-of-arrays
`writeObject` of the well-formed mesh `uvPairMesh` (two vertices, UV0 only)
reads two floats at offset 3 of a buffer of four floats. -/
theorem writer_leaves_its_buffers (uninit : Nat → Nat → F32) (out : OStream) (M : Mesh)
    (h : M.numVertices = 0 ∨ 8 < M.vertexSize) :
    writeObject uninit out (some M) true false = none ∧
    emptyMesh.WellFormed ∧ emptyMesh.vertexSize = calcVertexSize emptyMesh.flags ∧
    uvPairMesh.WellFormed ∧ uvPairMesh.vertexSize = calcVertexSize uvPairMesh.flags ∧
    writeObject zeroMemory [] (some uvPairMesh) false true = none := by
  refine ⟨?_, by decide, by decide, by decide, by decide, by decide⟩
  by_cases h0 : M.numVertices = 0
  · simp [writeObject, optimizeArrayOfStructs, optimizeIter, h0, writeArrayOfStructsData]
  · have hs : 8 < M.vertexSize := h.resolve_left h0
    obtain ⟨k, hk⟩ : ∃ k, M.numVertices = k + 1 := ⟨M.numVertices - 1, by omega⟩
    simp only [writeObject, if_true, optimizeArrayOfStructs, hk,
      optimizeIter_overflow uninit M.vertices M.vertexSize hs _ k]

/-- The witness of `writer_leaves_its_buffers`: the mesh without vertices. -/
theorem writer_leaves_its_buffers_witness :
    (emptyMesh.numVertices = 0 ∨ 8 < emptyMesh.vertexSize) ∧
    writeObject zeroMemory [] (some emptyMesh) true false = none :=
  ⟨Or.inl rfl, (writer_leaves_its_buffers zeroMemory [] emptyMesh (Or.inl rfl)).1⟩

/-! ## The command parser -/

theorem StringMap.find_map_assign {V : Type} (key : String) (value : V) (k : String) :
    ∀ (l : StringMap V),
      StringMap.find (l.map (fun e => if e.1 = key then (e.1, value) else e)) k =
        if k = key then (StringMap.find l k).map (fun _ => value) else StringMap.find l k
  | [] => by simp [StringMap.find]
  | e :: rest => by
    have ih := StringMap.find_map_assign key value k rest
    simp only [List.map_cons, StringMap.find]
    by_cases he : e.1 = key
    · by_cases hk : k = key
      · simp [he, hk]
      · have : ¬ key = k := fun h => hk h.symm
        simp only [he, if_true, hk, if_false, this]
        simpa [hk] using ih
    · by_cases hk : k = key
      · have hne : ¬ e.1 = k := fun h => he (h.trans hk)
        simp only [he, if_false, hne, hk, if_true]
        simpa [hk] using ih
      · simp only [he, if_false, hk]
        by_cases hek : e.1 = k
        · simp [hek]
        · simp only [hek, if_false]
          simpa [hk] using ih

theorem StringMap.find_append_entry {V : Type} (key : String) (value : V) (k : String) :
    ∀ (l : StringMap V),
      StringMap.find (l ++ [(key, value)]) k =
        match StringMap.find l k with
        | some v => some v
        | none => if k = key then some value else none
  | [] => by
    simp only [List.nil_append, StringMap.find]
    by_cases hk : k = key
    · simp [hk]
    · have : ¬ key = k := fun h => hk h.symm
      simp [hk, this]
  | e :: rest => by
    have ih := StringMap.find_append_entry key value k rest
    simp only [List.cons_append, StringMap.find]
    by_cases hek : e.1 = k
    · simp [hek]
    · simp only [hek, if_false]
      exact ih

theorem StringMap.find_assign {V : Type} (m : StringMap V) (key : String) (value : V)
    (k : String) :
    StringMap.find (StringMap.assign m key value) k =
      if k = key then some value else StringMap.find m k := by
  simp only [StringMap.assign]
  cases hf : StringMap.find m key with
  | some v =>
    simp only [StringMap.find_map_assign]
    by_cases hk : k = key
    · simp [hk, hf]
    · simp [hk]
  | none =>
    simp only [StringMap.find_append_entry]
    by_cases hk : k = key
    · simp [hk, hf]
    · simp only [hk, if_false]
      cases StringMap.find m k <;> rfl

/-- One step of the scan, whatever follows the argument. -/
theorem scanItems_cons (mOptions : StringMap Bool) (arg : String) (rest : List String) :
    scanItems mOptions (arg :: rest) =
      match StringMap.find mOptions arg with
      | none =>
        if startsWithDash arg then none
        else (scanItems mOptions rest).map (ArgItem.trailing arg :: ·)
      | some false => (scanItems mOptions rest).map (ArgItem.flag arg :: ·)
      | some true =>
        match rest with
        | [] => none
        | value :: rest' =>
          if startsWithDash value then none
          else (scanItems mOptions rest').map (ArgItem.valued arg value :: ·) := by
  cases rest with
  | nil =>
    conv_lhs => rw [scanItems]
    cases hf : StringMap.find mOptions arg with
    | none => cases hd : startsWithDash arg <;> simp [scanItems, hd]
    | some kind => cases kind <;> simp [scanItems]
  | cons value rest' => conv_lhs => rw [scanItems]

theorem record_argList (p : CommandParser) (l : List String) (item : ArgItem) :
    CommandParser.record { p with mArgList := l } item =
      { CommandParser.record p item with mArgList := l } := by
  cases item <;> rfl

theorem foldl_record_argList : ∀ (items : List ArgItem) (p : CommandParser) (l : List String),
    items.foldl CommandParser.record { p with mArgList := l } =
      { items.foldl CommandParser.record p with mArgList := l }
  | [], p, l => rfl
  | item :: items, p, l => by
    simp only [List.foldl_cons]
    rw [record_argList, foldl_record_argList items _ l]

/-- The step of `parseLoop_items`: the results of the remaining items, started
from the parser that the iteration leaves. -/
theorem foldl_record_step (items : List ArgItem) (p : CommandParser) (item : ArgItem)
    (l : List String) :
    ({ items.foldl CommandParser.record { CommandParser.record p item with mArgList := l } with
        mArgList := [] } : CommandParser) =
      { (item :: items).foldl CommandParser.record p with mArgList := [] } := by
  rw [foldl_record_argList]
  rfl

/-- The loop of `parse` on arguments that the scan goes through: it ends with
an empty argument list, status 0 and the results of the items, one after the
other. -/
theorem parseLoop_items : ∀ (fuel : Nat) (p : CommandParser) (items : List ArgItem),
    p.mArgList.length ≤ fuel → scanItems p.mOptions p.mArgList = some items →
    CommandParser.parseLoop fuel p = ({ items.foldl CommandParser.record p with mArgList := [] }, 0)
  | 0, p, items, hlen, hscan => by
    have hnil : p.mArgList = [] := List.length_eq_zero.mp (Nat.le_zero.mp hlen)
    rw [hnil, scanItems] at hscan
    cases hscan
    simp only [CommandParser.parseLoop, List.foldl_nil]
    rw [← hnil]
  | fuel + 1, p, items, hlen, hscan => by
    rw [CommandParser.parseLoop]
    cases hargs : p.mArgList with
    | nil =>
      rw [hargs, scanItems] at hscan
      cases hscan
      simp only [List.foldl_nil]
      rw [← hargs]
    | cons arg rest =>
      rw [hargs, scanItems_cons] at hscan
      rw [hargs] at hlen
      simp only [List.length_cons] at hlen
      simp only
      cases hf : StringMap.find p.mOptions arg with
      | none =>
        rw [hf] at hscan
        simp only at hscan ⊢
        cases hd : startsWithDash arg with
        | true => simp [hd] at hscan
        | false =>
          simp only [hd, Bool.false_eq_true, if_false, Option.map_eq_some'] at hscan
          obtain ⟨tail, htail, rfl⟩ := hscan
          simp only [Bool.not_false, if_true]
          rw [parseLoop_items fuel _ tail (by simpa using Nat.le_of_succ_le_succ hlen)
            (by simpa using htail)]
          exact congrArg (fun q => (q, (0 : Int)))
            (foldl_record_step tail p (ArgItem.trailing arg) rest)
      | some kind =>
        rw [hf] at hscan
        cases kind with
        | false =>
          simp only [Option.map_eq_some'] at hscan ⊢
          obtain ⟨tail, htail, rfl⟩ := hscan
          rw [parseLoop_items fuel _ tail (by simpa using Nat.le_of_succ_le_succ hlen)
            (by simpa using htail)]
          exact congrArg (fun q => (q, (0 : Int)))
            (foldl_record_step tail p (ArgItem.flag arg) rest)
        | true =>
          cases rest with
          | nil => simp at hscan
          | cons value rest' =>
            simp only at hscan ⊢
            cases hd : startsWithDash value with
            | true => simp [hd] at hscan
            | false =>
              simp only [hd, Bool.false_eq_true, if_false, Option.map_eq_some'] at hscan
              obtain ⟨tail, htail, rfl⟩ := hscan
              simp only [Bool.not_false, if_true]
              simp only [List.length_cons] at hlen
              rw [parseLoop_items fuel _ tail (by simp only; omega) (by simpa using htail)]
              exact congrArg (fun q => (q, (0 : Int)))
                (foldl_record_step tail p (ArgItem.valued arg value) rest')

/-- The loop of `parse` on arguments that the scan does not go through: it is
left with status -1. -/
theorem parseLoop_fails : ∀ (fuel : Nat) (p : CommandParser),
    p.mArgList.length ≤ fuel → scanItems p.mOptions p.mArgList = none →
    (CommandParser.parseLoop fuel p).2 = -1
  | 0, p, hlen, hscan => by
    have hnil : p.mArgList = [] := List.length_eq_zero.mp (Nat.le_zero.mp hlen)
    rw [hnil, scanItems] at hscan
    cases hscan
  | fuel + 1, p, hlen, hscan => by
    rw [CommandParser.parseLoop]
    cases hargs : p.mArgList with
    | nil =>
      rw [hargs, scanItems] at hscan
      cases hscan
    | cons arg rest =>
      rw [hargs, scanItems_cons] at hscan
      rw [hargs] at hlen
      simp only [List.length_cons] at hlen
      simp only
      cases hf : StringMap.find p.mOptions arg with
      | none =>
        rw [hf] at hscan
        simp only at hscan ⊢
        cases hd : startsWithDash arg with
        | true => simp
        | false =>
          simp only [hd, Bool.false_eq_true, if_false, Option.map_eq_none'] at hscan
          simp only [Bool.not_false, if_true]
          exact parseLoop_fails fuel _ (by simpa using Nat.le_of_succ_le_succ hlen)
            (by simpa using hscan)
      | some kind =>
        rw [hf] at hscan
        cases kind with
        | false =>
          simp only [Option.map_eq_none'] at hscan ⊢
          exact parseLoop_fails fuel _ (by simpa using Nat.le_of_succ_le_succ hlen)
            (by simpa using hscan)
        | true =>
          cases rest with
          | nil => simp
          | cons value rest' =>
            simp only at hscan ⊢
            cases hd : startsWithDash value with
            | true => simp
            | false =>
              simp only [hd, Bool.false_eq_true, if_false, Option.map_eq_none'] at hscan
              simp only [Bool.not_false, if_true]
              simp only [List.length_cons] at hlen
              exact parseLoop_fails fuel _ (by simp only; omega) (by simpa using hscan)

/-! ### The results of a list of items -/

theorem foldl_record_mOptions : ∀ (items : List ArgItem) (p : CommandParser),
    (items.foldl CommandParser.record p).mOptions = p.mOptions
  | [], p => rfl
  | item :: items, p => by
    rw [List.foldl_cons, foldl_record_mOptions items]
    cases item <;> rfl

/-- The trailing arguments after a list of items: the arguments on their own
that follow the last option, behind the earlier ones when there is no
option. -/
theorem foldl_record_trailing (p : CommandParser) (items : List ArgItem) :
    ∃ pre post, items = pre ++ post.map ArgItem.trailing ∧
      ((pre = [] ∧ (items.foldl CommandParser.record p).mTrailingArgs =
          p.mTrailingArgs ++ post) ∨
       ((∃ pre' item, pre = pre' ++ [item] ∧ item.isOption = true) ∧
          (items.foldl CommandParser.record p).mTrailingArgs = post)) := by
  induction items using List.reverseRecOn with
  | nil => exact ⟨[], [], rfl, Or.inl ⟨rfl, by simp⟩⟩
  | append_singleton items item ih =>
    obtain ⟨pre, post, hitems, h⟩ := ih
    rw [List.foldl_append, List.foldl_cons, List.foldl_nil]
    cases item with
    | trailing arg =>
      refine ⟨pre, post ++ [arg], by simp [hitems], ?_⟩
      rcases h with ⟨hpre, ht⟩ | ⟨hpre, ht⟩
      · exact Or.inl ⟨hpre, by simp [CommandParser.record, ht]⟩
      · exact Or.inr ⟨hpre, by simp [CommandParser.record, ht]⟩
    | flag option =>
      exact ⟨items ++ [ArgItem.flag option], [], by simp,
        Or.inr ⟨⟨items, ArgItem.flag option, rfl, rfl⟩, rfl⟩⟩
    | valued option value =>
      exact ⟨items ++ [ArgItem.valued option value], [], by simp,
        Or.inr ⟨⟨items, ArgItem.valued option value, rfl, rfl⟩, rfl⟩⟩

/-- The boolean results after a list of items. -/
theorem foldl_record_bool (name : String) : ∀ (items : List ArgItem) (p : CommandParser),
    StringMap.find (items.foldl CommandParser.record p).mBoolResults name =
      if ArgItem.flag name ∈ items then some true else StringMap.find p.mBoolResults name
  | [], p => by simp
  | item :: items, p => by
    rw [List.foldl_cons, foldl_record_bool name items]
    by_cases hmem : ArgItem.flag name ∈ items
    · simp [hmem]
    · simp only [hmem, if_false, List.mem_cons]
      cases item with
      | trailing arg => simp [CommandParser.record]
      | valued option value => simp [CommandParser.record]
      | flag option =>
        simp only [CommandParser.record, StringMap.find_assign, ArgItem.flag.injEq, or_false]

/-- The value results after a list of items in which the option does not
occur. -/
theorem foldl_record_value_absent (name : String) :
    ∀ (items : List ArgItem) (p : CommandParser),
      (∀ value, ArgItem.valued name value ∉ items) →
      StringMap.find (items.foldl CommandParser.record p).mValueResults name =
        StringMap.find p.mValueResults name
  | [], p, _ => rfl
  | item :: items, p, h => by
    rw [List.foldl_cons, foldl_record_value_absent name items _
      (fun value hv => h value (List.mem_cons_of_mem _ hv))]
    cases item with
    | trailing arg => rfl
    | flag option => rfl
    | valued option value =>
      have hne : ¬ name = option := by
        intro he
        subst he
        exact h value (List.mem_cons_self _ _)
      simp only [CommandParser.record, StringMap.find_assign, hne, if_false]

/-- The value results after a list of items: the value of the last occurrence
of the option. -/
theorem foldl_record_value (name value : String) (pre post : List ArgItem)
    (p : CommandParser) (h : ∀ v, ArgItem.valued name v ∉ post) :
    StringMap.find ((pre ++ ArgItem.valued name value :: post).foldl
      CommandParser.record p).mValueResults name = some value := by
  rw [List.foldl_append, List.foldl_cons, foldl_record_value_absent name post _ h]
  simp only [CommandParser.record, StringMap.find_assign, if_true]

/-! ### The scan of the arguments -/

theorem scanItems_induction (mOptions : StringMap Bool) (P : List String → List ArgItem → Prop)
    (hnil : P [] [])
    (htrailing : ∀ arg rest tail, StringMap.find mOptions arg = none →
      startsWithDash arg = false → scanItems mOptions rest = some tail → P rest tail →
      P (arg :: rest) (ArgItem.trailing arg :: tail))
    (hflag : ∀ arg rest tail, StringMap.find mOptions arg = some false →
      scanItems mOptions rest = some tail → P rest tail →
      P (arg :: rest) (ArgItem.flag arg :: tail))
    (hvalued : ∀ arg value rest tail, StringMap.find mOptions arg = some true →
      startsWithDash value = false → scanItems mOptions rest = some tail → P rest tail →
      P (arg :: value :: rest) (ArgItem.valued arg value :: tail)) :
    ∀ (args : List String) (items : List ArgItem),
      scanItems mOptions args = some items → P args items := by
  have hbound : ∀ (n : Nat) (args : List String) (items : List ArgItem), args.length ≤ n →
      scanItems mOptions args = some items → P args items := by
    intro n
    induction n with
    | zero =>
      intro args items hlen hscan
      have hargs : args = [] := List.length_eq_zero.mp (Nat.le_zero.mp hlen)
      subst hargs
      rw [scanItems] at hscan
      cases hscan
      exact hnil
    | succ n ih =>
      intro args items hlen hscan
      cases args with
      | nil =>
        rw [scanItems] at hscan
        cases hscan
        exact hnil
      | cons arg rest =>
        simp only [List.length_cons] at hlen
        rw [scanItems_cons] at hscan
        cases hf : StringMap.find mOptions arg with
        | none =>
          rw [hf] at hscan
          cases hd : startsWithDash arg with
          | true => simp [hd] at hscan
          | false =>
            simp only [hd, Bool.false_eq_true, if_false, Option.map_eq_some'] at hscan
            obtain ⟨tail, htail, rfl⟩ := hscan
            exact htrailing arg rest tail hf hd htail (ih rest tail (by omega) htail)
        | some kind =>
          rw [hf] at hscan
          cases kind with
          | false =>
            simp only [Option.map_eq_some'] at hscan
            obtain ⟨tail, htail, rfl⟩ := hscan
            exact hflag arg rest tail hf htail (ih rest tail (by omega) htail)
          | true =>
            cases rest with
            | nil => simp at hscan
            | cons value rest' =>
              simp only [List.length_cons] at hlen
              cases hd : startsWithDash value with
              | true => simp [hd] at hscan
              | false =>
                simp only [hd, Bool.false_eq_true, if_false, Option.map_eq_some'] at hscan
                obtain ⟨tail, htail, rfl⟩ := hscan
                exact hvalued arg value rest' tail hf hd htail
                  (ih rest' tail (by omega) htail)
  intro args items
  exact hbound args.length args items (le_refl _)

/-- The items of a scan cover the arguments in order. -/
theorem scanItems_args (mOptions : StringMap Bool) (args : List String) (items : List ArgItem)
    (h : scanItems mOptions args = some items) :
    (items.map ArgItem.args).flatten = args := by
  refine scanItems_induction mOptions (fun args items => (items.map ArgItem.args).flatten = args)
    rfl ?_ ?_ ?_ args items h
  · intro arg rest tail _ _ _ ih
    simp [ArgItem.args, ih]
  · intro arg rest tail _ _ ih
    simp [ArgItem.args, ih]
  · intro arg value rest tail _ _ _ ih
    simp [ArgItem.args, ih]

/-- What the scan takes an argument for agrees with the registered options. -/
theorem scanItems_sound (mOptions : StringMap Bool) (args : List String)
    (items : List ArgItem) (h : scanItems mOptions args = some items) :
    (∀ arg, ArgItem.trailing arg ∈ items →
      StringMap.find mOptions arg = none ∧ startsWithDash arg = false) ∧
    (∀ option, ArgItem.flag option ∈ items → StringMap.find mOptions option = some false) ∧
    (∀ option value, ArgItem.valued option value ∈ items →
      StringMap.find mOptions option = some true ∧ startsWithDash value = false) := by
  refine scanItems_induction mOptions (fun _ items =>
    (∀ arg, ArgItem.trailing arg ∈ items →
      StringMap.find mOptions arg = none ∧ startsWithDash arg = false) ∧
    (∀ option, ArgItem.flag option ∈ items → StringMap.find mOptions option = some false) ∧
    (∀ option value, ArgItem.valued option value ∈ items →
      StringMap.find mOptions option = some true ∧ startsWithDash value = false))
    ?_ ?_ ?_ ?_ args items h
  · simp
  · intro arg rest tail hf hd _ ih
    obtain ⟨h1, h2, h3⟩ := ih
    refine ⟨?_, ?_, ?_⟩
    · intro a ha
      simp only [List.mem_cons, ArgItem.trailing.injEq] at ha
      rcases ha with rfl | ha
      · exact ⟨hf, hd⟩
      · exact h1 a ha
    · intro o ho
      simp only [List.mem_cons] at ho
      rcases ho with ho | ho
      · cases ho
      · exact h2 o ho
    · intro o v ho
      simp only [List.mem_cons] at ho
      rcases ho with ho | ho
      · cases ho
      · exact h3 o v ho
  · intro arg rest tail hf _ ih
    obtain ⟨h1, h2, h3⟩ := ih
    refine ⟨?_, ?_, ?_⟩
    · intro a ha
      simp only [List.mem_cons] at ha
      rcases ha with ha | ha
      · cases ha
      · exact h1 a ha
    · intro o ho
      simp only [List.mem_cons, ArgItem.flag.injEq] at ho
      rcases ho with rfl | ho
      · exact hf
      · exact h2 o ho
    · intro o v ho
      simp only [List.mem_cons] at ho
      rcases ho with ho | ho
      · cases ho
      · exact h3 o v ho
  · intro arg value rest tail hf hd _ ih
    obtain ⟨h1, h2, h3⟩ := ih
    refine ⟨?_, ?_, ?_⟩
    · intro a ha
      simp only [List.mem_cons] at ha
      rcases ha with ha | ha
      · cases ha
      · exact h1 a ha
    · intro o ho
      simp only [List.mem_cons] at ho
      rcases ho with ho | ho
      · cases ho
      · exact h2 o ho
    · intro o v ho
      simp only [List.mem_cons, ArgItem.valued.injEq] at ho
      rcases ho with ⟨rfl, rfl⟩ | ho
      · exact ⟨hf, hd⟩
      · exact h3 o v ho

/-- Every option of an item occurs among the arguments. -/
theorem scanItems_valued_mem (mOptions : StringMap Bool) (args : List String)
    (items : List ArgItem) (h : scanItems mOptions args = some items) (option value : String)
    (hmem : ArgItem.valued option value ∈ items) : option ∈ args := by
  rw [← scanItems_args mOptions args items h]
  simp only [List.mem_flatten, List.mem_map]
  exact ⟨[option, value], ⟨_, hmem, rfl⟩, List.mem_cons_self _ _⟩

/-! ### Options that start with a dash -/

theorem StringMap.find_mem {V : Type} (key : String) (value : V) :
    ∀ (m : StringMap V), StringMap.find m key = some value → (key, value) ∈ m
  | [], h => by simp [StringMap.find] at h
  | e :: rest, h => by
    simp only [StringMap.find] at h
    by_cases he : e.1 = key
    · simp only [he, if_true, Option.some.injEq] at h
      have : e = (key, value) := Prod.ext he h
      rw [this]
      exact List.mem_cons_self _ _
    · simp only [he, if_false] at h
      exact List.mem_cons_of_mem _ (StringMap.find_mem key value rest h)

/-- With options that all start with a dash, an argument without a dash is not
an option. -/
theorem find_of_no_dash (mOptions : StringMap Bool) (hd : DashOptions mOptions) (arg : String)
    (h : startsWithDash arg = false) : StringMap.find mOptions arg = none := by
  cases hf : StringMap.find mOptions arg with
  | none => rfl
  | some kind =>
    have := hd _ (StringMap.find_mem arg kind mOptions hf)
    simp only at this
    rw [h] at this
    cases this

theorem offending_succ (mOptions : StringMap Bool) (arg : String) (rest : List String)
    (i : Nat) : offending mOptions (arg :: rest) (i + 1) = offending mOptions rest i := by
  simp only [offending, List.getElem?_cons_succ]

/-- With options that all start with a dash, the scan fails exactly when some
argument is an unknown option or a value option without a value. -/
theorem scanItems_none_iff (mOptions : StringMap Bool) (hd : DashOptions mOptions) :
    ∀ (args : List String),
      scanItems mOptions args = none ↔ ∃ i, offending mOptions args i = true := by
  have hbound : ∀ (n : Nat) (args : List String), args.length ≤ n →
      (scanItems mOptions args = none ↔ ∃ i, offending mOptions args i = true) := by
    intro n
    induction n with
    | zero =>
      intro args hlen
      have hargs : args = [] := List.length_eq_zero.mp (Nat.le_zero.mp hlen)
      subst hargs
      simp [scanItems, offending]
    | succ n ih =>
      intro args hlen
      cases args with
      | nil => simp [scanItems, offending]
      | cons arg rest =>
        simp only [List.length_cons] at hlen
        have hshift : (∃ i, offending mOptions rest i = true) →
            ∃ i, offending mOptions (arg :: rest) i = true := by
          rintro ⟨i, hi⟩
          exact ⟨i + 1, by rw [offending_succ]; exact hi⟩
        rw [scanItems_cons]
        cases hf : StringMap.find mOptions arg with
        | none =>
          cases hdash : startsWithDash arg with
          | true =>
            simp only [if_true, true_iff]
            exact ⟨0, by simp [offending, hf, hdash]⟩
          | false =>
            simp only [Bool.false_eq_true, if_false, Option.map_eq_none']
            rw [ih rest (by omega)]
            refine ⟨hshift, ?_⟩
            rintro ⟨i, hi⟩
            cases i with
            | zero => simp [offending, hf, hdash] at hi
            | succ j => exact ⟨j, by rw [offending_succ] at hi; exact hi⟩
        | some kind =>
          cases kind with
          | false =>
            simp only [Option.map_eq_none']
            rw [ih rest (by omega)]
            refine ⟨hshift, ?_⟩
            rintro ⟨i, hi⟩
            cases i with
            | zero => simp [offending, hf] at hi
            | succ j => exact ⟨j, by rw [offending_succ] at hi; exact hi⟩
          | true =>
            cases rest with
            | nil =>
              simp only [true_iff]
              exact ⟨0, by simp [offending, hf]⟩
            | cons value rest' =>
              simp only [List.length_cons] at hlen
              cases hdash : startsWithDash value with
              | true =>
                simp only [hdash, if_true, true_iff]
                exact ⟨0, by simp [offending, hf, hdash]⟩
              | false =>
                simp only [hdash, Bool.false_eq_true, if_false, Option.map_eq_none']
                rw [ih rest' (by omega)]
                constructor
                · rintro ⟨i, hi⟩
                  exact ⟨i + 2, by rw [offending_succ, offending_succ]; exact hi⟩
                · rintro ⟨i, hi⟩
                  cases i with
                  | zero => simp [offending, hf, hdash] at hi
                  | succ j =>
                    cases j with
                    | zero =>
                      have hv := find_of_no_dash mOptions hd value hdash
                      simp [offending, hv, hdash] at hi
                    | succ k =>
                      exact ⟨k, by rw [offending_succ, offending_succ] at hi; exact hi⟩
  intro args
  exact hbound args.length args (le_refl _)

/-- With options that all start with a dash, every boolean option among the
arguments is an item of the scan. -/
theorem scanItems_flag_mem (mOptions : StringMap Bool) (hd : DashOptions mOptions)
    (args : List String) (items : List ArgItem) (h : scanItems mOptions args = some items) :
    ∀ name, name ∈ args → StringMap.find mOptions name = some false →
      ArgItem.flag name ∈ items := by
  refine scanItems_induction mOptions (fun args items =>
    ∀ name, name ∈ args → StringMap.find mOptions name = some false →
      ArgItem.flag name ∈ items) ?_ ?_ ?_ ?_ args items h
  · intro name hmem
    cases hmem
  · intro arg rest tail hf _ _ ih name hmem hname
    simp only [List.mem_cons] at hmem
    rcases hmem with rfl | hmem
    · rw [hf] at hname
      cases hname
    · exact List.mem_cons_of_mem _ (ih name hmem hname)
  · intro arg rest tail _ _ ih name hmem hname
    simp only [List.mem_cons] at hmem
    rcases hmem with rfl | hmem
    · exact List.mem_cons_self _ _
    · exact List.mem_cons_of_mem _ (ih name hmem hname)
  · intro arg value rest tail hf hdash _ ih name hmem hname
    simp only [List.mem_cons] at hmem
    rcases hmem with rfl | rfl | hmem
    · rw [hf] at hname
      cases hname
    · rw [find_of_no_dash mOptions hd name hdash] at hname
      cases hname
    · exact List.mem_cons_of_mem _ (ih name hmem hname)

/-- With options that all start with a dash, the last occurrence of a value
option among the arguments is an item of the scan, together with the argument
that follows it, and no later item is for the same option. -/
theorem scanItems_last_value (mOptions : StringMap Bool) (hd : DashOptions mOptions)
    (args : List String) (items : List ArgItem) (h : scanItems mOptions args = some items) :
    ∀ pre name post, args = pre ++ name :: post →
      StringMap.find mOptions name = some true → name ∉ post →
      ∃ value rest, post = value :: rest ∧
        ∃ ipre ipost, items = ipre ++ ArgItem.valued name value :: ipost ∧
          ∀ v, ArgItem.valued name v ∉ ipost := by
  refine scanItems_induction mOptions (fun args items =>
    ∀ pre name post, args = pre ++ name :: post →
      StringMap.find mOptions name = some true → name ∉ post →
      ∃ value rest, post = value :: rest ∧
        ∃ ipre ipost, items = ipre ++ ArgItem.valued name value :: ipost ∧
          ∀ v, ArgItem.valued name v ∉ ipost) ?_ ?_ ?_ ?_ args items h
  · intro pre name post hargs
    cases pre <;> cases hargs
  · intro arg rest tail hf _ _ ih pre name post hargs hname hlast
    cases pre with
    | nil =>
      simp only [List.nil_append, List.cons.injEq] at hargs
      rw [← hargs.1, hf] at hname
      cases hname
    | cons a pre' =>
      simp only [List.cons_append, List.cons.injEq] at hargs
      obtain ⟨value, rest', hpost, ipre, ipost, hitems, hnone⟩ :=
        ih pre' name post hargs.2 hname hlast
      exact ⟨value, rest', hpost, ArgItem.trailing arg :: ipre, ipost, by simp [hitems], hnone⟩
  · intro arg rest tail hf _ ih pre name post hargs hname hlast
    cases pre with
    | nil =>
      simp only [List.nil_append, List.cons.injEq] at hargs
      rw [← hargs.1, hf] at hname
      cases hname
    | cons a pre' =>
      simp only [List.cons_append, List.cons.injEq] at hargs
      obtain ⟨value, rest', hpost, ipre, ipost, hitems, hnone⟩ :=
        ih pre' name post hargs.2 hname hlast
      exact ⟨value, rest', hpost, ArgItem.flag arg :: ipre, ipost, by simp [hitems], hnone⟩
  · intro arg value rest tail hf hdash htail ih pre name post hargs hname hlast
    cases pre with
    | nil =>
      simp only [List.nil_append, List.cons.injEq] at hargs
      obtain ⟨rfl, rfl⟩ := hargs
      refine ⟨value, rest, rfl, [], tail, rfl, ?_⟩
      intro v hv
      exact hlast (List.mem_cons_of_mem _ (scanItems_valued_mem mOptions rest tail htail _ v hv))
    | cons a pre' =>
      simp only [List.cons_append, List.cons.injEq] at hargs
      cases pre' with
      | nil =>
        simp only [List.nil_append, List.cons.injEq] at hargs
        rw [← hargs.2.1, find_of_no_dash mOptions hd value hdash] at hname
        cases hname
      | cons b pre'' =>
        simp only [List.cons_append, List.cons.injEq] at hargs
        obtain ⟨value', rest', hpost, ipre, ipost, hitems, hnone⟩ :=
          ih pre'' name post hargs.2.2 hname hlast
        exact ⟨value', rest', hpost, ArgItem.valued arg value :: ipre, ipost, by simp [hitems],
          hnone⟩

/-- The length of the argument list is enough fuel for the loop of `parse`:
any larger amount gives the same parser and the same status. -/
theorem parseLoop_fuel : ∀ (fuel fuel' : Nat) (p : CommandParser),
    p.mArgList.length ≤ fuel → p.mArgList.length ≤ fuel' →
    CommandParser.parseLoop fuel p = CommandParser.parseLoop fuel' p
  | 0, 0, _, _, _ => rfl
  | 0, fuel' + 1, p, h, _ => by
    have hnil : p.mArgList = [] := List.length_eq_zero.mp (Nat.le_zero.mp h)
    rw [CommandParser.parseLoop, CommandParser.parseLoop]
    simp only [hnil]
  | fuel + 1, 0, p, _, h => by
    have hnil : p.mArgList = [] := List.length_eq_zero.mp (Nat.le_zero.mp h)
    rw [CommandParser.parseLoop, CommandParser.parseLoop]
    simp only [hnil]
  | fuel + 1, fuel' + 1, p, h, h' => by
    rw [CommandParser.parseLoop, CommandParser.parseLoop]
    cases hargs : p.mArgList with
    | nil => rfl
    | cons arg rest =>
      rw [hargs] at h h'
      simp only [List.length_cons] at h h'
      simp only
      cases hf : StringMap.find p.mOptions arg with
      | none =>
        simp only
        cases hd : startsWithDash arg with
        | true => rfl
        | false =>
          simp only [Bool.not_false, if_true]
          exact parseLoop_fuel fuel fuel' _ (by simp only; omega) (by simp only; omega)
      | some kind =>
        cases kind with
        | false =>
          simp only
          exact parseLoop_fuel fuel fuel' _ (by simp only; omega) (by simp only; omega)
        | true =>
          cases rest with
          | nil => rfl
          | cons value rest' =>
            simp only [List.length_cons] at h h'
            simp only
            cases hd : startsWithDash value with
            | true => rfl
            | false =>
              simp only [Bool.not_false, if_true]
              exact parseLoop_fuel fuel fuel' _ (by simp only; omega) (by simp only; omega)

/-! ### The member `parse` -/

theorem parse_status (p : CommandParser) :
    (p.parse).2 = (CommandParser.parseLoop p.mArgList.length p).2 := by
  simp only [CommandParser.parse]
  split <;> rfl

/-- The member `parse` on arguments that the scan does not go through. -/
theorem parse_of_scan_none (p : CommandParser) (h : scanItems p.mOptions p.mArgList = none) :
    (p.parse).2 = -1 ∧ (p.parse).1.mBoolResults = [] ∧ (p.parse).1.mValueResults = [] ∧
    (p.parse).1.mTrailingArgs = [] := by
  have hs := parseLoop_fails p.mArgList.length p (le_refl _) h
  simp only [CommandParser.parse, hs]
  exact ⟨rfl, rfl, rfl, rfl⟩

/-- The member `parse` on arguments that the scan goes through. -/
theorem parse_of_scan_some (p : CommandParser) (items : List ArgItem)
    (h : scanItems p.mOptions p.mArgList = some items) :
    p.parse = ({ items.foldl CommandParser.record p with mArgList := [] }, 0) := by
  have hs := parseLoop_items p.mArgList.length p items (le_refl _) h
  simp only [CommandParser.parse, hs]
  rfl

theorem flatten_trailing (post : List String) :
    ((post.map ArgItem.trailing).map ArgItem.args).flatten = post := by
  induction post with
  | nil => rfl
  | cons a rest ih =>
    simp only [List.map_cons, List.flatten_cons, ih, ArgItem.args, List.singleton_append]

/-- C34: `CommandParser::parse` returns -1 exactly when the scan of the
arguments from left to right, in which a value option takes the argument that
follows it along, meets an argument that starts with a dash and is not a
registered option, or a registered value option that is the last argument or
is followed by an argument that starts with a dash; otherwise it returns 0.
After a parse that returned -1, `boolOption` and `valueOption` return the
default of the caller for every option name and `trailingArgs` is empty.  When
every registered option starts with a dash, the parse returns -1 exactly when
some argument of the command line is of one of these two kinds. -/
theorem parse_failure (p : CommandParser) :
    ((p.parse).2 = -1 ↔ scanItems p.mOptions p.mArgList = none) ∧
    ((p.parse).2 ≠ -1 → (p.parse).2 = 0) ∧
    ((p.parse).2 = -1 →
      ∀ (option : String) (defaultVal : Bool) (defaultValue : String),
        (p.parse).1.boolOption option defaultVal = defaultVal ∧
        (p.parse).1.valueOption option defaultValue = defaultValue ∧
        (p.parse).1.trailingArgs = []) ∧
    (DashOptions p.mOptions →
      ((p.parse).2 = -1 ↔ ∃ i, offending p.mOptions p.mArgList i = true)) := by
  have hiff : (p.parse).2 = -1 ↔ scanItems p.mOptions p.mArgList = none := by
    cases hscan : scanItems p.mOptions p.mArgList with
    | none => simp [(parse_of_scan_none p hscan).1]
    | some items => simp [parse_of_scan_some p items hscan]
  refine ⟨hiff, ?_, ?_, ?_⟩
  · intro hne
    cases hscan : scanItems p.mOptions p.mArgList with
    | none => exact absurd (hiff.mpr hscan) hne
    | some items => rw [parse_of_scan_some p items hscan]
  · intro hfail option defaultVal defaultValue
    obtain ⟨-, hb, hv, ht⟩ := parse_of_scan_none p (hiff.mp hfail)
    simp only [CommandParser.boolOption, CommandParser.valueOption, CommandParser.trailingArgs,
      hb, hv, ht, StringMap.find]
    exact ⟨trivial, trivial, trivial⟩
  · intro hd
    rw [hiff]
    exact scanItems_none_iff p.mOptions hd p.mArgList

/-- The witness of `parse_failure`: the parser of the converter on a command
line that ends with the value option `-o`. -/
theorem parse_failure_witness :
    DashOptions (converterParser ["rcmconvert", "model.obj", "-o"]).mOptions ∧
    (((converterParser ["rcmconvert", "model.obj", "-o"]).parse).2 = -1 ↔
      ∃ i, offending (converterParser ["rcmconvert", "model.obj", "-o"]).mOptions
        (converterParser ["rcmconvert", "model.obj", "-o"]).mArgList i = true) ∧
    ((converterParser ["rcmconvert", "model.obj", "-o"]).parse).2 = -1 :=
  ⟨by decide,
    (parse_failure (converterParser ["rcmconvert", "model.obj", "-o"])).2.2.2 (by decide),
    by decide⟩

/-- C35: for every argument list on which `CommandParser::parse` of a parser
that holds no trailing arguments yet returns 0, the arguments scan from left
to right into items (an argument on its own, a boolean option, a value option
with the argument that follows it) that cover the command line in order;
`trailingArgs` is exactly the list of the arguments that come after the last
option item (after its value, when that is a value option), in command-line
order; none of them starts with a dash; every boolean option that occurs as an
item is reported true by `boolOption`, and every value option that occurs as
an item reports the argument that follows its last occurrence.  When every
registered option starts with a dash, every registered boolean option among
the arguments is reported true and every registered value option among the
arguments reports the argument that follows its last occurrence. -/
theorem trailing_arguments (p : CommandParser) (hfresh : p.mTrailingArgs = [])
    (h0 : (p.parse).2 = 0) :
    ∃ items, scanItems p.mOptions p.mArgList = some items ∧
      (items.map ArgItem.args).flatten = p.mArgList ∧
      (∃ pre, items = pre ++ (p.parse).1.trailingArgs.map ArgItem.trailing ∧
        (pre = [] ∨ ∃ pre' item, pre = pre' ++ [item] ∧ item.isOption = true)) ∧
      (∃ pre, p.mArgList = pre ++ (p.parse).1.trailingArgs ∧
        (∀ arg ∈ (p.parse).1.trailingArgs, StringMap.find p.mOptions arg = none) ∧
        (pre = [] ∨
          (∃ pre' name, pre = pre' ++ [name] ∧ StringMap.find p.mOptions name = some false) ∨
          (∃ pre' name value, pre = pre' ++ [name, value] ∧
            StringMap.find p.mOptions name = some true ∧ startsWithDash value = false))) ∧
      (∀ arg ∈ (p.parse).1.trailingArgs, startsWithDash arg = false) ∧
      (∀ name, ArgItem.flag name ∈ items →
        ∀ defaultVal, (p.parse).1.boolOption name defaultVal = true) ∧
      (∀ ipre name value ipost, items = ipre ++ ArgItem.valued name value :: ipost →
        (∀ v, ArgItem.valued name v ∉ ipost) →
        ∀ defaultValue, (p.parse).1.valueOption name defaultValue = value) ∧
      (DashOptions p.mOptions →
        (∀ name ∈ p.mArgList, StringMap.find p.mOptions name = some false →
          ∀ defaultVal, (p.parse).1.boolOption name defaultVal = true) ∧
        (∀ pre name post, p.mArgList = pre ++ name :: post →
          StringMap.find p.mOptions name = some true → name ∉ post →
          ∃ value rest, post = value :: rest ∧
            ∀ defaultValue, (p.parse).1.valueOption name defaultValue = value)) := by
  cases hscan : scanItems p.mOptions p.mArgList with
  | none =>
    rw [(parse_of_scan_none p hscan).1] at h0
    cases h0
  | some items =>
    have hparse := parse_of_scan_some p items hscan
    have hargs := scanItems_args p.mOptions p.mArgList items hscan
    obtain ⟨htr, hfl, hva⟩ := scanItems_sound p.mOptions p.mArgList items hscan
    have hbool : ∀ name, ArgItem.flag name ∈ items →
        ∀ defaultVal, (p.parse).1.boolOption name defaultVal = true := by
      intro name hmem defaultVal
      have := foldl_record_bool name items p
      rw [if_pos hmem] at this
      simp only [hparse, CommandParser.boolOption, this]
    have hvalue : ∀ ipre name value ipost, items = ipre ++ ArgItem.valued name value :: ipost →
        (∀ v, ArgItem.valued name v ∉ ipost) →
        ∀ defaultValue, (p.parse).1.valueOption name defaultValue = value := by
      intro ipre name value ipost hitems hlast defaultValue
      have := foldl_record_value name value ipre ipost p hlast
      rw [← hitems] at this
      simp only [hparse, CommandParser.valueOption, this]
    obtain ⟨pre, post, hitems, hcase⟩ := foldl_record_trailing p items
    have hpost : (p.parse).1.trailingArgs = post := by
      simp only [hparse, CommandParser.trailingArgs]
      rcases hcase with ⟨-, ht⟩ | ⟨-, ht⟩
      · rw [ht, hfresh, List.nil_append]
      · exact ht
    have hpre : pre = [] ∨ ∃ pre' item, pre = pre' ++ [item] ∧ item.isOption = true := by
      rcases hcase with ⟨hp, -⟩ | ⟨hp, -⟩
      · exact Or.inl hp
      · exact Or.inr hp
    have hmemPost : ∀ arg ∈ post, ArgItem.trailing arg ∈ items := by
      intro arg harg
      rw [hitems]
      exact List.mem_append_right _ (List.mem_map_of_mem _ harg)
    refine ⟨items, rfl, hargs, ⟨pre, by rw [hpost]; exact hitems, hpre⟩, ?_, ?_, hbool, hvalue,
      ?_⟩
    · refine ⟨(pre.map ArgItem.args).flatten, ?_, ?_, ?_⟩
      · rw [hpost, ← hargs, hitems, List.map_append, List.flatten_append, flatten_trailing]
      · intro arg harg
        rw [hpost] at harg
        exact (htr arg (hmemPost arg harg)).1
      · rcases hpre with hp | ⟨pre', item, hp, hopt⟩
        · exact Or.inl (by rw [hp]; rfl)
        · have hmem : item ∈ items := by
            rw [hitems, hp]
            simp
          cases item with
          | trailing arg => cases hopt
          | flag name =>
            exact Or.inr (Or.inl ⟨(pre'.map ArgItem.args).flatten, name,
              by simp [hp, ArgItem.args], hfl name hmem⟩)
          | valued name value =>
            exact Or.inr (Or.inr ⟨(pre'.map ArgItem.args).flatten, name, value,
              by simp [hp, ArgItem.args], (hva name value hmem).1, (hva name value hmem).2⟩)
    · intro arg harg
      rw [hpost] at harg
      exact (htr arg (hmemPost arg harg)).2
    · intro hd
      refine ⟨?_, ?_⟩
      · intro name hmem hname
        exact hbool name (scanItems_flag_mem p.mOptions hd p.mArgList items hscan name hmem hname)
      · intro apre name apost hsplit hname hlast
        obtain ⟨value, rest, hrest, ipre, ipost, hsplitItems, hnone⟩ :=
          scanItems_last_value p.mOptions hd p.mArgList items hscan apre name apost hsplit hname
            hlast
        exact ⟨value, rest, hrest, hvalue ipre name value ipost hsplitItems hnone⟩

/-- The witness of `trailing_arguments`: the parser of the converter on a
command line with two options and two trailing arguments. -/
theorem trailing_arguments_witness :
    (converterParser ["rcmconvert", "-a", "-o", "out.rcm", "model.obj", "extra"]).mTrailingArgs =
      [] ∧
    ((converterParser ["rcmconvert", "-a", "-o", "out.rcm", "model.obj", "extra"]).parse).2 =
      0 ∧
    ((converterParser ["rcmconvert", "-a", "-o", "out.rcm", "model.obj", "extra"]).parse).1.trailingArgs
      = ["model.obj", "extra"] ∧
    ∃ items,
      scanItems
        (converterParser ["rcmconvert", "-a", "-o", "out.rcm", "model.obj", "extra"]).mOptions
        (converterParser ["rcmconvert", "-a", "-o", "out.rcm", "model.obj", "extra"]).mArgList =
        some items ∧
      (items.map ArgItem.args).flatten =
        (converterParser ["rcmconvert", "-a", "-o", "out.rcm", "model.obj", "extra"]).mArgList :=
  ⟨by decide, by decide, by decide,
    (trailing_arguments
      (converterParser ["rcmconvert", "-a", "-o", "out.rcm", "model.obj", "extra"])
      (by decide) (by decide)).imp (fun _ h => ⟨h.1, h.2.1⟩)⟩

end Rcm
